import Mathlib

/-!
# qng block admission: UTXO transitions and the admission pipeline

A shallow embedding of `core/blockchain/process.go`, of the block-batch
framing of `cmd/qng/blockchain_cmds.go` and of the proof-of-work limits of
`params/params_testnet.go`.

* Part 1 embeds the UTXO view, the spend journal, `connectTransaction` and
  `disconnectTransactions`.
* Part 2 embeds the admission pipeline (`ProcessBlock`, `processBlock`,
  `preProcessBlock`, `maybeAcceptBlock`, `connectDagChain`, `connectBlock`,
  `disconnectBlock`, `updateBestState`) as functions that return their result together with the
  ordered list of calls they made to their collaborators; `reorganizeChain`,
  which is not part of the embedded file, is modelled from the specification
  on top of `disconnectBlock` and `connectBlock`.
* Part 2b embeds the framing of the block-batch file from
  `cmd/qng/blockchain_cmds.go` (`IBDBlock.Encode`, `IBDBlock.Decode`, the
  writing half of `exportBlockChain`, and the reading loop that feeds
  `FastAcceptBlock`).
* Part 2c embeds the proof-of-work limits of `params/params_testnet.go` and
  the compact encoding of targets.
* Part 3 holds the definitions used to state the properties, and the sample
  inputs they are evaluated on.
* Part 4 holds the theorems.

Helpers of other packages (`utxo`, `types`, `txscript`, `meerdag`, the
database) are not part of the embedded file.  Pure helpers are taken as
parameters (`Deps`), entry and view primitives are modelled from the
specification, and collaborators of the pipeline answer through `Env`.
A Go panic is the result `Ret.panicked`; a returned error is a value inside
`Ret.returned`.  Messages that the source builds with a format string are
kept without the formatted arguments.
-/

set_option linter.unusedVariables false
set_option linter.dupNamespace false

namespace Qng

/-! ## Part 1: data model -/

/-- Block and transaction hashes (`hash.Hash`), kept abstract as numbers. -/
abbrev Hash := Nat

/-- Locking scripts (`[]byte`). -/
abbrev Script := List Nat

/-- Coin identifiers (`types.CoinID`). -/
abbrev CoinID := Nat

/-- Go conversion `uint32(i)` of a non-negative `int`. -/
def uint32 (i : Nat) : Nat := i % 4294967296

/-- Go conversion `uint32(i)` of a signed `int`. -/
def uint32OfInt (i : Int) : Nat := (i % 4294967296).toNat

/-- The record `types.Amount`. -/
structure Amount where
  Value : Int
  Id : CoinID
  deriving DecidableEq, Repr

/-- The record `types.TxOutPoint`: the key of a UTXO entry. -/
structure TxOutPoint where
  Hash : Nat
  OutIndex : Nat
  deriving DecidableEq, Repr

/-- The record `types.TxInput`, reduced to the field the engine reads. -/
structure TxInput where
  PreviousOut : TxOutPoint
  deriving DecidableEq, Repr

/-- The record `types.TxOutput`. -/
structure TxOutput where
  Amount : Amount
  PkScript : Script
  deriving DecidableEq, Repr

/-- The record `types.Transaction`. -/
structure Transaction where
  TxIn : List TxInput
  TxOut : List TxOutput
  deriving DecidableEq, Repr

/-- The record `types.Tx`: a transaction with its cached hash (`tx.Hash()`),
its index in the block (`tx.Index()`) and the `IsDuplicate` mark. -/
structure Tx where
  Tx : Transaction
  hash : Nat
  Index : Int
  IsDuplicate : Bool
  deriving DecidableEq, Repr

/-- The record `types.SerializedBlock`, with the header fields the engine
reads: the cached hash (`block.Hash()`), the parents, the header timestamp in
Unix seconds, the compact difficulty, the proof-of-work kind, the
transactions, the serialized size, and the order and height that
`SetOrder` and `SetHeight` store. -/
structure SerializedBlock where
  hash : Nat
  Parents : List Nat
  Timestamp : Int
  Difficulty : Nat
  Pow : Nat
  Transactions : List Tx
  SerializeSize : Nat
  order : Nat
  height : Nat
  deriving DecidableEq, Repr

/-- The record `utxo.SpentTxOut`: one journal entry. -/
structure SpentTxOut where
  Amount : Amount
  PkScript : Script
  BlockHash : Nat
  IsCoinBase : Bool
  TxIndex : Nat
  TxInIndex : Nat
  Fees : Qng.Amount
  deriving DecidableEq, Repr

/-- The rule error codes named in `process.go`; every other code is
`ErrOther`. -/
inductive ErrorCode where
  | ErrDuplicateBlock
  | ErrCheckpointTimeTooOld
  | ErrDifficultyTooLow
  | ErrOther (n : Nat)
  deriving DecidableEq, Repr

/-- Errors a function can return. `AssertError` is `model.AssertError`,
`RuleError` is `ruleError(code, _)`, `Plain` is `fmt.Errorf` or an error
handed back by a collaborator. -/
inductive Error where
  | AssertError (msg : String)
  | RuleError (code : ErrorCode) (msg : String)
  | Plain (msg : String)
  deriving DecidableEq, Repr

/-- The text `err.Error()`. -/
def Error.msg : Error → String
  | Error.AssertError m => m
  | Error.RuleError _ m => m
  | Error.Plain m => m

/-- The constructor `ruleError(code, str)`. -/
def ruleError (code : ErrorCode) (str : String) : Error := Error.RuleError code str

/-- Either the function returned normally with a value, or the goroutine
panicked (an explicit Go panic, or a run-time fault such as an index out of
range). -/
inductive Ret (α : Type) where
  | returned (a : α)
  | panicked (msg : String)
  deriving DecidableEq, Repr

/-- Pure helpers and constants of other packages that the embedded functions
call; they are parameters of the development. -/
structure Deps where
  /-- The method `Transaction.IsCoinBase`. -/
  IsCoinBase : Transaction → Bool
  /-- The function `types.IsTokenTx`. -/
  IsTokenTx : Transaction → Bool
  /-- The function `types.IsTokenMintTx`. -/
  IsTokenMintTx : Transaction → Bool
  /-- The function `types.IsCrossChainVMTx`. -/
  IsCrossChainVMTx : Transaction → Bool
  /-- The function `types.IsCrossChainImportTx`. -/
  IsCrossChainImportTx : Transaction → Bool
  /-- The function `txscript.IsUnspendable`. -/
  IsUnspendable : Script → Bool
  /-- The parameter `bc.params.GenesisHash`. -/
  GenesisHash : Nat
  /-- The constant `CoinbaseOutput_subsidy`. -/
  CoinbaseOutput_subsidy : Nat
  /-- The constant `types.MEERA`. -/
  MEERA : CoinID
  /-- The method `bc.GetFeeByCoinID`. -/
  GetFeeByCoinID : Nat → CoinID → Int
  /-- The method `bc.countSpentOutputs`. -/
  countSpentOutputs : SerializedBlock → Int

/-! ### UTXO entries and views -/

/-- Modelled from the spec: the record `utxo.UtxoEntry` is not in the embedded
file. "UTXO Entry: amount, locking script, origin block hash, coinbase flag,
spent flag, modified flag." -/
structure UtxoEntry where
  amount : Amount
  pkScript : Script
  blockHash : Nat
  coinBase : Bool
  spent : Bool
  modified : Bool
  deriving DecidableEq, Repr

namespace UtxoEntry

/-- The zero value `&utxo.UtxoEntry{}`. -/
def zero : UtxoEntry :=
  { amount := { Value := 0, Id := 0 }, pkScript := [], blockHash := 0,
    coinBase := false, spent := false, modified := false }

/-- Modelled from the spec: `UtxoEntry.Spend` is not in the embedded file.
"Mark it spent." -/
def Spend (e : UtxoEntry) : UtxoEntry := { e with spent := true }

/-- Modelled from the spec: `UtxoEntry.SetAmount` is not in the embedded file;
it stores the amount. -/
def SetAmount (e : UtxoEntry) (a : Amount) : UtxoEntry := { e with amount := a }

/-- Modelled from the spec: `UtxoEntry.SetPkScript` is not in the embedded
file; it stores the locking script. -/
def SetPkScript (e : UtxoEntry) (s : Script) : UtxoEntry := { e with pkScript := s }

/-- Modelled from the spec: `UtxoEntry.SetBlockHash` is not in the embedded
file; it stores the origin block hash. -/
def SetBlockHash (e : UtxoEntry) (h : Nat) : UtxoEntry := { e with blockHash := h }

/-- Modelled from the spec: `UtxoEntry.Modified` is not in the embedded file.
"marking it modified": it sets the modified flag and leaves the other fields
as they are. -/
def Modified (e : UtxoEntry) : UtxoEntry := { e with modified := true }

/-- Modelled from the spec: `UtxoEntry.CoinBase` is not in the embedded file;
it sets the coinbase flag. -/
def CoinBase (e : UtxoEntry) : UtxoEntry := { e with coinBase := true }

end UtxoEntry

/-- Modelled from the spec: `utxo.NewUtxoEntry` is not in the embedded file.
A new entry "with the output's amount and script, the block's hash and
coinbase flag"; it is unspent, and being new to the view it is modified. -/
def NewUtxoEntry (amount : Amount) (pkScript : Script) (blockHash : Nat)
    (isCoinBase : Bool) : UtxoEntry :=
  { amount := amount, pkScript := pkScript, blockHash := blockHash,
    coinBase := isCoinBase, spent := false, modified := true }

/-- Modelled from the spec: `utxo.UtxoViewpoint` is not in the embedded file.
"a View is a transient, request-scoped overlay mapping touched keys to
entries", together with the viewpoints it was built for. -/
structure UtxoViewpoint where
  entries : TxOutPoint → Option UtxoEntry
  viewpoints : List Nat

namespace UtxoViewpoint

/-- The view `utxo.NewUtxoViewpoint()`: no entries. -/
def empty : UtxoViewpoint := { entries := fun _ => none, viewpoints := [] }

/-- The lookups `view.GetEntry(outpoint)` and `view.Entries()[outpoint]`. -/
def GetEntry (v : UtxoViewpoint) (p : TxOutPoint) : Option UtxoEntry := v.entries p

/-- The store `view.AddEntry(outpoint, entry)`; also stands for an update made
through the entry pointer held by the map. -/
def AddEntry (v : UtxoViewpoint) (p : TxOutPoint) (e : UtxoEntry) : UtxoViewpoint :=
  { v with entries := fun q => if q = p then some e else v.entries q }

/-- The call `view.SetViewpoints(hs)`. -/
def SetViewpoints (v : UtxoViewpoint) (hs : List Nat) : UtxoViewpoint :=
  { v with viewpoints := hs }

end UtxoViewpoint

/-- Modelled from the spec: the loop of `UtxoViewpoint.AddTxOuts` is not in the
embedded file. "add the transaction's own outputs as new entries": output
number `idx` of the transaction becomes the entry at `(tx hash, idx)`. -/
def addTxOutsFrom (isCoinBase : Bool) (txHash blockHash : Nat) :
    List TxOutput → Nat → UtxoViewpoint → UtxoViewpoint
  | [], _, v => v
  | txOut :: rest, idx, v =>
    addTxOutsFrom isCoinBase txHash blockHash rest (idx + 1)
      (v.AddEntry { Hash := txHash, OutIndex := uint32 idx }
        (NewUtxoEntry txOut.Amount txOut.PkScript blockHash isCoinBase))

/-- Modelled from the spec: `UtxoViewpoint.AddTxOuts` is not in the embedded
file; see `addTxOutsFrom`. -/
def AddTxOuts (D : Deps) (v : UtxoViewpoint) (tx : Tx) (blockHash : Nat) : UtxoViewpoint :=
  addTxOutsFrom (D.IsCoinBase tx.Tx) tx.hash blockHash tx.Tx.TxOut 0 v

/-! ### connectTransaction -/

/-- The journal entry built in `connectTransaction` (lines 541-555) for input
`txInIndex` of `tx` spending `entry`. -/
def newSpentTxOut (D : Deps) (tx : Tx) (txInIndex : Nat) (txIn : TxInput)
    (entry : UtxoEntry) : SpentTxOut :=
  let stxo : SpentTxOut :=
    { Amount := entry.amount
      Fees := { Value := 0, Id := entry.amount.Id }
      PkScript := entry.pkScript
      BlockHash := entry.blockHash
      IsCoinBase := entry.coinBase
      TxIndex := uint32OfInt tx.Index
      TxInIndex := uint32 txInIndex }
  if stxo.IsCoinBase ∧ ¬ (entry.blockHash = D.GenesisHash) then
    if txIn.PreviousOut.OutIndex = D.CoinbaseOutput_subsidy ∨ entry.amount.Id ≠ D.MEERA then
      { stxo with Fees := { Value := D.GetFeeByCoinID stxo.BlockHash stxo.Fees.Id,
                            Id := stxo.Fees.Id } }
    else stxo
  else stxo

/-- The input loop of `connectTransaction` (lines 518-558), from input number
`txInIndex` on. `stxos` is `none` when the caller passed a nil journal. The
result is the returned error, the journal and the view as the loop left them. -/
def connectInputs (D : Deps) (tx : Tx) :
    List TxInput → Nat → Option (List SpentTxOut) → UtxoViewpoint →
      Option Error × Option (List SpentTxOut) × UtxoViewpoint
  | [], _, stxos, view => (none, stxos, view)
  | txIn :: rest, txInIndex, stxos, view =>
    if txInIndex = 0 ∧ D.IsTokenMintTx tx.Tx = true then
      connectInputs D tx rest (txInIndex + 1) stxos view
    else
      match view.GetEntry txIn.PreviousOut with
      | none => (some (Error.AssertError "view missing input"), stxos, view)
      | some entry =>
        let spentEntry := entry.Spend
        let view1 := view.AddEntry txIn.PreviousOut spentEntry
        match stxos with
        | none => connectInputs D tx rest (txInIndex + 1) none view1
        | some js =>
          connectInputs D tx rest (txInIndex + 1)
            (some (js ++ [newSpentTxOut D tx txInIndex txIn spentEntry])) view1

/-- The function `BlockChain.connectTransaction`. `nodeHash` is
`node.GetHash()`. -/
def connectTransaction (D : Deps) (tx : Tx) (nodeHash : Nat) (blockIndex : Nat)
    (stxos : Option (List SpentTxOut)) (view : UtxoViewpoint) :
    Option Error × Option (List SpentTxOut) × UtxoViewpoint :=
  if D.IsCoinBase tx.Tx = true then
    (none, stxos, AddTxOuts D view tx nodeHash)
  else
    match connectInputs D tx tx.Tx.TxIn 0 stxos view with
    | (some err, stxos1, view1) => (some err, stxos1, view1)
    | (none, stxos1, view1) => (none, stxos1, AddTxOuts D view1 tx nodeHash)

/-! ### disconnectTransactions -/

/-- The output loop of `disconnectTransactions` (lines 615-628), from output
number `txOutIdx` on. -/
def disconnectOutputs (D : Deps) (blockHash : Nat) (isCoinBase : Bool) (txHash : Nat) :
    List TxOutput → Nat → UtxoViewpoint → UtxoViewpoint
  | [], _, view => view
  | txOut :: rest, txOutIdx, view =>
    if D.IsUnspendable txOut.PkScript = true then
      disconnectOutputs D blockHash isCoinBase txHash rest (txOutIdx + 1) view
    else
      let prevOut : TxOutPoint := { Hash := txHash, OutIndex := uint32 txOutIdx }
      let entry :=
        match view.GetEntry prevOut with
        | some e => e
        | none => NewUtxoEntry txOut.Amount txOut.PkScript blockHash isCoinBase
      disconnectOutputs D blockHash isCoinBase txHash rest (txOutIdx + 1)
        (view.AddEntry prevOut entry.Spend)

/-- The entry written by lines 644-655 of `disconnectTransactions` for the
journal entry `stxo`, starting from what the view holds at the outpoint. -/
def restoreEntry (old : Option UtxoEntry) (stxo : SpentTxOut) : UtxoEntry :=
  let entry := match old with
    | some e => e
    | none => UtxoEntry.zero
  let entry := (((entry.SetAmount stxo.Amount).SetPkScript stxo.PkScript).SetBlockHash
    stxo.BlockHash).Modified
  if stxo.IsCoinBase = true then entry.CoinBase else entry

/-- The input loop of `disconnectTransactions` (lines 636-656) over the inputs
paired with their indices, last input first. `none` is the run-time fault of
reading `stxos[stxoIdx]` out of range. -/
def disconnectInputs (D : Deps) (tx : Tx) (stxos : List SpentTxOut) :
    List (Nat × TxInput) → Int → UtxoViewpoint → Option (Int × UtxoViewpoint)
  | [], stxoIdx, view => some (stxoIdx, view)
  | (txInIdx, txIn) :: rest, stxoIdx, view =>
    if D.IsTokenMintTx tx.Tx = true ∧ txInIdx = 0 then
      disconnectInputs D tx stxos rest stxoIdx view
    else if stxoIdx < 0 then none
    else
      match stxos.get? stxoIdx.toNat with
      | none => none
      | some stxo =>
        let originOut := txIn.PreviousOut
        disconnectInputs D tx stxos rest (stxoIdx - 1)
          (view.AddEntry originOut (restoreEntry (view.GetEntry originOut) stxo))

/-- The transaction loop of `disconnectTransactions` (lines 600-657) over the
transactions paired with their indices, last transaction first. -/
def disconnectTxs (D : Deps) (blockHash : Nat) (stxos : List SpentTxOut) :
    List (Nat × Tx) → Int → UtxoViewpoint → Option (Int × UtxoViewpoint)
  | [], stxoIdx, view => some (stxoIdx, view)
  | (txIdx, tx) :: rest, stxoIdx, view =>
    if tx.IsDuplicate = true then disconnectTxs D blockHash stxos rest stxoIdx view
    else if D.IsTokenTx tx.Tx = true ∧ D.IsTokenMintTx tx.Tx = false then
      disconnectTxs D blockHash stxos rest stxoIdx view
    else if D.IsTokenTx tx.Tx = false ∧ D.IsCrossChainVMTx tx.Tx = true then
      disconnectTxs D blockHash stxos rest stxoIdx view
    else
      let isCoinBase : Bool := decide (txIdx = 0)
      let view1 := disconnectOutputs D blockHash isCoinBase tx.hash tx.Tx.TxOut 0 view
      if isCoinBase = true then disconnectTxs D blockHash stxos rest stxoIdx view1
      else if D.IsCrossChainImportTx tx.Tx = true then
        disconnectTxs D blockHash stxos rest (stxoIdx - 1) view1
      else
        match disconnectInputs D tx stxos tx.Tx.TxIn.enum.reverse stxoIdx view1 with
        | none => none
        | some (stxoIdx1, view2) => disconnectTxs D blockHash stxos rest stxoIdx1 view2

/-- The function `BlockChain.disconnectTransactions`: the returned error and
the view as the call left it, or a run-time fault. -/
def disconnectTransactions (D : Deps) (block : SerializedBlock) (stxos : List SpentTxOut)
    (view : UtxoViewpoint) : Ret (Option Error × UtxoViewpoint) :=
  if (stxos.length : Int) ≠ D.countSpentOutputs block then
    Ret.returned
      (some (Error.AssertError
        "disconnectTransactions called with bad spent transaction out information"), view)
  else
    match disconnectTxs D block.hash stxos block.Transactions.enum.reverse
        ((stxos.length : Int) - 1) view with
    | none => Ret.panicked "index out of range"
    | some (_, view1) => Ret.returned (none, view1.SetViewpoints [])


/-! ## Part 2: the admission pipeline -/

/-- Modelled from the spec: `BehaviorFlags` and its bit constants are not in
the embedded file. "per-call modifiers (fast-add skips expensive validation;
P2P-add vs RPC-add affect whether stale-tip checks run)": one boolean per
flag that `process.go` tests. -/
structure BehaviorFlags where
  BFFastAdd : Bool
  BFP2PAdd : Bool
  BFRPCAdd : Bool
  deriving DecidableEq, Repr

/-- Modelled from the spec: the status of a DAG node is not in the embedded
file. "validity status {Unknown, Valid, Invalid}". -/
inductive BlockStatus where
  | Unknown
  | Valid
  | Invalid
  deriving DecidableEq, Repr

/-- The test `status.KnownInvalid()`. -/
def BlockStatus.KnownInvalid : BlockStatus → Bool
  | BlockStatus.Invalid => true
  | _ => false

/-- The node handle `meerdag.IBlock`, as the values its getters return. -/
structure IBlock where
  id : Nat
  hash : Nat
  order : Nat
  height : Nat
  weight : Nat
  IsOrdered : Bool
  status : BlockStatus
  deriving DecidableEq, Repr

/-- The part of `BlockNode` that `process.go` reads. -/
structure BlockNode where
  timestamp : Int
  difficulty : Nat
  powType : Nat
  deriving DecidableEq, Repr

/-- Modelled from the spec: `BestState` and `newBestState` are not in the
embedded file. "immutable record {tip hash, difficulty, block size, tx count
cumulative, median time, cumulative weight, graph state, token-tip hash}",
with the per-block transaction count that `newBestState` also receives. -/
structure BestState where
  Hash : Nat
  Bits : Nat
  BlockSize : Nat
  NumTxns : Nat
  MedianTime : Int
  TotalTxns : Nat
  Weight : Nat
  GraphState : Nat
  TokenTipHash : Nat
  deriving DecidableEq, Repr

/-- The payload of a notification. -/
inductive Notification where
  | BlockAccepted (block : SerializedBlock) (IsMainChainTipChange : Bool)
      (flags : BehaviorFlags)
  | BlockConnected (block : SerializedBlock) (isOnMainChain : Bool)
  | BlockDisconnected (block : SerializedBlock)
  deriving DecidableEq, Repr

/-- The calls the pipeline makes to its collaborators, in the order they are
made: the observable footprint of one run. -/
inductive Call where
  | ChainRLock
  | ChainRUnlock
  | ChainLock
  | ChainUnlock
  | flushNotifications
  | addOrphanBlock (hash : Nat)
  | pruneChainIfNeeded
  | AddBlock (hash : Nat)
  | dbMaybeStoreBlock (hash : Nat)
  | shutdownWait (hash : Nat)
  | shutdownDone
  | checkConnectBlock (id : Nat)
  | InvalidBlock (id : Nat)
  | ValidBlock (id : Nat)
  | viewClean
  | vmConnectBlock (hash : Nat)
  | dbPutUtxoView
  | DBPutSpendJournalEntry (hash : Nat) (stxos : List SpentTxOut)
  | indexConnectBlock (hash : Nat) (pkss : List Script) (id : Nat) (vmbid : Nat)
  | viewCommit
  | updateTokenState (id : Nat)
  | connectedBlocksPushBack (hash : Nat) (isOnMainChain : Bool)
  | reorganizeChain (id : Nat)
  | warnUnknownRuleActivations (id : Nat)
  | UpdateWeight (id : Nat)
  | dbPutBestState (state : BestState)
  | indexUpdateMainTip (hash : Nat) (order : Nat)
  | dagCommit
  | sendNotification (n : Notification)
  | LogBlockHeight (hash : Nat)
  | AcctCommit
  | RefreshOrphans
  | vmDisconnectBlock (hash : Nat)
  | DBRemoveSpendJournalEntry (hash : Nat)
  | indexDisconnectBlock (hash : Nat) (pkss : List Script) (id : Nat) (vmbid : Nat)
  deriving DecidableEq, Repr

/-- The answers of the collaborators during one run of the pipeline. Every
field stands for a function or method that is not in the embedded file. -/
structure Env where
  /-- The oracle query `b.bd.HasBlock`. -/
  HasBlock : Nat → Bool
  checkBlockSanity : SerializedBlock → BehaviorFlags → Option Error
  findPreviousCheckpoint : Except Error (Option IBlock)
  GetBlockNode : Option IBlock → Option BlockNode
  calcEasiestDifficulty : Nat → Int → Nat → Nat
  CompactToBig : Nat → Int
  /-- The method `Pow.CompareDiff(current, required)` of the header's proof of
  work. -/
  CompareDiff : Nat → Int → Int → Bool
  CheckSubMainChainTip : List Nat → Option Error
  GetMainParentByHashs : List Nat → Option IBlock
  checkBlockContext : SerializedBlock → IBlock → BehaviorFlags → Option Error
  /-- The oracle call `b.bd.AddBlock`: new orders, old orders, node handle,
  tip-changed flag. -/
  AddBlock : SerializedBlock → List IBlock × List IBlock × Option IBlock × Bool
  dbHasBlock : Nat → Except Error Bool
  dbMaybeStoreBlock : SerializedBlock → Option Error
  /-- The test `database.IsError(err, database.ErrBlockExists)`. -/
  IsErrBlockExists : Error → Bool
  shutdownWait : Nat → Option Error
  shutdownDone : Option Error
  /-- The call `b.checkConnectBlock(ib, block, view, &stxos)`: its error and
  what it leaves in the view and the journal. -/
  checkConnectBlock : IBlock → SerializedBlock → UtxoViewpoint → List SpentTxOut →
    Option Error × UtxoViewpoint × List SpentTxOut
  vmConnectBlock : SerializedBlock → Except Error Nat
  dbPutUtxoView : UtxoViewpoint → Option Error
  DBPutSpendJournalEntry : Nat → List SpentTxOut → Option Error
  /-- Whether `b.indexManager != nil`. -/
  hasIndexManager : Bool
  indexConnectBlock : SerializedBlock → List Script → IBlock → Nat → Option Error
  updateTokenState : IBlock → SerializedBlock → Option Error
  IsOnMainChain : Nat → Bool
  /-- What `reorganizeChain` hands to `disconnectBlock` for a node that the
  oracle removed from the order: the body of the block, and the view and the
  journal once the transaction effects of the block are reversed. -/
  detached : IBlock → SerializedBlock × UtxoViewpoint × List SpentTxOut
  /-- What `reorganizeChain` hands to `connectBlock` for a node that the oracle
  newly ordered, given the admitted block: the body of the block, and the view
  and the journal once the transaction effects of the block are applied. -/
  attached : IBlock → SerializedBlock → SerializedBlock × UtxoViewpoint × List SpentTxOut
  isCurrent : Bool
  warnUnknownRuleActivations : IBlock → Option Error
  GetMainChainTip : IBlock
  CalcPastMedianTime : IBlock → Int
  GetGraphState : Nat
  GetTokenTipHash : Nat
  dbPutBestState : BestState → Option Error
  indexUpdateMainTip : Nat → Nat → Option Error
  dagCommit : Option Error
  /-- Whether `b.Acct != nil`. -/
  hasAcct : Bool
  AcctCommit : Option Error
  RefreshOrphans : Option Error
  vmDisconnectBlock : SerializedBlock → Except Error Nat
  DBRemoveSpendJournalEntry : Nat → Option Error
  indexDisconnectBlock : SerializedBlock → List Script → IBlock → Nat → Option Error

/-- The state of the chain object that the pipeline reads and writes: the
orphan pool (modelled from the spec: "Simple keyed store (by block hash) of
not-yet-connectable blocks"), the published best-state snapshot, and the calls
made so far. -/
structure ChainState where
  orphans : List Nat
  stateSnapshot : BestState
  calls : List Call
  deriving DecidableEq, Repr

/-- Record one call. -/
def ChainState.call (s : ChainState) (c : Call) : ChainState :=
  { s with calls := s.calls ++ [c] }

/-- The query `b.IsOrphan(hash)`. -/
def ChainState.IsOrphan (s : ChainState) (hash : Nat) : Bool := decide (hash ∈ s.orphans)

/-- Modelled from the spec: `b.addOrphanBlock` is not in the embedded file.
"place block in Orphan Pool". -/
def ChainState.addOrphanBlock (s : ChainState) (block : SerializedBlock) : ChainState :=
  { s with orphans := block.hash :: s.orphans, calls := s.calls ++ [Call.addOrphanBlock block.hash] }

/-- The checkpoint checks of `preProcessBlock` (lines 110-139). -/
def checkpointChecks (E : Env) (block : SerializedBlock) (fastAdd : Bool)
    (checkpoint : Option IBlock) : Option Error :=
  match E.GetBlockNode checkpoint with
  | none => none
  | some checkpointNode =>
    let checkpointTime := checkpointNode.timestamp
    if block.Timestamp < checkpointTime then
      some (ruleError ErrorCode.ErrCheckpointTimeTooOld
        "block has timestamp before last checkpoint timestamp")
    else if fastAdd = false then
      let duration := block.Timestamp - checkpointTime
      let requiredTarget := E.CompactToBig
        (E.calcEasiestDifficulty checkpointNode.difficulty duration block.Pow)
      let currentTarget := E.CompactToBig block.Difficulty
      if E.CompareDiff block.Pow currentTarget requiredTarget = false then
        some (ruleError ErrorCode.ErrDifficultyTooLow
          "block target difficulty is too low when compared to the previous checkpoint")
      else none
    else none

/-- The orphan loop of `preProcessBlock` (lines 142-152) over the parents. -/
def orphanScan (E : Env) (block : SerializedBlock) :
    List Nat → ChainState → (Bool × Option Error) × ChainState
  | [], s => ((false, none), s)
  | pb :: rest, s =>
    if E.HasBlock pb = false then ((true, none), s.addOrphanBlock block)
    else orphanScan E block rest s

/-- The function `BlockChain.preProcessBlock`. -/
def preProcessBlock (E : Env) (s : ChainState) (block : SerializedBlock)
    (flags : BehaviorFlags) : (Bool × Option Error) × ChainState :=
  let s := s.call Call.ChainRLock
  let fastAdd := flags.BFFastAdd
  let r : (Bool × Option Error) × ChainState :=
    if E.HasBlock block.hash = true then
      ((false, some (ruleError ErrorCode.ErrDuplicateBlock "already have block")), s)
    else if s.IsOrphan block.hash = true then
      ((true, some (ruleError ErrorCode.ErrDuplicateBlock "already have block (orphan)")), s)
    else
      match E.checkBlockSanity block flags with
      | some err => ((false, some err), s)
      | none =>
        match E.findPreviousCheckpoint with
        | Except.error err => ((false, some err), s)
        | Except.ok checkpoint =>
          match checkpointChecks E block fastAdd checkpoint with
          | some err => ((false, some err), s)
          | none => orphanScan E block block.Parents s
  (r.1, r.2.call Call.ChainRUnlock)

/-- The function `BlockChain.connectBlock`: the returned error and the
connected-blocks list. `node` carries the status at the time of the call. -/
def connectBlock (E : Env) (s : ChainState) (node : IBlock) (block : SerializedBlock)
    (view : UtxoViewpoint) (stxos : List SpentTxOut)
    (connectedBlocks : List (SerializedBlock × Bool)) :
    (Option Error × List (SerializedBlock × Bool)) × ChainState :=
  let pkss := stxos.map (fun stxo => stxo.PkScript)
  let pushBack (s : ChainState) : (Option Error × List (SerializedBlock × Bool)) × ChainState :=
    ((none, connectedBlocks ++ [(block, E.IsOnMainChain node.id)]),
      s.call (Call.connectedBlocksPushBack block.hash (E.IsOnMainChain node.id)))
  if node.status.KnownInvalid = false then
    let s := s.call (Call.vmConnectBlock block.hash)
    match E.vmConnectBlock block with
    | Except.error err => ((some err, connectedBlocks), s)
    | Except.ok vmbid =>
      let s := s.call Call.dbPutUtxoView
      match E.dbPutUtxoView view with
      | some err => ((some err, connectedBlocks), s)
      | none =>
        let s := s.call (Call.DBPutSpendJournalEntry block.hash stxos)
        match E.DBPutSpendJournalEntry block.hash stxos with
        | some err => ((some err, connectedBlocks), s)
        | none =>
          let afterIndex (s : ChainState) :=
            let s := s.call Call.viewCommit
            let s := s.call (Call.updateTokenState node.id)
            match E.updateTokenState node block with
            | some err => ((some err, connectedBlocks), s)
            | none => pushBack s
          if E.hasIndexManager = true then
            let s := s.call (Call.indexConnectBlock block.hash pkss node.id vmbid)
            match E.indexConnectBlock block pkss node vmbid with
            | some err =>
              ((some (Error.Plain (err.msg ++ ". (Attempt to execute --droptxindex)")),
                connectedBlocks), s)
            | none => afterIndex s
          else afterIndex s
  else
    if E.hasIndexManager = true then
      let s := s.call (Call.indexConnectBlock block.hash pkss node.id 0)
      match E.indexConnectBlock block pkss node 0 with
      | some err => ((some err, connectedBlocks), s)
      | none => pushBack s
    else pushBack s

/-- The function `BlockChain.disconnectBlock`: the returned error. It is
called with the chain lock held. -/
def disconnectBlock (E : Env) (s : ChainState) (ib : IBlock) (block : SerializedBlock)
    (view : UtxoViewpoint) (stxos : List SpentTxOut) : Option Error × ChainState :=
  let s := s.call (Call.vmDisconnectBlock block.hash)
  match E.vmDisconnectBlock block with
  | Except.error err => (some err, s)
  | Except.ok vmbid =>
    let s := s.call Call.dbPutUtxoView
    match E.dbPutUtxoView view with
    | some err => (some err, s)
    | none =>
      let s := s.call (Call.DBRemoveSpendJournalEntry block.hash)
      match E.DBRemoveSpendJournalEntry block.hash with
      | some err => (some err, s)
      | none =>
        let afterIndex (s : ChainState) : Option Error × ChainState :=
          let s := s.call Call.viewCommit
          let s := s.call (Call.sendNotification (Notification.BlockDisconnected block))
          (none, s)
        if E.hasIndexManager = true then
          let pkss := stxos.map (fun stxo => stxo.PkScript)
          let s := s.call (Call.indexDisconnectBlock block.hash pkss ib.id vmbid)
          match E.indexDisconnectBlock block pkss ib vmbid with
          | some err =>
            (some (Error.Plain (err.msg ++ ". (Attempt to execute --droptxindex)")), s)
          | none => afterIndex s
        else afterIndex s

/-- Modelled from the spec: `b.bd.InvalidBlock` is not in the embedded file.
"markInvalid(nodeHandle)": the node's status becomes Invalid. -/
def InvalidBlock (s : ChainState) (ib : IBlock) : IBlock × ChainState :=
  ({ ib with status := BlockStatus.Invalid }, s.call (Call.InvalidBlock ib.id))

/-- Modelled from the spec: `b.bd.ValidBlock` is not in the embedded file.
"markValid(nodeHandle)": the node's status becomes Valid. -/
def ValidBlock (s : ChainState) (ib : IBlock) : IBlock × ChainState :=
  ({ ib with status := BlockStatus.Valid }, s.call (Call.ValidBlock ib.id))

/-- Modelled from the spec: `view.Clean` is not in the embedded file. "discard
the view": no entry is left. -/
def UtxoViewpoint.Clean (v : UtxoViewpoint) : UtxoViewpoint :=
  { v with entries := fun _ => none }

/-- The list `newOr` of `connectDagChain` (lines 310-317): the ids of the
ordered nodes of `newOrders`. -/
def newOr : List IBlock → List Nat
  | [] => []
  | nodeBlock :: rest =>
    if nodeBlock.IsOrdered = false then newOr rest else nodeBlock.id :: newOr rest

/-- The condition of line 319-320 of `connectDagChain`. -/
def isSimpleExtend (ib : IBlock) (newOrders oldOrders : List IBlock) : Bool :=
  decide (oldOrders.length ≤ 0) &&
    (decide ((newOr newOrders).length = 0) ||
      (decide ((newOr newOrders).length = 1) && decide ((newOr newOrders).head? = some ib.id)))

/-- Modelled from the spec: the first loop of `reorganizeChain`, which is not
in the embedded file. "disconnect every block in `removedFromOrder` from
newest to oldest (reversing their transaction effects)", the removed set being
"(old order, newest-first)"; "Any failure during this sequence aborts the
reorg". Each block is disconnected with `disconnectBlock`. -/
def detachBlocks (E : Env) : List IBlock → ChainState → Option Error × ChainState
  | [], s => (none, s)
  | n :: rest, s =>
    match disconnectBlock E s n (E.detached n).1 (E.detached n).2.1 (E.detached n).2.2 with
    | (some err, s) => (some err, s)
    | (none, s) => detachBlocks E rest s

/-- Modelled from the spec: the second loop of `reorganizeChain`, which is not
in the embedded file. "then connect every block in `newlyOrdered` from oldest
to newest (applying effects)", the added set being "(new order,
oldest-first)"; "Any failure during this sequence aborts the reorg". Each
block is connected with `connectBlock`, which appends it to the
connected-blocks list. -/
def attachBlocks (E : Env) (block : SerializedBlock) :
    List IBlock → List (SerializedBlock × Bool) → ChainState →
      (Option Error × List (SerializedBlock × Bool)) × ChainState
  | [], connectedBlocks, s => ((none, connectedBlocks), s)
  | n :: rest, connectedBlocks, s =>
    match connectBlock E s n (E.attached n block).1 (E.attached n block).2.1
        (E.attached n block).2.2 connectedBlocks with
    | ((some err, connected), s) => ((some err, connected), s)
    | ((none, connected), s) => attachBlocks E block rest connected s

/-- Modelled from the spec: `BlockChain.reorganizeChain` is not in the embedded
file. "disconnect every block in `removedFromOrder` from newest to oldest
(reversing their transaction effects), then connect every block in
`newlyOrdered` from oldest to newest (applying effects). Any failure during
this sequence aborts the reorg". The result is the returned error and the
connected-blocks list. -/
def reorganizeChain (E : Env) (s : ChainState) (ib : IBlock)
    (oldOrders newOrders : List IBlock) (block : SerializedBlock)
    (connectedBlocks : List (SerializedBlock × Bool)) :
    (Option Error × List (SerializedBlock × Bool)) × ChainState :=
  match detachBlocks E oldOrders s with
  | (some err, s) => ((some err, connectedBlocks), s)
  | (none, s) => attachBlocks E block newOrders connectedBlocks s

/-- The function `BlockChain.connectDagChain`: the returned pair, the node
handle with the status the call left, and the connected-blocks list. -/
def connectDagChain (E : Env) (s : ChainState) (ib : IBlock) (block : SerializedBlock)
    (newOrders oldOrders : List IBlock) (connectedBlocks : List (SerializedBlock × Bool)) :
    ((Bool × Option Error) × IBlock × List (SerializedBlock × Bool)) × ChainState :=
  if isSimpleExtend ib newOrders oldOrders = true then
    if ib.IsOrdered = false then (((true, none), ib, connectedBlocks), s)
    else
      let view := (UtxoViewpoint.empty).SetViewpoints [ib.hash]
      let stxos : List SpentTxOut := []
      let s := s.call (Call.checkConnectBlock ib.id)
      let checked := E.checkConnectBlock ib block view stxos
      let afterCheck : IBlock × UtxoViewpoint × List SpentTxOut × ChainState :=
        match checked with
        | (some _, view1, _) =>
          let marked := InvalidBlock s ib
          (marked.1, view1.Clean, [], marked.2.call Call.viewClean)
        | (none, view1, stxos1) => (ib, view1, stxos1, s)
      let ib := afterCheck.1
      let view := afterCheck.2.1
      let stxos := afterCheck.2.2.1
      let s := afterCheck.2.2.2
      match connectBlock E s ib block view stxos connectedBlocks with
      | ((some err, connected), s) =>
        let marked := InvalidBlock s ib
        (((true, some err), marked.1, connected), marked.2)
      | ((none, connected), s) =>
        if ib.status.KnownInvalid = false then
          let marked := ValidBlock s ib
          (((true, none), marked.1, connected), marked.2)
        else (((true, none), ib, connected), s)
  else
    let s := s.call (Call.reorganizeChain ib.id)
    match reorganizeChain E s ib oldOrders newOrders block connectedBlocks with
    | ((some err, connected), s) => (((false, some err), ib, connected), s)
    | ((none, connected), s) => (((true, none), ib, connected), s)

/-- Go arithmetic on `uint64`. -/
def uint64 (n : Nat) : Nat := n % 18446744073709551616

/-- The function `BlockChain.updateBestState`. -/
def updateBestState (E : Env) (s : ChainState) (ib : IBlock) (block : SerializedBlock)
    (attachNodes : List IBlock) : Option Error × ChainState :=
  let afterWarning (s : ChainState) : Option Error × ChainState :=
    let lastState := s.stateSnapshot
    let s := attachNodes.foldl (fun s e => s.call (Call.UpdateWeight e.id)) s
    let numTxns := uint64 block.Transactions.length
    let blockSize := uint64 block.SerializeSize
    let mainTip := E.GetMainChainTip
    match E.GetBlockNode (some mainTip) with
    | none => (some (Error.Plain "No main tip node\n"), s)
    | some mainTipNode =>
      let state : BestState :=
        { Hash := mainTip.hash, Bits := mainTipNode.difficulty, BlockSize := blockSize,
          NumTxns := numTxns, MedianTime := E.CalcPastMedianTime mainTip,
          TotalTxns := uint64 (lastState.TotalTxns + numTxns),
          Weight := E.GetMainChainTip.weight, GraphState := E.GetGraphState,
          TokenTipHash := E.GetTokenTipHash }
      let publish (s : ChainState) : Option Error × ChainState :=
        let s := { s with stateSnapshot := state }
        (E.dagCommit, s.call Call.dagCommit)
      let s := s.call (Call.dbPutBestState state)
      match E.dbPutBestState state with
      | some err => (some err, s)
      | none =>
        if E.hasIndexManager = true then
          let s := s.call (Call.indexUpdateMainTip mainTip.hash (uint64 mainTip.order))
          match E.indexUpdateMainTip mainTip.hash (uint64 mainTip.order) with
          | some err => (some err, s)
          | none => publish s
        else publish s
  if E.isCurrent = true then
    let s := s.call (Call.warnUnknownRuleActivations ib.id)
    match E.warnUnknownRuleActivations ib with
    | some err => (some err, s)
    | none => afterWarning s
  else afterWarning s

/-- The database transaction of `maybeAcceptBlock` (lines 219-235): the error
that `b.db.Update` hands back. -/
def storeBlock (E : Env) (s : ChainState) (block : SerializedBlock) :
    Option Error × ChainState :=
  match E.dbHasBlock block.hash with
  | Except.error err => (some err, s)
  | Except.ok true => (none, s)
  | Except.ok false =>
    let s := s.call (Call.dbMaybeStoreBlock block.hash)
    match E.dbMaybeStoreBlock block with
    | some err => if E.IsErrBlockExists err = true then (none, s) else (some err, s)
    | none => (none, s)

/-- The notification loop of `maybeAcceptBlock` (lines 260-264). -/
def notifyConnected : List (SerializedBlock × Bool) → ChainState → ChainState
  | [], s => s
  | e :: rest, s =>
    notifyConnected rest (s.call (Call.sendNotification (Notification.BlockConnected e.1 e.2)))

/-- The block after `SetOrder` and `SetHeight` (lines 206-207). -/
def placedBlock (block : SerializedBlock) (ib : IBlock) : SerializedBlock :=
  { block with order := uint64 ib.order, height := ib.height }

/-- The function `BlockChain.maybeAcceptBlock`. The deferred
`flushNotifications` is the last call on every way out. -/
def maybeAcceptBlock (E : Env) (s : ChainState) (block : SerializedBlock)
    (flags : BehaviorFlags) : Ret (Option Error) × ChainState :=
  let s := s.call Call.ChainLock
  let fastAdd := flags.BFFastAdd
  let body : Ret (Option Error) × ChainState :=
    let contextChecked : Option Error :=
      if fastAdd = false then
        match E.GetMainParentByHashs block.Parents with
        | none => some (Error.Plain "Can't find main parent\n")
        | some mainParent => E.checkBlockContext block mainParent flags
      else none
    match contextChecked with
    | some err => (Ret.returned (some err), s.call Call.ChainUnlock)
    | none =>
      let s := s.call Call.pruneChainIfNeeded
      let s := s.call (Call.AddBlock block.hash)
      match E.AddBlock block with
      | (_, _, none, _) =>
        (Ret.returned (some (Error.Plain "Irreparable error!")), s.call Call.ChainUnlock)
      | (newOrders, oldOrders, some ib, isMainChainTipChange) =>
        let block := placedBlock block ib
        match storeBlock E s block with
        | (some err, s) => (Ret.panicked err.msg, s)
        | (none, s) =>
          let s := s.call (Call.shutdownWait ib.hash)
          match E.shutdownWait ib.hash with
          | some err => (Ret.panicked err.msg, s)
          | none =>
            match connectDagChain E s ib block newOrders oldOrders [] with
            | ((( _, some err), _, _), s) => (Ret.panicked err.msg, s)
            | ((( _, none), ib1, connectedBlocks), s) =>
              match updateBestState E s ib1 block newOrders with
              | (some err, s) => (Ret.panicked err.msg, s)
              | (none, s) =>
                let s := s.call Call.shutdownDone
                match E.shutdownDone with
                | some err => (Ret.panicked err.msg, s)
                | none =>
                  let s := s.call Call.ChainUnlock
                  let s := notifyConnected connectedBlocks s
                  let s := if flags.BFP2PAdd = true then s.call (Call.LogBlockHeight block.hash)
                    else s
                  let s := s.call (Call.sendNotification
                    (Notification.BlockAccepted block isMainChainTipChange flags))
                  let s := if E.hasAcct = true then s.call Call.AcctCommit else s
                  (Ret.returned none, s)
  (body.1, body.2.call Call.flushNotifications)

/-- The function `BlockChain.processBlock`. -/
def processBlock (E : Env) (s : ChainState) (block : SerializedBlock)
    (flags : BehaviorFlags) : Ret (Bool × Option Error) × ChainState :=
  match preProcessBlock E s block flags with
  | ((isorphan, some err), s) => (Ret.returned (isorphan, some err), s)
  | ((true, none), s) => (Ret.returned (true, none), s)
  | ((false, none), s) =>
    match maybeAcceptBlock E s block flags with
    | (Ret.panicked m, s) => (Ret.panicked m, s)
    | (Ret.returned (some err), s) => (Ret.returned (false, some err), s)
    | (Ret.returned none, s) =>
      let s := s.call Call.RefreshOrphans
      match E.RefreshOrphans with
      | some err => (Ret.returned (false, some err), s)
      | none => (Ret.returned (false, none), s)

/-- The function `BlockChain.ProcessBlock`: `(IsOrphan, IsTipsExpired, error)`. -/
def ProcessBlock (E : Env) (s : ChainState) (block : SerializedBlock)
    (flags : BehaviorFlags) : Ret (Bool × Bool × Option Error) × ChainState :=
  let expired : Option Error :=
    if flags.BFRPCAdd = true then E.CheckSubMainChainTip block.Parents else none
  match expired with
  | some err =>
    (Ret.returned (false, true,
      some (Error.Plain ("The tips of block is expired (error:" ++ err.msg ++ ")"))), s)
  | none =>
    match processBlock E s block flags with
    | (Ret.panicked m, s) => (Ret.panicked m, s)
    | (Ret.returned (isOrphan, err), s) => (Ret.returned (isOrphan, false, err), s)


/-! ## Part 2b: the block-batch file

A shallow embedding of the framing code of `cmd/qng/blockchain_cmds.go`:
`IBDBlock.Encode`, `IBDBlock.Decode`, the writing half of `exportBlockChain`
and `importBlockChain`. Bytes are numbers; a value of Go type `uint32` is a
number reduced modulo `2 ^ 32`. -/

/-- The byte orders of Go's `encoding/binary`. The variable
`dbnamespace.ByteOrder` is one of them; the package is not in the embedded
files, so the order is a parameter. -/
inductive ByteOrder where
  | LittleEndian
  | BigEndian
  deriving DecidableEq, Repr

/-- A Go byte slice: the bytes of its backing array from the first byte of the
slice up to its capacity, and its length. -/
structure ByteSlice where
  backing : List Nat
  len : Nat
  deriving DecidableEq, Repr

/-- The capacity `cap(s)`. -/
def ByteSlice.cap (s : ByteSlice) : Nat := s.backing.length

/-- The bytes of the slice, `s[0] .. s[len(s)-1]`. -/
def ByteSlice.bytes (s : ByteSlice) : List Nat := s.backing.take s.len

/-- The slice expression `s[lo:hi]`: in range when `lo <= hi <= cap(s)`,
otherwise a run-time panic (`none`). -/
def ByteSlice.slice (s : ByteSlice) (lo hi : Nat) : Option ByteSlice :=
  if lo ≤ hi ∧ hi ≤ s.cap then some { backing := s.backing.drop lo, len := hi - lo }
  else none

/-- The slice expression `s[lo:]`, which is `s[lo:len(s)]`: in range when
`lo <= len(s)`, otherwise a run-time panic (`none`). -/
def ByteSlice.sliceFrom (s : ByteSlice) (lo : Nat) : Option ByteSlice :=
  if lo ≤ s.len then some { backing := s.backing.drop lo, len := s.len - lo }
  else none

/-- The method `ByteOrder.PutUint32(b, v)`: the four bytes written. -/
def ByteOrder.PutUint32 (o : ByteOrder) (v : Nat) : List Nat :=
  match o with
  | ByteOrder.LittleEndian => [v % 256, v / 256 % 256, v / 65536 % 256, v / 16777216 % 256]
  | ByteOrder.BigEndian => [v / 16777216 % 256, v / 65536 % 256, v / 256 % 256, v % 256]

/-- The method `ByteOrder.Uint32(b)`: it reads `b[0] .. b[3]` and panics
(`none`) when the slice is shorter than four bytes. -/
def ByteOrder.Uint32 (o : ByteOrder) (b : ByteSlice) : Option Nat :=
  if 4 ≤ b.len then
    let b0 := b.backing.getD 0 0 % 256
    let b1 := b.backing.getD 1 0 % 256
    let b2 := b.backing.getD 2 0 % 256
    let b3 := b.backing.getD 3 0 % 256
    match o with
    | ByteOrder.LittleEndian => some (b0 + b1 * 256 + b2 * 65536 + b3 * 16777216)
    | ByteOrder.BigEndian => some (b3 + b2 * 256 + b1 * 65536 + b0 * 16777216)
  else none

/-- The record `IBDBlock`; `blk` is a pointer that may be nil. -/
structure IBDBlock where
  length : Nat
  bytes : List Nat
  blk : Option SerializedBlock
  deriving DecidableEq, Repr

/-- The collaborators of the import and export commands that are not in the
embedded files: the block parser `types.NewBlockFromBytes`, the block store's
`FetchBlockByHash` and the serializer `block.Bytes()`. -/
structure BlockSource where
  NewBlockFromBytes : List Nat → Except Error SerializedBlock
  FetchBlockByHash : Nat → Except Error SerializedBlock
  Bytes : SerializedBlock → Except Error (List Nat)

/-- The method `IBDBlock.Encode`: the bytes it writes to `w`. The writes are
taken to succeed. -/
def IBDBlock.Encode (o : ByteOrder) (b : IBDBlock) : List Nat :=
  o.PutUint32 b.length ++ b.bytes

/-- The method `IBDBlock.Decode`. The result holds the returned error, the
receiver after the call, and the byte strings passed to the block parser (none
or one). The index `b.length+4` is computed in `uint32`. -/
def IBDBlock.Decode (o : ByteOrder) (K : BlockSource) (b : IBDBlock) (bytes : ByteSlice) :
    Ret (Option Error × IBDBlock) × List (List Nat) :=
  match bytes.slice 0 4 with
  | none => (Ret.panicked "slice bounds out of range", [])
  | some head =>
    match o.Uint32 head with
    | none => (Ret.panicked "index out of range", [])
    | some length =>
      let b := { b with length := length }
      match bytes.slice 4 (uint32 (b.length + 4)) with
      | none => (Ret.panicked "slice bounds out of range", [])
      | some payload =>
        match K.NewBlockFromBytes payload.bytes with
        | Except.error err => (Ret.returned (some err, b), [payload.bytes])
        | Except.ok block => (Ret.returned (none, { b with blk := some block }), [payload.bytes])

/-- The loop of `exportBlockChain` over the collected hashes (lines 333-346):
the returned error and the bytes written to the file so far. -/
def exportLoop (o : ByteOrder) (K : BlockSource) : List Nat → List Nat → Option Error × List Nat
  | [], out => (none, out)
  | blockHash :: rest, out =>
    match K.FetchBlockByHash blockHash with
    | Except.error err => (some err, out)
    | Except.ok block =>
      match K.Bytes block with
      | Except.error err => (some err, out)
      | Except.ok bytes =>
        let ibdb : IBDBlock := { length := uint32 bytes.length, bytes := bytes, blk := none }
        exportLoop o K rest (out ++ ibdb.Encode o)

/-- The writing half of `exportBlockChain` (lines 327-346), once the hashes
`bhs` have been collected: the returned error and the bytes written to the
file. The writes are taken to succeed. -/
def exportBlockChain (o : ByteOrder) (K : BlockSource) (bhs : List Nat) :
    Option Error × List Nat :=
  exportLoop o K bhs (o.PutUint32 (uint32 bhs.length))

/-- The function `BlockChain.FastAcceptBlock`. -/
def FastAcceptBlock (E : Env) (s : ChainState) (block : SerializedBlock)
    (flags : BehaviorFlags) : Ret (Option Error) × ChainState :=
  maybeAcceptBlock E s block flags

/-- The flags `blockchain.BFFastAdd` that `importBlockChain` passes. -/
def importFlags : BehaviorFlags := { BFFastAdd := true, BFP2PAdd := false, BFRPCAdd := false }

/-- What a run of `importBlockChain` leaves: its outcome (`none` when the model
ran out of fuel), the byte strings it passed to the block parser, in order,
and the chain. -/
structure ImportRun where
  outcome : Option (Ret (Option Error))
  handed : List (List Nat)
  chain : ChainState

/-- The loop of `importBlockChain` (lines 387-406). The counter `i` is a
`uint32`; `offset` is a Go `int`, which no slice is long enough to wrap.
`bc.CheckBlockSanity` is not in the embedded files and answers through
`E.checkBlockSanity`. -/
def importLoop (o : ByteOrder) (K : BlockSource) (E : Env) (blocksBytes : ByteSlice)
    (maxOrder : Nat) : Nat → Nat → Nat → List (List Nat) → ChainState → ImportRun
  | 0, _, _, handed, s => { outcome := none, handed := handed, chain := s }
  | fuel + 1, i, offset, handed, s =>
    if i ≤ maxOrder then
      match blocksBytes.sliceFrom offset with
      | none =>
        { outcome := some (Ret.panicked "slice bounds out of range"), handed := handed,
          chain := s }
      | some rest =>
        match IBDBlock.Decode o K { length := 0, bytes := [], blk := none } rest with
        | (Ret.panicked m, parsed) =>
          { outcome := some (Ret.panicked m), handed := handed ++ parsed, chain := s }
        | (Ret.returned (some err, _), parsed) =>
          { outcome := some (Ret.returned (some err)), handed := handed ++ parsed, chain := s }
        | (Ret.returned (none, ibdb), parsed) =>
          let handed := handed ++ parsed
          let offset := offset + (4 + ibdb.length)
          match ibdb.blk with
          | none =>
            { outcome := some (Ret.panicked "nil pointer dereference"), handed := handed,
              chain := s }
          | some blk =>
            match E.checkBlockSanity blk importFlags with
            | some err =>
              { outcome := some (Ret.returned (some err)), handed := handed, chain := s }
            | none =>
              match FastAcceptBlock E s blk importFlags with
              | (Ret.panicked m, s) =>
                { outcome := some (Ret.panicked m), handed := handed, chain := s }
              | (Ret.returned (some err), s) =>
                { outcome := some (Ret.returned (some err)), handed := handed, chain := s }
              | (Ret.returned none, s) =>
                (importLoop o K E blocksBytes maxOrder fuel (uint32 (i + 1)) offset handed s)
    else { outcome := some (Ret.returned none), handed := handed, chain := s }

/-- The function `importBlockChain`, for the answer `file` of
`GetIBDFilePath` and `util.ReadFile`. -/
def importBlockChain (o : ByteOrder) (K : BlockSource) (E : Env) (s : ChainState)
    (file : Except Error ByteSlice) (fuel : Nat) : ImportRun :=
  if E.GetMainChainTip.order > 0 then
    { outcome := some (Ret.returned (some (Error.Plain
        "Your database is not empty, please empty the database."))),
      handed := [], chain := s }
  else
    match file with
    | Except.error err => { outcome := some (Ret.returned (some err)), handed := [], chain := s }
    | Except.ok blocksBytes =>
      match blocksBytes.slice 0 4 with
      | none =>
        { outcome := some (Ret.panicked "slice bounds out of range"), handed := [], chain := s }
      | some head =>
        match o.Uint32 head with
        | none => { outcome := some (Ret.panicked "index out of range"), handed := [], chain := s }
        | some maxOrder => importLoop o K E blocksBytes maxOrder fuel 1 4 [] s

/-! ## Part 2c: the test network's proof-of-work limit

The constants of `params/params_testnet.go` that concern the proof-of-work
limits, and the compact encoding of targets. -/

/-- Modelled from the spec: the constant `common.Big1` is not in the embedded
files; it is the big integer 1. -/
def Big1 : Int := 1

/-- Go's `big.Int.Lsh(x, n)`: `x` shifted left by `n` bits. -/
def Lsh (x : Int) (n : Nat) : Int := x * ((2 ^ n : Nat) : Int)

/-- The variable `testNetPowLimit` (line 21). -/
def testNetPowLimit : Int := Lsh Big1 242 - Big1

/-- The variable `maxNetPowLimit` (line 22). -/
def maxNetPowLimit : Int := Lsh Big1 0 - Big1

/-- The limits and compact limits of the record `pow.PowConfig` (lines 51-60). -/
structure PowConfig where
  Blake2bdPowLimit : Int
  Blake2bdPowLimitBits : Nat
  X16rv3PowLimit : Int
  X16rv3PowLimitBits : Nat
  X8r16PowLimit : Int
  X8r16PowLimitBits : Nat
  QitmeerKeccak256PowLimit : Int
  QitmeerKeccak256PowLimitBits : Nat
  MeerXKeccakV1PowLimit : Int
  MeerXKeccakV1PowLimitBits : Nat
  deriving DecidableEq, Repr

/-- The proof-of-work part of the record `Params`. -/
structure Params where
  Name : String
  PowConfig : Qng.PowConfig
  deriving DecidableEq, Repr

/-- The variable `TestNetParams` (lines 31-60), its proof-of-work limits. -/
def TestNetParams : Params :=
  { Name := "testnet"
    PowConfig :=
      { Blake2bdPowLimit := maxNetPowLimit
        Blake2bdPowLimitBits := 0x0
        X16rv3PowLimit := maxNetPowLimit
        X16rv3PowLimitBits := 0x0
        X8r16PowLimit := maxNetPowLimit
        X8r16PowLimitBits := 0x0
        QitmeerKeccak256PowLimit := maxNetPowLimit
        QitmeerKeccak256PowLimitBits := 0x0
        MeerXKeccakV1PowLimit := testNetPowLimit
        MeerXKeccakV1PowLimitBits := 0x1f0198f2 } }

/-- The number of bytes of a natural number, `len(n.Bytes())`, counted with
`fuel` divisions by 256. -/
def byteLengthFrom : Nat → Nat → Nat
  | 0, _ => 0
  | fuel + 1, n => if n = 0 then 0 else byteLengthFrom fuel (n / 256) + 1

/-- The number of bytes of a natural number; `n` divisions are more than
enough. -/
def byteLength (n : Nat) : Nat := byteLengthFrom n n

/-- Modelled from the spec: `pow.BigToCompact` is not in the embedded files.
"standard compact encoding: top byte is the byte length, low 23 bits the
mantissa": the mantissa is the three most significant bytes of the magnitude,
moved down one byte when its bit 23, the sign bit of the encoding, would be
set. -/
def BigToCompact (n : Int) : Nat :=
  if n = 0 then 0
  else
    let exponent := byteLength n.natAbs
    let mantissa :=
      if exponent ≤ 3 then uint32 (uint32 n.natAbs * 2 ^ (8 * (3 - exponent)))
      else uint32 (n.natAbs / 2 ^ (8 * (exponent - 3)))
    let shifted : Nat × Nat :=
      if mantissa &&& 0x00800000 ≠ 0 then (mantissa / 256, exponent + 1)
      else (mantissa, exponent)
    let compact := uint32 (shifted.2 * 2 ^ 24) ||| shifted.1
    if n < 0 then compact ||| 0x00800000 else compact

/-- Modelled from the spec: `pow.CompactToBig` is not in the embedded files.
"standard compact encoding: top byte is the byte length, low 23 bits the
mantissa": the number is the mantissa moved to the byte length, negated when
bit 23 is set. -/
def CompactToBig (compact : Nat) : Int :=
  let mantissa := compact &&& 0x007fffff
  let isNegative := decide (compact &&& 0x00800000 ≠ 0)
  let exponent := compact / 2 ^ 24
  let bn : Int :=
    if exponent ≤ 3 then ((mantissa / 2 ^ (8 * (3 - exponent)) : Nat) : Int)
    else ((mantissa * 2 ^ (8 * (exponent - 3)) : Nat) : Int)
  if isNegative = true then -bn else bn

/-! ## Part 3: reading aids and sample inputs

Definitions used to state the properties, and concrete collaborators, blocks
and views on which the theorems are evaluated. -/

/-- Sample helpers: a coinbase has one input with the null outpoint, no
transaction is a token or cross-chain transaction, a script is unspendable
when it starts with `OP_RETURN` (106), the genesis block has hash 1, the
subsidy is coinbase output 0, MEER is coin 0, and every block collected a fee
of 7 in every coin. -/
def sampleDeps : Deps :=
  { IsCoinBase := fun t =>
      decide (t.TxIn.map (fun i => i.PreviousOut) = [{ Hash := 0, OutIndex := 4294967295 }])
    IsTokenTx := fun _ => false
    IsTokenMintTx := fun _ => false
    IsCrossChainVMTx := fun _ => false
    IsCrossChainImportTx := fun _ => false
    IsUnspendable := fun script => decide (script.head? = some 106)
    GenesisHash := 1
    CoinbaseOutput_subsidy := 0
    MEERA := 0
    GetFeeByCoinID := fun _ _ => 7
    countSpentOutputs := fun block =>
      ((block.Transactions.drop 1).map (fun tx => (tx.Tx.TxIn.length : Int))).sum }

/-- Sample collaborators: the DAG holds the block with hash 1 only, every
check passes, there is no checkpoint, the oracle orders the new block as node
5, the stores succeed, there is an index manager, and a reorganize detaches
blocks without transactions and attaches blocks with an empty view and
journal. -/
def sampleEnv : Env :=
  { HasBlock := fun h => decide (h = 1)
    checkBlockSanity := fun _ _ => none
    findPreviousCheckpoint := Except.ok none
    GetBlockNode := fun o => o.map (fun ib => { timestamp := 0, difficulty := 0, powType := 0 })
    calcEasiestDifficulty := fun bits _ _ => bits
    CompactToBig := fun bits => bits
    CompareDiff := fun _ current required => decide (current ≤ required)
    CheckSubMainChainTip := fun _ => none
    GetMainParentByHashs := fun _ =>
      some { id := 0, hash := 1, order := 0, height := 0, weight := 1, IsOrdered := true,
             status := BlockStatus.Valid }
    checkBlockContext := fun _ _ _ => none
    AddBlock := fun block =>
      let ib : IBlock := { id := 5, hash := block.hash, order := 5, height := 1, weight := 2,
                           IsOrdered := true, status := BlockStatus.Unknown }
      ([ib], [], some ib, true)
    dbHasBlock := fun _ => Except.ok false
    dbMaybeStoreBlock := fun _ => none
    IsErrBlockExists := fun _ => false
    shutdownWait := fun _ => none
    shutdownDone := none
    checkConnectBlock := fun _ _ view stxos => (none, view, stxos)
    vmConnectBlock := fun _ => Except.ok 0
    dbPutUtxoView := fun _ => none
    DBPutSpendJournalEntry := fun _ _ => none
    hasIndexManager := true
    indexConnectBlock := fun _ _ _ _ => none
    updateTokenState := fun _ _ => none
    IsOnMainChain := fun _ => true
    detached := fun n =>
      ({ hash := n.hash, Parents := [1], Timestamp := 10, Difficulty := 0, Pow := 0,
         Transactions := [], SerializeSize := 100, order := n.order, height := n.height },
        UtxoViewpoint.empty, [])
    attached := fun _ block => (block, UtxoViewpoint.empty, [])
    isCurrent := false
    warnUnknownRuleActivations := fun _ => none
    GetMainChainTip := { id := 5, hash := 77, order := 5, height := 1, weight := 2,
                         IsOrdered := true, status := BlockStatus.Unknown }
    CalcPastMedianTime := fun _ => 0
    GetGraphState := 0
    GetTokenTipHash := 0
    dbPutBestState := fun _ => none
    indexUpdateMainTip := fun _ _ => none
    dagCommit := none
    hasAcct := false
    AcctCommit := none
    RefreshOrphans := none
    vmDisconnectBlock := fun _ => Except.ok 0
    DBRemoveSpendJournalEntry := fun _ => none
    indexDisconnectBlock := fun _ _ _ _ => none }

/-- A chain with an empty orphan pool and no calls made yet. -/
def sampleState : ChainState :=
  { orphans := []
    stateSnapshot := { Hash := 1, Bits := 0, BlockSize := 0, NumTxns := 1, MedianTime := 0,
                       TotalTxns := 1, Weight := 1, GraphState := 0, TokenTipHash := 0 }
    calls := [] }

/-- No behaviour flag set. -/
def noFlags : BehaviorFlags := { BFFastAdd := false, BFP2PAdd := false, BFRPCAdd := false }

/-- A coinbase transaction paying 50 to script `[1]`, with hash 100. -/
def sampleCoinbase : Tx :=
  { Tx := { TxIn := [{ PreviousOut := { Hash := 0, OutIndex := 4294967295 } }]
            TxOut := [{ Amount := { Value := 50, Id := 0 }, PkScript := [1] }] }
    hash := 100, Index := 0, IsDuplicate := false }

/-- A block with hash 77 on top of the known block 1, holding the sample
coinbase only. -/
def sampleBlock : SerializedBlock :=
  { hash := 77, Parents := [1], Timestamp := 10, Difficulty := 0, Pow := 0,
    Transactions := [sampleCoinbase], SerializeSize := 100, order := 0, height := 0 }

/-- The sample block with a second parent, 2, that the DAG does not hold. -/
def orphanBlock : SerializedBlock := { sampleBlock with Parents := [1, 2] }


/-- Sample collaborators whose connect-block validation rejects the block and
whose index manager fails. -/
def rejectingEnv : Env :=
  { sampleEnv with
    checkConnectBlock := fun _ _ view stxos => (some (Error.Plain "bad transaction"), view, stxos)
    indexConnectBlock := fun _ _ _ _ => some (Error.Plain "index failure") }

/-- The node handle the sample oracle returns for the sample block. -/
def sampleNode : IBlock :=
  { id := 5, hash := 77, order := 5, height := 1, weight := 2, IsOrdered := true,
    status := BlockStatus.Unknown }

/-! ### Reading the list of calls -/

/-- The calls of `s2` are those of `s1` followed by calls that all satisfy `P`. -/
def Extends (P : Call → Prop) (s1 s2 : ChainState) : Prop :=
  ∃ extra, s2.calls = s1.calls ++ extra ∧ ∀ c ∈ extra, P c

/-- The call is a `sendNotification`. -/
def Call.isNotification : Call → Bool
  | Call.sendNotification _ => true
  | _ => false

/-- The call is a `reorganizeChain`. -/
def Call.isReorganize : Call → Bool
  | Call.reorganizeChain _ => true
  | _ => false

/-- Neither a notification nor a reorganization. -/
def Call.quiet (c : Call) : Prop := c.isNotification = false ∧ c.isReorganize = false

/-- A second ordered node, for an oracle answer that orders two nodes. -/
def otherNode : IBlock :=
  { id := 4, hash := 66, order := 4, height := 1, weight := 2, IsOrdered := true,
    status := BlockStatus.Unknown }

/-- The call sends a `BlockConnected` or a `BlockAccepted` notification. -/
def Call.announces : Call → Bool
  | Call.sendNotification (Notification.BlockConnected _ _) => true
  | Call.sendNotification (Notification.BlockAccepted _ _ _) => true
  | _ => false

/-- The context checks of `maybeAcceptBlock` (lines 180-194) let the block
through: fast-add is set, or a main parent is found and `checkBlockContext`
passes. -/
def contextPasses (E : Env) (block : SerializedBlock) (flags : BehaviorFlags) : Prop :=
  flags.BFFastAdd = true ∨
    ∃ mainParent, E.GetMainParentByHashs block.Parents = some mainParent ∧
      E.checkBlockContext block mainParent flags = none

/-- The chain state of `maybeAcceptBlock` once the oracle has answered: the
lock is held, the pruner and `AddBlock` have been called. -/
def afterOracle (s : ChainState) (block : SerializedBlock) : ChainState :=
  ((s.call Call.ChainLock).call Call.pruneChainIfNeeded).call (Call.AddBlock block.hash)

/-- Sample collaborators whose oracle returns no node handle. -/
def emptyHandleEnv : Env :=
  { sampleEnv with AddBlock := fun _ => ([], [], none, false) }

/-- Sample collaborators whose best-state write fails. -/
def failingStoreEnv : Env :=
  { sampleEnv with dbPutBestState := fun _ => some (Error.Plain "write failed") }

/-! ### Reading `connectTransaction` -/

/-- The inputs that `connectTransaction` spends, paired with their indices,
from input number `start` on: every input but input 0 of a token-mint
transaction. -/
def spentInputsFrom (D : Deps) (tx : Tx) : List TxInput → Nat → List (Nat × TxInput)
  | [], _ => []
  | txIn :: rest, start =>
    if start = 0 ∧ D.IsTokenMintTx tx.Tx = true then spentInputsFrom D tx rest (start + 1)
    else (start, txIn) :: spentInputsFrom D tx rest (start + 1)

/-- The inputs that `connectTransaction` spends, paired with their indices. -/
def spentInputs (D : Deps) (tx : Tx) : List (Nat × TxInput) :=
  spentInputsFrom D tx tx.Tx.TxIn 0

/-- The journal entries for the given inputs of `tx`, read off the view `v`
that the transaction is connected to. -/
def journalFor (D : Deps) (tx : Tx) (v : UtxoViewpoint) (inputs : List (Nat × TxInput)) :
    List SpentTxOut :=
  inputs.filterMap (fun p =>
    (v.entries p.2.PreviousOut).map (fun e => newSpentTxOut D tx p.1 p.2 e.Spend))

/-- The outpoints of the outputs of a transaction with hash `txHash`, from
output number `idx` on. -/
def outpointsFrom (txHash : Nat) : List TxOutput → Nat → List TxOutPoint
  | [], _ => []
  | _ :: rest, idx => { Hash := txHash, OutIndex := uint32 idx } :: outpointsFrom txHash rest (idx + 1)

/-- The outpoints of the outputs of `tx`. -/
def createdOutpoints (tx : Tx) : List TxOutPoint := outpointsFrom tx.hash tx.Tx.TxOut 0

/-- The fee value that `connectTransaction` records for an input spending
`entry`: the fee of the origin block when the entry is a coinbase output of a
block other than the genesis block and is either the subsidy output or in a
coin other than MEER; 0 otherwise. -/
def recordedFee (D : Deps) (txIn : TxInput) (entry : UtxoEntry) : Int :=
  if entry.coinBase = true ∧ entry.blockHash ≠ D.GenesisHash ∧
      (txIn.PreviousOut.OutIndex = D.CoinbaseOutput_subsidy ∨ entry.amount.Id ≠ D.MEERA) then
    D.GetFeeByCoinID entry.blockHash entry.amount.Id
  else 0

/-- The fee value as the specification words it: computed "for
coinbase-origin spends outside the genesis block, excluding subsidy-output and
non-primary-coin cases"; 0 otherwise. -/
def specifiedFee (D : Deps) (txIn : TxInput) (entry : UtxoEntry) : Int :=
  if entry.coinBase = true ∧ entry.blockHash ≠ D.GenesisHash ∧
      ¬ (txIn.PreviousOut.OutIndex = D.CoinbaseOutput_subsidy ∨ entry.amount.Id ≠ D.MEERA) then
    D.GetFeeByCoinID entry.blockHash entry.amount.Id
  else 0

/-- A view holding one entry, at outpoint `(50, 0)`: the unspent subsidy
output, 100 MEER, of the coinbase of block 9. -/
def sampleView : UtxoViewpoint :=
  { entries := fun q =>
      if q = { Hash := 50, OutIndex := 0 } then
        some { amount := { Value := 100, Id := 0 }, pkScript := [9], blockHash := 9,
               coinBase := true, spent := false, modified := false }
      else none
    viewpoints := [] }

/-- A regular transaction with hash 200 that spends outpoint `(50, 0)` and pays
40 to script `[2]`. -/
def sampleSpend : Tx :=
  { Tx := { TxIn := [{ PreviousOut := { Hash := 50, OutIndex := 0 } }]
            TxOut := [{ Amount := { Value := 40, Id := 0 }, PkScript := [2] }] }
    hash := 200, Index := 1, IsDuplicate := false }

/-- A block with hash 78 holding the sample coinbase and the sample spend. -/
def spendBlock : SerializedBlock :=
  { sampleBlock with hash := 78, Transactions := [sampleCoinbase, sampleSpend] }

/-! ### Reading a connect followed by a disconnect -/

/-- Connecting the transactions of a block in order with `connectTransaction`,
a journal being requested, from transaction number `idx` on; it stops at the
first error. -/
def connectAll (D : Deps) (nodeHash : Nat) :
    List Tx → Nat → List SpentTxOut → UtxoViewpoint →
      Option Error × List SpentTxOut × UtxoViewpoint
  | [], _, js, v => (none, js, v)
  | tx :: rest, idx, js, v =>
    match connectTransaction D tx nodeHash idx (some js) v with
    | (some err, js1, v1) => (some err, js1.getD js, v1)
    | (none, js1, v1) => connectAll D nodeHash rest (idx + 1) (js1.getD js) v1

/-- The transaction is one that `disconnectTransactions` neither skips (a
duplicate, a token transaction that is not a mint, a cross-chain VM
transaction) nor treats as a cross-chain import. -/
def ordinary (D : Deps) (tx : Tx) : Bool :=
  !tx.IsDuplicate && !(D.IsTokenTx tx.Tx && !D.IsTokenMintTx tx.Tx) &&
    !(!D.IsTokenTx tx.Tx && D.IsCrossChainVMTx tx.Tx) && !D.IsCrossChainImportTx tx.Tx

/-- Every transaction from number `idx` on is ordinary, and is a coinbase
exactly when it is transaction 0. -/
def wellFormedFrom (D : Deps) : List Tx → Nat → Bool
  | [], _ => true
  | tx :: rest, idx =>
    ordinary D tx && (D.IsCoinBase tx.Tx == decide (idx = 0)) && wellFormedFrom D rest (idx + 1)

/-- The input is not input 0 of a token-mint transaction. -/
def spendsJournal (D : Deps) (tx : Tx) (p : Nat × TxInput) : Bool :=
  !(decide (p.1 = 0) && D.IsTokenMintTx tx.Tx)

/-- The outpoints of the spendable outputs of a transaction with hash
`txHash`, from output number `idx` on. -/
def spendableOutpointsFrom (D : Deps) (txHash : Nat) : List TxOutput → Nat → List TxOutPoint
  | [], _ => []
  | txOut :: rest, idx =>
    if D.IsUnspendable txOut.PkScript = true then spendableOutpointsFrom D txHash rest (idx + 1)
    else { Hash := txHash, OutIndex := uint32 idx } ::
      spendableOutpointsFrom D txHash rest (idx + 1)

/-- The outpoints of the spendable outputs of `tx`. -/
def spendableOutpoints (D : Deps) (tx : Tx) : List TxOutPoint :=
  spendableOutpointsFrom D tx.hash tx.Tx.TxOut 0

/-- The entry `e` has the amount, script and origin block hash of `e0`, is
marked modified, and is flagged coinbase when `e0` is: what lines 649-655 of
`disconnectTransactions` leave of an entry `e0` that a connect spent. -/
def UtxoEntry.RestoredFrom (e0 e : UtxoEntry) : Prop :=
  e.amount = e0.amount ∧ e.pkScript = e0.pkScript ∧ e.blockHash = e0.blockHash ∧
    e.modified = true ∧ (e0.coinBase = true → e.coinBase = true)

/-- What a transaction does to an outpoint. -/
inductive Touch where
  | spends
  | creates
  | shadows
  | untouched
  deriving DecidableEq, Repr

/-- What `tx` does to the outpoint `q`: it spends it through a journalled
input, or else creates it as a spendable output, or else creates it as an
unspendable output only, or does not touch it. -/
def touch (D : Deps) (tx : Tx) (q : TxOutPoint) : Touch :=
  if D.IsCoinBase tx.Tx = false ∧ q ∈ (spentInputs D tx).map (fun p => p.2.PreviousOut) then
    Touch.spends
  else if q ∈ spendableOutpoints D tx then Touch.creates
  else if q ∈ createdOutpoints tx then Touch.shadows
  else Touch.untouched

/-- What the first transaction of the list that touches `q` does to it. -/
def firstTouch (D : Deps) : List Tx → TxOutPoint → Touch
  | [], _ => Touch.untouched
  | tx :: rest, q =>
    match touch D tx q with
    | Touch.untouched => firstTouch D rest q
    | t => t

/-! ### Reading `ProcessBlock` and `maybeAcceptBlock` -/

/-- The result of `ProcessBlock` when the stale-tip check does not stop it:
the results of `processBlock` with `isTipsExpired = false`, or its panic. -/
def tipsNotExpired : Ret (Bool × Option Error) → Ret (Bool × Bool × Option Error)
  | Ret.returned (isOrphan, err) => Ret.returned (isOrphan, false, err)
  | Ret.panicked m => Ret.panicked m

/-- Sample collaborators whose oracle finds no main parent. -/
def noMainParentEnv : Env :=
  { sampleEnv with GetMainParentByHashs := fun _ => none }

/-- Sample collaborators whose sanity check rejects every block. -/
def insaneEnv : Env :=
  { sampleEnv with checkBlockSanity := fun _ _ => some (Error.RuleError (ErrorCode.ErrOther 7)
      "block is not sane") }

/-- Sample collaborators whose stale-tip check fails. -/
def staleTipEnv : Env :=
  { sampleEnv with CheckSubMainChainTip := fun _ => some (Error.Plain "stale tips") }

/-- The RPC-add flag alone. -/
def rpcFlags : BehaviorFlags := { BFFastAdd := false, BFP2PAdd := false, BFRPCAdd := true }

/-- The fast-add flag alone. -/
def fastFlags : BehaviorFlags := { BFFastAdd := true, BFP2PAdd := false, BFRPCAdd := false }

/-- Sample collaborators with a previous checkpoint: every node, the checkpoint
included, has timestamp 100. -/
def checkpointEnv : Env :=
  { sampleEnv with
    findPreviousCheckpoint := Except.ok (some
      { id := 3, hash := 33, order := 3, height := 1, weight := 1, IsOrdered := true,
        status := BlockStatus.Valid })
    GetBlockNode := fun o => o.map (fun _ => { timestamp := 100, difficulty := 0, powType := 0 }) }

/-- Sample collaborators with a previous checkpoint at timestamp 100 and a
DAG that already holds every block. -/
def knownBlockEnv : Env := { checkpointEnv with HasBlock := fun _ => true }

/-- The sample block with a claimed target, 5, above the easiest one allowed
by the sample checkpoint, 0, and a timestamp, 200, after the checkpoint. -/
def easyBlock : SerializedBlock := { sampleBlock with Timestamp := 200, Difficulty := 5 }

/-- The snapshot that `updateBestState` builds at lines 683-693 when the main
tip has the node `mainTipNode`. -/
def builtState (E : Env) (s : ChainState) (block : SerializedBlock)
    (mainTipNode : BlockNode) : BestState :=
  { Hash := E.GetMainChainTip.hash, Bits := mainTipNode.difficulty,
    BlockSize := uint64 block.SerializeSize,
    NumTxns := uint64 block.Transactions.length,
    MedianTime := E.CalcPastMedianTime E.GetMainChainTip,
    TotalTxns := uint64 (s.stateSnapshot.TotalTxns + uint64 block.Transactions.length),
    Weight := E.GetMainChainTip.weight, GraphState := E.GetGraphState,
    TokenTipHash := E.GetTokenTipHash }

/-- Sample collaborators whose index manager fails to update the main tip. -/
def failingIndexEnv : Env :=
  { sampleEnv with indexUpdateMainTip := fun _ _ => some (Error.Plain "index failure") }

/-! ### Reading the notifications of a run (C15, C16) -/

/-- The notifications sent in a list of calls, in the order they are sent. -/
def sentNotifications : List Call → List Notification
  | [] => []
  | Call.sendNotification n :: rest => n :: sentNotifications rest
  | _ :: rest => sentNotifications rest

/-- Some `sendNotification` of the list of calls happens while the chain lock
is held: after a `ChainLock` and before the next `ChainUnlock`. The argument
`held` says whether the lock is held when the list starts. -/
def notifiesUnderLock (held : Bool) : List Call → Bool
  | [] => false
  | Call.ChainLock :: rest => notifiesUnderLock true rest
  | Call.ChainUnlock :: rest => notifiesUnderLock false rest
  | Call.sendNotification _ :: rest => held || notifiesUnderLock held rest
  | _ :: rest => notifiesUnderLock held rest

/-- The list `connectedBlocks` of `maybeAcceptBlock` (line 243) as
`connectDagChain` leaves it (line 247), for the oracle answer
`(newOrders, oldOrders, ib, _)`. -/
def connectedBlocksOf (E : Env) (s : ChainState) (block : SerializedBlock)
    (newOrders oldOrders : List IBlock) (ib : IBlock) : List (SerializedBlock × Bool) :=
  (connectDagChain E
    ((storeBlock E (afterOracle s block) (placedBlock block ib)).2.call
      (Call.shutdownWait ib.hash))
    ib (placedBlock block ib) newOrders oldOrders []).1.2.2

/-- The calls of `maybeAcceptBlock` after it has released the chain lock
(lines 260-284), the deferred `flushNotifications` included. -/
def announcements (E : Env) (block : SerializedBlock) (isMainChainTipChange : Bool)
    (flags : BehaviorFlags) (connectedBlocks : List (SerializedBlock × Bool)) : List Call :=
  connectedBlocks.map (fun e => Call.sendNotification (Notification.BlockConnected e.1 e.2)) ++
    ((if flags.BFP2PAdd = true then [Call.LogBlockHeight block.hash] else []) ++
      (Call.sendNotification (Notification.BlockAccepted block isMainChainTipChange flags) ::
        ((if E.hasAcct = true then [Call.AcctCommit] else []) ++ [Call.flushNotifications])))

/-- A state in which the chain lock has been taken. -/
def lockedState : ChainState := sampleState.call Call.ChainLock

/-- Some `sendNotification` for `BlockConnected` or `BlockAccepted` of the list
of calls happens while the chain lock is held: after a `ChainLock` and before
the next `ChainUnlock`. The argument `held` says whether the lock is held when
the list starts. -/
def announcesUnderLock (held : Bool) : List Call → Bool
  | [] => false
  | Call.ChainLock :: rest => announcesUnderLock true rest
  | Call.ChainUnlock :: rest => announcesUnderLock false rest
  | c :: rest => (held && c.announces) || announcesUnderLock held rest

/-- The admission of the block takes the reorganize path of `connectDagChain`:
the oracle returns a node handle, and the condition of lines 319-320 fails for
its answer. -/
def reorganizes (E : Env) (block : SerializedBlock) : Bool :=
  match E.AddBlock block with
  | (newOrders, oldOrders, some ib, _) => !isSimpleExtend ib newOrders oldOrders
  | _ => false

/-- Sample collaborators whose oracle, when it orders the new block as node 5,
removes node 4 from the order: the admission is a reorganize. -/
def reorgEnv : Env :=
  { sampleEnv with
    AddBlock := fun block =>
      let ib : IBlock := { id := 5, hash := block.hash, order := 5, height := 1, weight := 2,
                           IsOrdered := true, status := BlockStatus.Unknown }
      ([ib], [otherNode], some ib, true) }

/-- The body that the sample collaborators hand out for node 4: a block with
hash 66 and no transactions. -/
def otherBlock : SerializedBlock :=
  { hash := 66, Parents := [1], Timestamp := 10, Difficulty := 0, Pow := 0,
    Transactions := [], SerializeSize := 100, order := 4, height := 1 }

/-! ### Reading the block-batch file (C19) -/

/-- The block-batch format in the words of its description: "a 4-byte count
header followed by repeated records of 4-byte length, raw block bytes". -/
def batchFile (o : ByteOrder) (blocks : List (List Nat)) : List Nat :=
  o.PutUint32 blocks.length ++ (blocks.map (fun b => o.PutUint32 b.length ++ b)).flatten

/-- The byte strings handed to the block parser one after the other, each
followed by the sanity check and `FastAcceptBlock` of the parsed block, until
one of them fails: what `importBlockChain` is to do with the blocks of a
file. -/
def feedBlocks (K : BlockSource) (E : Env) :
    List (List Nat) → List (List Nat) → ChainState → ImportRun
  | [], handed, s => { outcome := some (Ret.returned none), handed := handed, chain := s }
  | b :: rest, handed, s =>
    let handed := handed ++ [b]
    match K.NewBlockFromBytes b with
    | Except.error err =>
      { outcome := some (Ret.returned (some err)), handed := handed, chain := s }
    | Except.ok blk =>
      match E.checkBlockSanity blk importFlags with
      | some err => { outcome := some (Ret.returned (some err)), handed := handed, chain := s }
      | none =>
        match FastAcceptBlock E s blk importFlags with
        | (Ret.panicked m, s) => { outcome := some (Ret.panicked m), handed := handed, chain := s }
        | (Ret.returned (some err), s) =>
          { outcome := some (Ret.returned (some err)), handed := handed, chain := s }
        | (Ret.returned none, s) => feedBlocks K E rest handed s

/-- A file read into a slice whose backing array holds `slack` after the bytes
of the file. -/
def fileSlice (content slack : List Nat) : ByteSlice :=
  { backing := content ++ slack, len := content.length }

/-- Sample collaborators of the commands: the block with hash `h` serializes
to the three bytes `h % 256, 1, 2`, and the parser reads the hash back. -/
def sampleSource : BlockSource :=
  { NewBlockFromBytes := fun bytes => Except.ok { sampleBlock with hash := bytes.getD 0 0 }
    FetchBlockByHash := fun h => Except.ok { sampleBlock with hash := h }
    Bytes := fun blk => Except.ok [blk.hash % 256, 1, 2] }

/-- Sample collaborators of the pipeline on an empty database: the main tip
has order 0. -/
def emptyChainEnv : Env :=
  { sampleEnv with
    GetMainChainTip := { id := 0, hash := 1, order := 0, height := 0, weight := 1,
                         IsOrdered := true, status := BlockStatus.Valid } }

/-! ### Reading the locking of a run (C29) -/

/-- The call takes or releases the exclusive chain lock. -/
def Call.isLocking : Call → Bool
  | Call.ChainLock => true
  | Call.ChainUnlock => true
  | _ => false

/-- The call is neither a `sendNotification` nor a `ChainLock` or
`ChainUnlock`. -/
def Call.calm (c : Call) : Prop := c.isNotification = false ∧ c.isLocking = false

/-- The call is neither a `sendNotification` for `BlockConnected` or
`BlockAccepted` nor a `ChainLock` or `ChainUnlock`. -/
def Call.steady (c : Call) : Prop := c.announces = false ∧ c.isLocking = false

/-! ### Reading `IBDBlock.Decode` (C28) -/

/-- The number that the first four bytes of the slice's backing array encode:
what `Decode` reads as the length when `bytes[:4]` is in range. -/
def headerLength (o : ByteOrder) (bytes : ByteSlice) : Nat :=
  (o.Uint32 { backing := bytes.backing, len := 4 }).getD 0

/-- The call of `Decode` panics. -/
def Ret.isPanic {α : Type} : Ret α → Bool
  | Ret.panicked _ => true
  | Ret.returned _ => false

/-! ### Reading `disconnectTransactions` (C23, C24, C27) -/

/-- The transaction is one that `disconnectTransactions` skips (lines 602-611):
a duplicate, a token transaction that is not a mint, or a cross-chain VM
transaction that is not a token transaction. -/
def skipped (D : Deps) (tx : Tx) : Bool :=
  tx.IsDuplicate || (D.IsTokenTx tx.Tx && !D.IsTokenMintTx tx.Tx) ||
    (!D.IsTokenTx tx.Tx && D.IsCrossChainVMTx tx.Tx)

/-- The journal entries that transaction number `txIdx` consumes, in input
order: none for a skipped transaction and for transaction 0, one (`none`,
nothing is restored) for a cross-chain import transaction, and otherwise one
for each input but input 0 of a token-mint transaction (`some p`, the input's
previous outpoint `p` is restored). -/
def txSlots (D : Deps) (txIdx : Nat) (tx : Tx) : List (Option TxOutPoint) :=
  if skipped D tx = true ∨ txIdx = 0 then []
  else if D.IsCrossChainImportTx tx.Tx = true then [none]
  else (tx.Tx.TxIn.enum.filter (spendsJournal D tx)).map (fun p => some p.2.PreviousOut)

/-- The journal entries that the transactions consume, in block order. -/
def blockSlots (D : Deps) (txs : List (Nat × Tx)) : List (Option TxOutPoint) :=
  (txs.map (fun p => txSlots D p.1 p.2)).flatten

/-- The journal entries in the order `disconnectTransactions` consumes them:
the given transactions one after the other, each with its inputs last to
first. -/
def consumedSlots (D : Deps) (l : List (Nat × Tx)) : List (Option TxOutPoint) :=
  (l.map (fun p => (txSlots D p.1 p.2).reverse)).flatten

/-- The entry has the amount, script and origin block hash of the journal
entry, is marked modified, and is flagged coinbase when the journal entry
is. -/
def Restores (stxo : SpentTxOut) (e : UtxoEntry) : Prop :=
  e.amount = stxo.Amount ∧ e.pkScript = stxo.PkScript ∧ e.blockHash = stxo.BlockHash ∧
    e.modified = true ∧ (stxo.IsCoinBase = true → e.coinBase = true)

/-- The outpoints that `disconnectTransactions` marks spent for the given
transactions: the spendable outputs of those it does not skip. -/
def markedOutpoints (D : Deps) (l : List (Nat × Tx)) : List TxOutPoint :=
  (l.map (fun p => if skipped D p.2 = true then [] else spendableOutpoints D p.2)).flatten

/-- What a stretch of the walk of `disconnectTransactions` does to the view,
when it consumes the journal entries `slots` (in the order it consumes them,
starting at journal index `idx`) and marks the outpoints `marked`: the
viewpoints are kept; an entry with a property that `Spend` keeps still has it
when its outpoint is not restored; an outpoint that is neither restored nor
marked keeps what it held; and the `j`-th entry consumed, when it restores an
outpoint that no later one restores, is read at index `idx - j` and leaves its
fields in the view. -/
def WalkRel (stxos : List SpentTxOut) (slots : List (Option TxOutPoint))
    (marked : List TxOutPoint) (idx : Int) (w w1 : UtxoViewpoint) : Prop :=
  w1.viewpoints = w.viewpoints ∧
  (∀ P : UtxoEntry → Prop, (∀ e, P e → P e.Spend) → ∀ q, some q ∉ slots →
    (∃ e, w.entries q = some e ∧ P e) → ∃ e, w1.entries q = some e ∧ P e) ∧
  (∀ q, some q ∉ slots → q ∉ marked → w1.entries q = w.entries q) ∧
  (∀ (j : Nat) (q : TxOutPoint), slots[j]? = some (some q) → some q ∉ slots.drop (j + 1) →
    0 ≤ idx - (j : Int) ∧ ∃ stxo, stxos[(idx - (j : Int)).toNat]? = some stxo ∧
      ∃ e, w1.entries q = some e ∧ Restores stxo e)

/-- A journal entry for an output of `value` MEER, script `[9]`, of block 9. -/
def sampleStxo (value : Int) : SpentTxOut :=
  { Amount := { Value := value, Id := 0 }, PkScript := [9], BlockHash := 9,
    IsCoinBase := false, TxIndex := 1, TxInIndex := 0, Fees := { Value := 0, Id := 0 } }

/-- A transaction with hash 201 whose two inputs both have the previous
outpoint `(50, 0)`. -/
def doubleSpend : Tx :=
  { Tx := { TxIn := [{ PreviousOut := { Hash := 50, OutIndex := 0 } },
                     { PreviousOut := { Hash := 50, OutIndex := 0 } }]
            TxOut := [{ Amount := { Value := 40, Id := 0 }, PkScript := [2] }] }
    hash := 201, Index := 1, IsDuplicate := false }

/-- A block with hash 79 holding the sample coinbase and the double spend. -/
def doubleBlock : SerializedBlock :=
  { sampleBlock with hash := 79, Transactions := [sampleCoinbase, doubleSpend] }

/-- The view that a call returned, the empty view when it did not return
one. -/
def returnedView : Ret (Option Error × UtxoViewpoint) → UtxoViewpoint
  | Ret.returned (_, w) => w
  | Ret.panicked _ => UtxoViewpoint.empty

/-! ## Part 4: theorems -/

/-! ### Bookkeeping lemmas -/

@[simp] theorem ChainState.IsOrphan_call (s : ChainState) (c : Call) (hash : Nat) :
    (s.call c).IsOrphan hash = s.IsOrphan hash := rfl

@[simp] theorem ChainState.calls_call (s : ChainState) (c : Call) :
    (s.call c).calls = s.calls ++ [c] := rfl

@[simp] theorem ChainState.orphans_call (s : ChainState) (c : Call) :
    (s.call c).orphans = s.orphans := rfl

@[simp] theorem ChainState.stateSnapshot_call (s : ChainState) (c : Call) :
    (s.call c).stateSnapshot = s.stateSnapshot := rfl

theorem ChainState.call_call (s : ChainState) (c d : Call) :
    (s.call c).call d = { s with calls := s.calls ++ [c, d] } := by
  simp [ChainState.call]

/-! ### Duplicates and orphans (C2, C3) -/

/-- C2. A block whose hash is already in the DAG or already in the orphan pool
makes `processBlock` return a rule error of kind `ErrDuplicateBlock`; the only
calls made are the read lock and its release, so `maybeAcceptBlock` (which
starts with `ChainLock`) is never reached, and the orphan pool and the
published snapshot stay as they were. -/
theorem processBlock_duplicate (E : Env) (s : ChainState) (block : SerializedBlock)
    (flags : BehaviorFlags)
    (h : E.HasBlock block.hash = true ∨ s.IsOrphan block.hash = true) :
    ∃ isOrphan msg,
      processBlock E s block flags =
        (Ret.returned (isOrphan, some (Error.RuleError ErrorCode.ErrDuplicateBlock msg)),
          { s with calls := s.calls ++ [Call.ChainRLock, Call.ChainRUnlock] }) := by
  by_cases h1 : E.HasBlock block.hash = true
  · refine ⟨false, "already have block", ?_⟩
    simp only [processBlock, preProcessBlock, h1, if_true, ChainState.call_call, ruleError]
  · have h2 : s.IsOrphan block.hash = true := by
      cases h with
      | inl h => exact absurd h h1
      | inr h => exact h
    refine ⟨true, "already have block (orphan)", ?_⟩
    have h1' : E.HasBlock block.hash = false := by simpa using h1
    simp [processBlock, preProcessBlock, h1', h2, ChainState.call_call, ruleError]

/-- Witness of C2: the sample block resubmitted when the DAG already holds its
hash. -/
theorem processBlock_duplicate_witness :
    ∃ isOrphan msg,
      processBlock { sampleEnv with HasBlock := fun _ => true } sampleState sampleBlock noFlags =
        (Ret.returned (isOrphan, some (Error.RuleError ErrorCode.ErrDuplicateBlock msg)),
          { sampleState with
            calls := sampleState.calls ++ [Call.ChainRLock, Call.ChainRUnlock] }) :=
  processBlock_duplicate { sampleEnv with HasBlock := fun _ => true } sampleState sampleBlock
    noFlags (Or.inl rfl)


theorem orphanScan_missing (E : Env) (block : SerializedBlock) (s : ChainState) :
    ∀ parents : List Nat, (∃ pb ∈ parents, E.HasBlock pb = false) →
      orphanScan E block parents s = ((true, none), s.addOrphanBlock block) := by
  intro parents
  induction parents with
  | nil => intro h; obtain ⟨pb, hpb, _⟩ := h; cases hpb
  | cons p rest ih =>
    intro h
    by_cases hp : E.HasBlock p = false
    · simp [orphanScan, hp]
    · obtain ⟨pb, hpb, hmiss⟩ := h
      have hrest : ∃ pb ∈ rest, E.HasBlock pb = false := by
        rcases List.mem_cons.mp hpb with heq | hin
        · exact absurd (heq ▸ hmiss) hp
        · exact ⟨pb, hin, hmiss⟩
      simp [orphanScan, hp, ih hrest]

/-- C3, as stated, fails: a block with an unknown parent that is already held
in the orphan pool is answered with `ErrDuplicateBlock`, not with
`isOrphan=true` and no error. -/
theorem processBlock_orphan_counterexample :
    ¬ ∀ (E : Env) (s : ChainState) (block : SerializedBlock) (flags : BehaviorFlags),
        (∃ pb ∈ block.Parents, E.HasBlock pb = false) →
          (processBlock E s block flags).1 = Ret.returned (true, none) := by
  intro h
  have h1 := h sampleEnv { sampleState with orphans := [77] } orphanBlock noFlags
    ⟨2, by decide, by decide⟩
  have h2 : (processBlock sampleEnv { sampleState with orphans := [77] } orphanBlock noFlags).1 =
      Ret.returned (true, some (Error.RuleError ErrorCode.ErrDuplicateBlock
        "already have block (orphan)")) := by
    rfl
  rw [h2] at h1
  simp at h1

/-- C3, amended. A block that is neither in the DAG nor in the orphan pool,
that passes the sanity check and the checkpoint checks, and that has a parent
the DAG does not hold, makes `processBlock` return `isOrphan=true` with no
error; the block is put in the orphan pool, the published snapshot is
untouched, and the only calls are the read lock, `addOrphanBlock` and the
release: no `ChainLock`, `AddBlock`, connect or best-state call is made. -/
theorem processBlock_orphan (E : Env) (s : ChainState) (block : SerializedBlock)
    (flags : BehaviorFlags) (checkpoint : Option IBlock)
    (hdag : E.HasBlock block.hash = false)
    (horphan : s.IsOrphan block.hash = false)
    (hsane : E.checkBlockSanity block flags = none)
    (hfind : E.findPreviousCheckpoint = Except.ok checkpoint)
    (hcheck : checkpointChecks E block flags.BFFastAdd checkpoint = none)
    (hparent : ∃ pb ∈ block.Parents, E.HasBlock pb = false) :
    processBlock E s block flags =
      (Ret.returned (true, none),
        { s with
          orphans := block.hash :: s.orphans
          calls := s.calls ++
            [Call.ChainRLock, Call.addOrphanBlock block.hash, Call.ChainRUnlock] }) := by
  simp [processBlock, preProcessBlock, hdag, horphan, hsane, hfind, hcheck,
    orphanScan_missing E block _ block.Parents hparent]
  simp [ChainState.addOrphanBlock, ChainState.call]

/-- Witness of C3 amended: the sample block with the unknown parent 2. -/
theorem processBlock_orphan_witness :
    processBlock sampleEnv sampleState orphanBlock noFlags =
      (Ret.returned (true, none),
        { sampleState with
          orphans := orphanBlock.hash :: sampleState.orphans
          calls := sampleState.calls ++
            [Call.ChainRLock, Call.addOrphanBlock orphanBlock.hash, Call.ChainRUnlock] }) :=
  processBlock_orphan sampleEnv sampleState orphanBlock noFlags none (by decide) (by decide)
    rfl rfl rfl ⟨2, by decide, by decide⟩


/-! ### The connector (C4, C5) -/

/-- C4, as stated, fails: when connect-block validation rejects the block and
the index manager then returns an error, the block is not appended to the
connected-blocks list. -/
theorem connectDagChain_invalid_counterexample :
    ¬ ∀ (E : Env) (s : ChainState) (ib : IBlock) (block : SerializedBlock)
        (newOrders oldOrders : List IBlock),
        isSimpleExtend ib newOrders oldOrders = true → ib.IsOrdered = true →
        (E.checkConnectBlock ib block (UtxoViewpoint.empty.SetViewpoints [ib.hash]) []).1.isSome
          = true →
        ∃ isOnMainChain,
          (block, isOnMainChain) ∈
            (connectDagChain E s ib block newOrders oldOrders []).1.2.2 := by
  intro h
  have h1 := h rejectingEnv sampleState sampleNode sampleBlock [sampleNode] [] rfl rfl rfl
  have h2 : (connectDagChain rejectingEnv sampleState sampleNode sampleBlock [sampleNode] []
      []).1.2.2 = [] := rfl
  rw [h2] at h1
  simp at h1

/-- C4, amended. When `checkConnectBlock` fails on the simple-extend path,
`connectDagChain` marks the node Invalid, cleans the view, passes an empty
journal on and never marks the node Valid; `connectBlock` makes no VM
`ConnectBlock` call, no UTXO-view write and no spend-journal write. If an
index manager is configured it is called with an empty script list and
side-chain block id 0; when that call succeeds, or there is no index manager,
the block is appended to the connected-blocks list and the result is
`(true, nil)`; when it fails nothing is appended, the node is marked Invalid
again and the error is returned. -/
theorem connectDagChain_invalid (E : Env) (s : ChainState) (ib : IBlock)
    (block : SerializedBlock) (newOrders oldOrders : List IBlock)
    (connectedBlocks : List (SerializedBlock × Bool))
    (hsimple : isSimpleExtend ib newOrders oldOrders = true)
    (hordered : ib.IsOrdered = true)
    (hfail : (E.checkConnectBlock ib block (UtxoViewpoint.empty.SetViewpoints [ib.hash])
      []).1.isSome = true) :
    connectDagChain E s ib block newOrders oldOrders connectedBlocks =
      if E.hasIndexManager = true then
        match E.indexConnectBlock block [] { ib with status := BlockStatus.Invalid } 0 with
        | some err =>
          (((true, some err), { ib with status := BlockStatus.Invalid }, connectedBlocks),
            { s with calls := s.calls ++
                [Call.checkConnectBlock ib.id, Call.InvalidBlock ib.id, Call.viewClean,
                  Call.indexConnectBlock block.hash [] ib.id 0, Call.InvalidBlock ib.id] })
        | none =>
          (((true, none), { ib with status := BlockStatus.Invalid },
              connectedBlocks ++ [(block, E.IsOnMainChain ib.id)]),
            { s with calls := s.calls ++
                [Call.checkConnectBlock ib.id, Call.InvalidBlock ib.id, Call.viewClean,
                  Call.indexConnectBlock block.hash [] ib.id 0,
                  Call.connectedBlocksPushBack block.hash (E.IsOnMainChain ib.id)] })
      else
        (((true, none), { ib with status := BlockStatus.Invalid },
            connectedBlocks ++ [(block, E.IsOnMainChain ib.id)]),
          { s with calls := s.calls ++
              [Call.checkConnectBlock ib.id, Call.InvalidBlock ib.id, Call.viewClean,
                Call.connectedBlocksPushBack block.hash (E.IsOnMainChain ib.id)] }) := by
  rcases hc : E.checkConnectBlock ib block (UtxoViewpoint.empty.SetViewpoints [ib.hash]) []
    with ⟨err, view1, stxos1⟩
  rw [hc] at hfail
  cases err with
  | none => simp at hfail
  | some e =>
    by_cases hidx : E.hasIndexManager = true
    · cases hi : E.indexConnectBlock block [] { ib with status := BlockStatus.Invalid } 0 with
      | some err =>
        have hi' := hi
        simp only [hordered] at hi'
        simp [connectDagChain, connectBlock, hsimple, hordered, hc, hidx, hi', InvalidBlock,
          BlockStatus.KnownInvalid, ChainState.call]
      | none =>
        have hi' := hi
        simp only [hordered] at hi'
        simp [connectDagChain, connectBlock, hsimple, hordered, hc, hidx, hi', InvalidBlock,
          BlockStatus.KnownInvalid, ChainState.call]
    · simp [connectDagChain, connectBlock, hsimple, hordered, hc, hidx, InvalidBlock,
        BlockStatus.KnownInvalid, ChainState.call]

/-- Witness of C4 amended: the sample block rejected by validation with a
failing index manager. -/
theorem connectDagChain_invalid_witness :
    connectDagChain rejectingEnv sampleState sampleNode sampleBlock [sampleNode] [] [] =
      (((true, some (Error.Plain "index failure")),
          { sampleNode with status := BlockStatus.Invalid }, []),
        { sampleState with calls :=
            [Call.checkConnectBlock 5, Call.InvalidBlock 5, Call.viewClean,
              Call.indexConnectBlock 77 [] 5 0, Call.InvalidBlock 5] }) :=
  connectDagChain_invalid rejectingEnv sampleState sampleNode sampleBlock [sampleNode] [] []
    rfl rfl rfl


theorem Extends.refl (P : Call → Prop) (s : ChainState) : Extends P s s :=
  ⟨[], by simp, by simp⟩

theorem Extends.step {P : Call → Prop} {s1 s2 : ChainState} {c : Call}
    (h : Extends P s1 s2) (hc : P c) : Extends P s1 (s2.call c) := by
  obtain ⟨extra, h1, h2⟩ := h
  refine ⟨extra ++ [c], by simp [h1], ?_⟩
  intro d hd
  rcases List.mem_append.mp hd with hd | hd
  · exact h2 d hd
  · simp at hd; subst hd; exact hc

theorem Extends.trans {P : Call → Prop} {s1 s2 s3 : ChainState}
    (h12 : Extends P s1 s2) (h23 : Extends P s2 s3) : Extends P s1 s3 := by
  obtain ⟨e1, h1, h1'⟩ := h12
  obtain ⟨e2, h2, h2'⟩ := h23
  refine ⟨e1 ++ e2, by simp [h2, h1], ?_⟩
  intro d hd
  rcases List.mem_append.mp hd with hd | hd
  · exact h1' d hd
  · exact h2' d hd

theorem connectBlock_extends (E : Env) (s : ChainState) (node : IBlock) (block : SerializedBlock)
    (view : UtxoViewpoint) (stxos : List SpentTxOut)
    (connectedBlocks : List (SerializedBlock × Bool)) :
    Extends Call.quiet s (connectBlock E s node block view stxos connectedBlocks).2 := by
  unfold connectBlock
  simp only []
  repeat' split
  all_goals
    repeat (first
      | exact Extends.refl _ _
      | refine Extends.step ?_ ⟨rfl, rfl⟩)


theorem Extends.mono {P Q : Call → Prop} {s1 s2 : ChainState} (hPQ : ∀ c, P c → Q c)
    (h : Extends P s1 s2) : Extends Q s1 s2 := by
  obtain ⟨extra, h1, h2⟩ := h
  exact ⟨extra, h1, fun c hc => hPQ c (h2 c hc)⟩

theorem Call.announces_of_isNotification (c : Call) (h : c.isNotification = false) :
    c.announces = false := by
  cases c <;> simp_all [Call.isNotification, Call.announces]

theorem Call.steady_of_calm (c : Call) (h : Call.calm c) : Call.steady c :=
  ⟨Call.announces_of_isNotification c h.1, h.2⟩

theorem connectBlock_steady (E : Env) (s : ChainState) (node : IBlock) (block : SerializedBlock)
    (view : UtxoViewpoint) (stxos : List SpentTxOut)
    (connectedBlocks : List (SerializedBlock × Bool)) :
    Extends Call.steady s (connectBlock E s node block view stxos connectedBlocks).2 := by
  unfold connectBlock
  simp only []
  repeat' split
  all_goals
    repeat (first
      | exact Extends.refl _ _
      | refine Extends.step ?_ ⟨rfl, rfl⟩)

theorem disconnectBlock_steady (E : Env) (s : ChainState) (ib : IBlock)
    (block : SerializedBlock) (view : UtxoViewpoint) (stxos : List SpentTxOut) :
    Extends Call.steady s (disconnectBlock E s ib block view stxos).2 := by
  unfold disconnectBlock
  simp only []
  repeat' split
  all_goals
    repeat (first
      | exact Extends.refl _ _
      | refine Extends.step ?_ ⟨rfl, rfl⟩)

theorem detachBlocks_steady (E : Env) :
    ∀ (l : List IBlock) (s : ChainState), Extends Call.steady s (detachBlocks E l s).2 := by
  intro l
  induction l with
  | nil => intro s; exact Extends.refl _ _
  | cons n rest ih =>
    intro s
    have h := disconnectBlock_steady E s n (E.detached n).1 (E.detached n).2.1
      (E.detached n).2.2
    simp only [detachBlocks]
    rcases hd : disconnectBlock E s n (E.detached n).1 (E.detached n).2.1
      (E.detached n).2.2 with ⟨err, s1⟩
    rw [hd] at h
    cases err with
    | some e => exact h
    | none => exact h.trans (ih s1)

theorem attachBlocks_steady (E : Env) (block : SerializedBlock) :
    ∀ (l : List IBlock) (connectedBlocks : List (SerializedBlock × Bool)) (s : ChainState),
      Extends Call.steady s (attachBlocks E block l connectedBlocks s).2 := by
  intro l
  induction l with
  | nil => intro connectedBlocks s; exact Extends.refl _ _
  | cons n rest ih =>
    intro connectedBlocks s
    have h := connectBlock_steady E s n (E.attached n block).1 (E.attached n block).2.1
      (E.attached n block).2.2 connectedBlocks
    simp only [attachBlocks]
    rcases hd : connectBlock E s n (E.attached n block).1 (E.attached n block).2.1
      (E.attached n block).2.2 connectedBlocks with ⟨⟨err, connected⟩, s1⟩
    rw [hd] at h
    cases err with
    | some e => exact h
    | none => exact h.trans (ih connected s1)

theorem reorganizeChain_steady (E : Env) (s : ChainState) (ib : IBlock)
    (oldOrders newOrders : List IBlock) (block : SerializedBlock)
    (connectedBlocks : List (SerializedBlock × Bool)) :
    Extends Call.steady s
      (reorganizeChain E s ib oldOrders newOrders block connectedBlocks).2 := by
  have h := detachBlocks_steady E oldOrders s
  simp only [reorganizeChain]
  rcases hd : detachBlocks E oldOrders s with ⟨err, s1⟩
  rw [hd] at h
  cases err with
  | some e => exact h
  | none => exact h.trans (attachBlocks_steady E block newOrders connectedBlocks s1)

theorem detachBlocks_congr (E E' : Env) (h1 : E'.detached = E.detached)
    (h2 : disconnectBlock E' = disconnectBlock E) :
    ∀ (l : List IBlock) (s : ChainState), detachBlocks E' l s = detachBlocks E l s := by
  intro l
  induction l with
  | nil => intro s; rfl
  | cons n rest ih =>
    intro s
    simp only [detachBlocks, h1, h2, ih]

theorem attachBlocks_congr (E E' : Env) (block : SerializedBlock)
    (h1 : E'.attached = E.attached) (h2 : connectBlock E' = connectBlock E) :
    ∀ (l : List IBlock) (connectedBlocks : List (SerializedBlock × Bool)) (s : ChainState),
      attachBlocks E' block l connectedBlocks s = attachBlocks E block l connectedBlocks s := by
  intro l
  induction l with
  | nil => intro connectedBlocks s; rfl
  | cons n rest ih =>
    intro connectedBlocks s
    simp only [attachBlocks, h1, h2, ih]

theorem connectDagChain_congr (E E' : Env)
    (h1 : E'.checkConnectBlock = E.checkConnectBlock)
    (h2 : connectBlock E' = connectBlock E) (h3 : disconnectBlock E' = disconnectBlock E)
    (h4 : E'.detached = E.detached) (h5 : E'.attached = E.attached) :
    connectDagChain E' = connectDagChain E := by
  funext s ib block newOrders oldOrders connectedBlocks
  simp only [connectDagChain, reorganizeChain, h1, h2, detachBlocks_congr E E' h4 h3,
    attachBlocks_congr E E' block h5 h2]

theorem connectDagChain_simple_extends (E : Env) (s : ChainState) (ib : IBlock)
    (block : SerializedBlock) (newOrders oldOrders : List IBlock)
    (connectedBlocks : List (SerializedBlock × Bool))
    (hsimple : isSimpleExtend ib newOrders oldOrders = true) :
    Extends Call.quiet s (connectDagChain E s ib block newOrders oldOrders connectedBlocks).2 ∧
      (connectDagChain E s ib block newOrders oldOrders connectedBlocks).1.1.1 = true := by
  unfold connectDagChain
  simp only [hsimple, ↓reduceIte]
  cases ho : ib.IsOrdered with
  | false =>
    simp only [↓reduceIte]
    exact ⟨Extends.refl _ _, trivial⟩
  | true =>
    simp only [Bool.true_eq_false, ↓reduceIte]
    rcases hc : E.checkConnectBlock ib block (UtxoViewpoint.empty.SetViewpoints [ib.hash]) []
      with ⟨err, view1, stxos1⟩
    cases err with
    | some e =>
      simp only [InvalidBlock]
      have hcb := connectBlock_extends E (((s.call (Call.checkConnectBlock ib.id)).call
        (Call.InvalidBlock ib.id)).call Call.viewClean) { ib with status := BlockStatus.Invalid }
        block view1.Clean [] connectedBlocks
      have hpre : Extends Call.quiet s (((s.call (Call.checkConnectBlock ib.id)).call
        (Call.InvalidBlock ib.id)).call Call.viewClean) :=
        ((((Extends.refl _ s).step ⟨rfl, rfl⟩).step ⟨rfl, rfl⟩).step ⟨rfl, rfl⟩)
      have hall := hpre.trans hcb
      split
      · rename_i heq
        rw [heq] at hall
        exact ⟨hall.step ⟨rfl, rfl⟩, rfl⟩
      · rename_i heq
        rw [heq] at hall
        simp only [BlockStatus.KnownInvalid, Bool.true_eq_false, ↓reduceIte]
        exact ⟨hall, trivial⟩
    | none =>
      have hcb := connectBlock_extends E (s.call (Call.checkConnectBlock ib.id)) ib
        block view1 stxos1 connectedBlocks
      have hpre : Extends Call.quiet s (s.call (Call.checkConnectBlock ib.id)) :=
        (Extends.refl _ s).step ⟨rfl, rfl⟩
      have hall := hpre.trans hcb
      simp only []
      split
      · rename_i heq
        rw [heq] at hall
        exact ⟨hall.step ⟨rfl, rfl⟩, rfl⟩
      · rename_i heq
        rw [heq] at hall
        simp only [ValidBlock]
        split
        · exact ⟨hall.step ⟨rfl, rfl⟩, rfl⟩
        · exact ⟨hall, rfl⟩


theorem newOr_eq (newOrders : List IBlock) :
    newOr newOrders = (newOrders.filter (fun n => n.IsOrdered)).map (fun n => n.id) := by
  induction newOrders with
  | nil => rfl
  | cons n rest ih =>
    cases hn : n.IsOrdered <;> simp [newOr, hn, ih]

theorem isSimpleExtend_iff (ib : IBlock) (newOrders oldOrders : List IBlock) :
    isSimpleExtend ib newOrders oldOrders = true ↔
      (oldOrders = [] ∧
        ((newOrders.filter (fun n => n.IsOrdered)).map (fun n => n.id) = [] ∨
          (newOrders.filter (fun n => n.IsOrdered)).map (fun n => n.id) = [ib.id])) := by
  rw [← newOr_eq]
  unfold isSimpleExtend
  generalize newOr newOrders = ids
  have hold : oldOrders.length ≤ 0 ↔ oldOrders = [] := by
    cases oldOrders <;> simp
  have hone : (ids.length = 1 ∧ ids.head? = some ib.id) ↔ ids = [ib.id] := by
    match ids with
    | [] => simp
    | [a] => simp
    | a :: b :: rest => simp
  simp only [Bool.and_eq_true, Bool.or_eq_true, decide_eq_true_eq, hold, hone,
    List.length_eq_zero]

theorem connectDagChain_reorganize (E : Env) (s : ChainState) (ib : IBlock)
    (block : SerializedBlock) (newOrders oldOrders : List IBlock)
    (connectedBlocks : List (SerializedBlock × Bool))
    (h : isSimpleExtend ib newOrders oldOrders = false) :
    connectDagChain E s ib block newOrders oldOrders connectedBlocks =
      (((decide ((reorganizeChain E (s.call (Call.reorganizeChain ib.id)) ib oldOrders
            newOrders block connectedBlocks).1.1 = none),
          (reorganizeChain E (s.call (Call.reorganizeChain ib.id)) ib oldOrders newOrders
            block connectedBlocks).1.1), ib,
          (reorganizeChain E (s.call (Call.reorganizeChain ib.id)) ib oldOrders newOrders
            block connectedBlocks).1.2),
        (reorganizeChain E (s.call (Call.reorganizeChain ib.id)) ib oldOrders newOrders
          block connectedBlocks).2) := by
  unfold connectDagChain
  simp only [h, Bool.false_eq_true, ↓reduceIte]
  rcases hr : reorganizeChain E (s.call (Call.reorganizeChain ib.id)) ib oldOrders newOrders
    block connectedBlocks with ⟨⟨err, connected⟩, s1⟩
  cases err <;> simp

theorem not_extends_after_call {P Q : Call → Prop} (s s2 : ChainState) (c : Call)
    (hc : ¬ P c) (h : Extends Q (s.call c) s2) : ¬ Extends P s s2 := by
  rintro ⟨extra, h1, h2⟩
  obtain ⟨e2, h3, -⟩ := h
  have : extra = c :: e2 := by
    have h4 : s.calls ++ extra = s.calls ++ c :: e2 := by
      rw [← h1, h3]
      simp [ChainState.call]
    exact List.append_cancel_left h4
  subst this
  exact hc (h2 c (by simp))

/-- C5. `connectDagChain` takes the simple-extend path, making no call to
`reorganizeChain`, exactly when `oldOrders` is empty and the ordered nodes of
`newOrders` are none or the admitted node alone; in every other case it calls
`reorganizeChain` and returns that call's error (with `false`, or `true` when
there is none), connected-blocks list and calls. -/
theorem connectDagChain_simple_extend_iff (E : Env) (s : ChainState) (ib : IBlock)
    (block : SerializedBlock) (newOrders oldOrders : List IBlock)
    (connectedBlocks : List (SerializedBlock × Bool)) :
    (Extends (fun c => c.isReorganize = false) s
        (connectDagChain E s ib block newOrders oldOrders connectedBlocks).2 ↔
      (oldOrders = [] ∧
        ((newOrders.filter (fun n => n.IsOrdered)).map (fun n => n.id) = [] ∨
          (newOrders.filter (fun n => n.IsOrdered)).map (fun n => n.id) = [ib.id]))) ∧
    (¬ (oldOrders = [] ∧
        ((newOrders.filter (fun n => n.IsOrdered)).map (fun n => n.id) = [] ∨
          (newOrders.filter (fun n => n.IsOrdered)).map (fun n => n.id) = [ib.id])) →
      connectDagChain E s ib block newOrders oldOrders connectedBlocks =
        (((decide ((reorganizeChain E (s.call (Call.reorganizeChain ib.id)) ib oldOrders
              newOrders block connectedBlocks).1.1 = none),
            (reorganizeChain E (s.call (Call.reorganizeChain ib.id)) ib oldOrders newOrders
              block connectedBlocks).1.1), ib,
            (reorganizeChain E (s.call (Call.reorganizeChain ib.id)) ib oldOrders newOrders
              block connectedBlocks).1.2),
          (reorganizeChain E (s.call (Call.reorganizeChain ib.id)) ib oldOrders newOrders
            block connectedBlocks).2)) := by
  rw [← isSimpleExtend_iff]
  constructor
  · constructor
    · intro hext
      by_contra hne
      have hf : isSimpleExtend ib newOrders oldOrders = false := by simpa using hne
      rw [connectDagChain_reorganize E s ib block newOrders oldOrders connectedBlocks hf] at hext
      exact not_extends_after_call s _ (Call.reorganizeChain ib.id)
        (by simp [Call.isReorganize])
        (reorganizeChain_steady E _ ib oldOrders newOrders block connectedBlocks) hext
    · intro hs
      exact Extends.mono (fun c hc => hc.2)
        (connectDagChain_simple_extends E s ib block newOrders oldOrders connectedBlocks hs).1
  · intro hne
    have hf : isSimpleExtend ib newOrders oldOrders = false := by simpa using hne
    exact connectDagChain_reorganize E s ib block newOrders oldOrders connectedBlocks hf


/-- Witness of C5: the sample node alone is a simple extend; two ordered nodes
are handed to `reorganizeChain`. -/
theorem connectDagChain_simple_extend_iff_witness :
    Extends (fun c => c.isReorganize = false) sampleState
        (connectDagChain sampleEnv sampleState sampleNode sampleBlock [sampleNode] [] []).2 ∧
      connectDagChain sampleEnv sampleState sampleNode sampleBlock [otherNode, sampleNode] [] [] =
        (((decide ((reorganizeChain sampleEnv (sampleState.call (Call.reorganizeChain 5))
              sampleNode [] [otherNode, sampleNode] sampleBlock []).1.1 = none),
            (reorganizeChain sampleEnv (sampleState.call (Call.reorganizeChain 5)) sampleNode []
              [otherNode, sampleNode] sampleBlock []).1.1), sampleNode,
            (reorganizeChain sampleEnv (sampleState.call (Call.reorganizeChain 5)) sampleNode []
              [otherNode, sampleNode] sampleBlock []).1.2),
          (reorganizeChain sampleEnv (sampleState.call (Call.reorganizeChain 5)) sampleNode []
            [otherNode, sampleNode] sampleBlock []).2) :=
  ⟨(connectDagChain_simple_extend_iff sampleEnv sampleState sampleNode sampleBlock [sampleNode]
      [] []).1.mpr ⟨rfl, Or.inr rfl⟩,
    (connectDagChain_simple_extend_iff sampleEnv sampleState sampleNode sampleBlock
      [otherNode, sampleNode] [] []).2 (by decide)⟩


/-! ### Acceptance (C9, C10) -/

theorem storeBlock_extends (E : Env) (s : ChainState) (block : SerializedBlock) :
    Extends (fun c => c.isNotification = false) s (storeBlock E s block).2 := by
  unfold storeBlock
  repeat' split
  all_goals
    repeat (first
      | exact Extends.refl _ _
      | refine Extends.step ?_ rfl)

theorem Extends.setSnapshot {P : Call → Prop} {s1 s2 : ChainState} (state : BestState)
    (h : Extends P s1 s2) : Extends P s1 { s2 with stateSnapshot := state } := h

theorem foldl_UpdateWeight_extends (attachNodes : List IBlock) :
    ∀ s0 s : ChainState, Extends (fun c => c.isNotification = false) s0 s →
      Extends (fun c => c.isNotification = false) s0
        (attachNodes.foldl (fun s e => s.call (Call.UpdateWeight e.id)) s) := by
  induction attachNodes with
  | nil => intro s0 s h; exact h
  | cons n rest ih =>
    intro s0 s h
    exact ih s0 _ (h.step rfl)

theorem updateBestState_extends (E : Env) (s : ChainState) (ib : IBlock)
    (block : SerializedBlock) (attachNodes : List IBlock) :
    Extends (fun c => c.isNotification = false) s
      (updateBestState E s ib block attachNodes).2 := by
  unfold updateBestState
  simp only []
  repeat' split
  all_goals
    repeat (first
      | exact Extends.refl _ _
      | refine foldl_UpdateWeight_extends _ _ _ ?_
      | refine Extends.step ?_ rfl)

theorem connectDagChain_extends (E : Env) (s : ChainState) (ib : IBlock)
    (block : SerializedBlock) (newOrders oldOrders : List IBlock)
    (connectedBlocks : List (SerializedBlock × Bool)) :
    Extends (fun c => c.announces = false) s
      (connectDagChain E s ib block newOrders oldOrders connectedBlocks).2 := by
  cases h : isSimpleExtend ib newOrders oldOrders with
  | true =>
    exact Extends.mono (fun c hc => Call.announces_of_isNotification c hc.1)
      (connectDagChain_simple_extends E s ib block newOrders oldOrders connectedBlocks h).1
  | false =>
    rw [connectDagChain_reorganize E s ib block newOrders oldOrders connectedBlocks h]
    have hstart : Extends (fun c => c.announces = false) s
        (s.call (Call.reorganizeChain ib.id)) := (Extends.refl _ s).step rfl
    have hrest : Extends (fun c => c.announces = false) (s.call (Call.reorganizeChain ib.id))
        (reorganizeChain E (s.call (Call.reorganizeChain ib.id)) ib oldOrders newOrders block
          connectedBlocks).2 :=
      Extends.mono (fun c (hc : Call.steady c) => hc.1)
        (reorganizeChain_steady E _ ib oldOrders newOrders block connectedBlocks)
    exact hstart.trans hrest


theorem contextPasses_eq (E : Env) (block : SerializedBlock) (flags : BehaviorFlags)
    (h : contextPasses E block flags) :
    (if flags.BFFastAdd = false then
        match E.GetMainParentByHashs block.Parents with
        | none => some (Error.Plain "Can't find main parent\n")
        | some mainParent => E.checkBlockContext block mainParent flags
      else none) = none := by
  rcases h with h | ⟨mainParent, h1, h2⟩
  · simp [h]
  · cases flags.BFFastAdd <;> simp [h1, h2]

/-- C9, as stated, fails: when the oracle returns no node handle
`maybeAcceptBlock` does not panic. -/
theorem maybeAcceptBlock_empty_handle_counterexample :
    ¬ ∀ (E : Env) (s : ChainState) (block : SerializedBlock) (flags : BehaviorFlags),
        contextPasses E block flags → (E.AddBlock block).2.2.1 = none →
          ∃ m, (maybeAcceptBlock E s block flags).1 = Ret.panicked m := by
  intro h
  obtain ⟨m, hm⟩ := h emptyHandleEnv sampleState sampleBlock noFlags
    (Or.inr ⟨_, rfl, rfl⟩) rfl
  have h2 : (maybeAcceptBlock emptyHandleEnv sampleState sampleBlock noFlags).1 =
      Ret.returned (some (Error.Plain "Irreparable error!")) := rfl
  rw [h2] at hm
  cases hm

/-- C9, amended. When the oracle's `AddBlock` returns an empty node handle,
`maybeAcceptBlock` releases the chain lock and returns the ordinary error
"Irreparable error!" to its caller; it does not panic, and it makes no call to
the block store, the shutdown gate, the connector or the best-state manager
and sends no notification. -/
theorem maybeAcceptBlock_empty_handle (E : Env) (s : ChainState) (block : SerializedBlock)
    (flags : BehaviorFlags) (hctx : contextPasses E block flags)
    (hadd : (E.AddBlock block).2.2.1 = none) :
    maybeAcceptBlock E s block flags =
      (Ret.returned (some (Error.Plain "Irreparable error!")),
        { s with calls := s.calls ++
            [Call.ChainLock, Call.pruneChainIfNeeded, Call.AddBlock block.hash,
              Call.ChainUnlock, Call.flushNotifications] }) := by
  rcases ha : E.AddBlock block with ⟨newOrders, oldOrders, ib, tip⟩
  rw [ha] at hadd
  simp only at hadd
  subst hadd
  simp only [maybeAcceptBlock, contextPasses_eq E block flags hctx, ha]
  simp [ChainState.call]

/-- Witness of C9 amended: the sample block with an oracle that returns no
handle. -/
theorem maybeAcceptBlock_empty_handle_witness :
    maybeAcceptBlock emptyHandleEnv sampleState sampleBlock noFlags =
      (Ret.returned (some (Error.Plain "Irreparable error!")),
        { sampleState with calls := sampleState.calls ++
            [Call.ChainLock, Call.pruneChainIfNeeded, Call.AddBlock sampleBlock.hash,
              Call.ChainUnlock, Call.flushNotifications] }) :=
  maybeAcceptBlock_empty_handle emptyHandleEnv sampleState sampleBlock noFlags
    (Or.inr ⟨_, rfl, rfl⟩) rfl

/-- C10. Once the oracle has returned a node handle, an error from the block
store transaction, from the shutdown gate (`Wait` or `Done`), from
`connectDagChain` or from `updateBestState` makes `maybeAcceptBlock` panic: no
value is returned, and the calls it made contain no `BlockConnected` and no
`BlockAccepted` notification. -/
theorem maybeAcceptBlock_fatal (E : Env) (s : ChainState) (block : SerializedBlock)
    (flags : BehaviorFlags) (newOrders oldOrders : List IBlock) (ib : IBlock)
    (isMainChainTipChange : Bool)
    (hctx : contextPasses E block flags)
    (hadd : E.AddBlock block = (newOrders, oldOrders, some ib, isMainChainTipChange))
    (hfail :
      (storeBlock E (afterOracle s block) (placedBlock block ib)).1.isSome = true ∨
      (E.shutdownWait ib.hash).isSome = true ∨
      (connectDagChain E
        ((storeBlock E (afterOracle s block) (placedBlock block ib)).2.call
          (Call.shutdownWait ib.hash))
        ib (placedBlock block ib) newOrders oldOrders []).1.1.2.isSome = true ∨
      (updateBestState E
        (connectDagChain E
          ((storeBlock E (afterOracle s block) (placedBlock block ib)).2.call
            (Call.shutdownWait ib.hash))
          ib (placedBlock block ib) newOrders oldOrders []).2
        (connectDagChain E
          ((storeBlock E (afterOracle s block) (placedBlock block ib)).2.call
            (Call.shutdownWait ib.hash))
          ib (placedBlock block ib) newOrders oldOrders []).1.2.1
        (placedBlock block ib) newOrders).1.isSome = true ∨
      E.shutdownDone.isSome = true) :
    (∃ m, (maybeAcceptBlock E s block flags).1 = Ret.panicked m) ∧
      Extends (fun c => c.announces = false) s (maybeAcceptBlock E s block flags).2 := by
  have hnote : ∀ c : Call, c.isNotification = false → c.announces = false :=
    Call.announces_of_isNotification
  have h0 : Extends (fun c => c.isNotification = false) s (afterOracle s block) := by
    unfold afterOracle
    refine Extends.step (Extends.step (Extends.step (Extends.refl _ _) ?_) ?_) ?_ <;> rfl
  have h1 := Extends.mono hnote
    (h0.trans (storeBlock_extends E (afterOracle s block) (placedBlock block ib)))
  have h2 := (h1.step (c := Call.shutdownWait ib.hash) rfl).trans
    (connectDagChain_extends E _ ib (placedBlock block ib) newOrders oldOrders [])
  have h3 := h2.trans (Extends.mono hnote (updateBestState_extends E _
    (connectDagChain E
          ((storeBlock E (afterOracle s block) (placedBlock block ib)).2.call
            (Call.shutdownWait ib.hash))
          ib (placedBlock block ib) newOrders oldOrders []).1.2.1 (placedBlock block ib)
    newOrders))
  simp only [afterOracle] at hfail h1 h2 h3
  simp only [maybeAcceptBlock, contextPasses_eq E block flags hctx, hadd]
  rcases hst : storeBlock E (((s.call Call.ChainLock).call Call.pruneChainIfNeeded).call
    (Call.AddBlock block.hash)) (placedBlock block ib) with ⟨e1, s1⟩
  rw [hst] at hfail h1 h2 h3
  simp only at hfail h1 h2 h3
  cases e1 with
  | some err =>
    exact ⟨⟨_, rfl⟩, Extends.step h1 rfl⟩
  | none =>
    simp only []
    cases hw : E.shutdownWait ib.hash with
    | some err => exact ⟨⟨_, rfl⟩, Extends.step (Extends.step h1 rfl) rfl⟩
    | none =>
      simp only []
      rcases hcd : connectDagChain E (s1.call (Call.shutdownWait ib.hash)) ib
        (placedBlock block ib) newOrders oldOrders [] with ⟨⟨⟨ok, e2⟩, ib1, connected⟩, s2⟩
      rw [hcd] at hfail h2 h3
      simp only at hfail h2 h3
      cases e2 with
      | some err => exact ⟨⟨_, rfl⟩, Extends.step h2 rfl⟩
      | none =>
        simp only []
        rcases hub : updateBestState E s2 ib1 (placedBlock block ib) newOrders with ⟨e3, s3⟩
        rw [hub] at hfail h3
        simp only at hfail h3
        cases e3 with
        | some err => exact ⟨⟨_, rfl⟩, Extends.step h3 rfl⟩
        | none =>
          simp only []
          cases hd : E.shutdownDone with
          | some err => exact ⟨⟨_, rfl⟩, Extends.step (Extends.step h3 rfl) rfl⟩
          | none =>
            rw [hw, hd] at hfail
            simp at hfail


/-- Witness of C10: the sample block when the best-state write fails. -/
theorem maybeAcceptBlock_fatal_witness :
    (∃ m, (maybeAcceptBlock failingStoreEnv sampleState sampleBlock noFlags).1 =
        Ret.panicked m) ∧
      Extends (fun c => c.announces = false) sampleState
        (maybeAcceptBlock failingStoreEnv sampleState sampleBlock noFlags).2 :=
  maybeAcceptBlock_fatal failingStoreEnv sampleState sampleBlock noFlags [sampleNode] []
    sampleNode true (Or.inr ⟨_, rfl, rfl⟩) rfl (Or.inr (Or.inr (Or.inr (Or.inl rfl))))


/-! ### connectTransaction (C6, C8) -/

@[simp] theorem UtxoViewpoint.entries_AddEntry (v : UtxoViewpoint) (p q : TxOutPoint)
    (e : UtxoEntry) :
    (v.AddEntry p e).entries q = if q = p then some e else v.entries q := rfl

@[simp] theorem UtxoViewpoint.viewpoints_AddEntry (v : UtxoViewpoint) (p : TxOutPoint)
    (e : UtxoEntry) : (v.AddEntry p e).viewpoints = v.viewpoints := rfl

@[simp] theorem UtxoEntry.Spend_Spend (e : UtxoEntry) : e.Spend.Spend = e.Spend := rfl

theorem journalFor_congr (D : Deps) (tx : Tx) (v1 v2 : UtxoViewpoint)
    (h : ∀ q, (v1.entries q).map UtxoEntry.Spend = (v2.entries q).map UtxoEntry.Spend)
    (inputs : List (Nat × TxInput)) : journalFor D tx v1 inputs = journalFor D tx v2 inputs := by
  unfold journalFor
  congr 1
  funext p
  have hq := h p.2.PreviousOut
  cases h1 : v1.entries p.2.PreviousOut <;> cases h2 : v2.entries p.2.PreviousOut <;>
    simp_all

/-- What the input loop of `connectTransaction` does: it fails exactly when a
spent input has no entry, and otherwise marks the referenced entries spent and
appends their journal entries. -/
theorem connectInputs_spec (D : Deps) (tx : Tx) :
    ∀ (ins : List TxInput) (k : Nat) (stxos : Option (List SpentTxOut)) (v : UtxoViewpoint),
      ((connectInputs D tx ins k stxos v).1 = none ∨
        (connectInputs D tx ins k stxos v).1 = some (Error.AssertError "view missing input")) ∧
      ((connectInputs D tx ins k stxos v).1 = none ↔
        ∀ p ∈ spentInputsFrom D tx ins k, v.entries p.2.PreviousOut ≠ none) ∧
      ((connectInputs D tx ins k stxos v).1 = none →
        (∀ q, (connectInputs D tx ins k stxos v).2.2.entries q =
          if q ∈ (spentInputsFrom D tx ins k).map (fun p => p.2.PreviousOut)
          then (v.entries q).map UtxoEntry.Spend else v.entries q) ∧
        (connectInputs D tx ins k stxos v).2.1 =
          stxos.map (fun js => js ++ journalFor D tx v (spentInputsFrom D tx ins k))) ∧
      (connectInputs D tx ins k stxos v).2.2.viewpoints = v.viewpoints := by
  intro ins
  induction ins with
  | nil =>
    intro k stxos v
    simp [connectInputs, spentInputsFrom, journalFor]
  | cons txIn rest ih =>
    intro k stxos v
    by_cases hskip : k = 0 ∧ D.IsTokenMintTx tx.Tx = true
    · have hc : connectInputs D tx (txIn :: rest) k stxos v =
          connectInputs D tx rest (k + 1) stxos v := by
        simp only [connectInputs, if_pos hskip]
      have hs : spentInputsFrom D tx (txIn :: rest) k = spentInputsFrom D tx rest (k + 1) := by
        simp only [spentInputsFrom, if_pos hskip]
      rw [hc, hs]
      exact ih (k + 1) stxos v
    · have hs : spentInputsFrom D tx (txIn :: rest) k =
          (k, txIn) :: spentInputsFrom D tx rest (k + 1) := by
        simp only [spentInputsFrom, if_neg hskip]
      cases he : v.entries txIn.PreviousOut with
      | none =>
        have hc : connectInputs D tx (txIn :: rest) k stxos v =
            (some (Error.AssertError "view missing input"), stxos, v) := by
          simp only [connectInputs, if_neg hskip, UtxoViewpoint.GetEntry, he]
        rw [hc, hs]
        refine ⟨Or.inr rfl, ?_, ?_, rfl⟩
        · constructor
          · intro h; cases h
          · intro h
            exact absurd he (h (k, txIn) (List.mem_cons_self _ _))
        · intro h; cases h
      | some e =>
        have hc : connectInputs D tx (txIn :: rest) k stxos v =
            connectInputs D tx rest (k + 1)
              (stxos.map (fun js => js ++ [newSpentTxOut D tx k txIn e.Spend]))
              (v.AddEntry txIn.PreviousOut e.Spend) := by
          cases stxos <;> simp only [connectInputs, if_neg hskip, UtxoViewpoint.GetEntry, he] <;>
            rfl
        rw [hc, hs]
        obtain ⟨h1, h2, h3, h4⟩ := ih (k + 1)
          (stxos.map (fun js => js ++ [newSpentTxOut D tx k txIn e.Spend]))
          (v.AddEntry txIn.PreviousOut e.Spend)
        have hpres : ∀ q, (v.AddEntry txIn.PreviousOut e.Spend).entries q ≠ none ↔
            v.entries q ≠ none := by
          intro q
          by_cases hq : q = txIn.PreviousOut
          · subst hq; simp [he]
          · simp [hq]
        have hmap : ∀ q, ((v.AddEntry txIn.PreviousOut e.Spend).entries q).map UtxoEntry.Spend =
            (v.entries q).map UtxoEntry.Spend := by
          intro q
          by_cases hq : q = txIn.PreviousOut
          · subst hq; simp [he]
          · simp [hq]
        refine ⟨h1, ?_, ?_, ?_⟩
        · rw [h2]
          constructor
          · intro h p hp
            rcases List.mem_cons.mp hp with hp | hp
            · subst hp; simp [he]
            · exact (hpres _).mp (h p hp)
          · intro h p hp
            exact (hpres _).mpr (h p (List.mem_cons_of_mem _ hp))
        · intro hnone
          obtain ⟨h5, h6⟩ := h3 hnone
          constructor
          · intro q
            rw [h5 q]
            by_cases hq : q = txIn.PreviousOut
            · subst hq
              simp [he]
            · by_cases hmem : q ∈ (spentInputsFrom D tx rest (k + 1)).map
                  (fun p => p.2.PreviousOut)
              · have hmem' : q ∈ ((k, txIn) :: spentInputsFrom D tx rest (k + 1)).map
                    (fun p => p.2.PreviousOut) := by
                  rw [List.map_cons]; exact List.mem_cons_of_mem _ hmem
                rw [if_pos hmem, if_pos hmem']
                simp [hq]
              · have hmem' : ¬ q ∈ ((k, txIn) :: spentInputsFrom D tx rest (k + 1)).map
                    (fun p => p.2.PreviousOut) := by
                  rw [List.map_cons]
                  intro h
                  rcases List.mem_cons.mp h with h | h
                  · exact hq h
                  · exact hmem h
                rw [if_neg hmem, if_neg hmem']
                simp [hq]
          · rw [h6, journalFor_congr D tx _ v hmap]
            cases stxos with
            | none => rfl
            | some js => simp [journalFor, he]
        · rw [h4]; rfl


theorem mem_outpointsFrom (txHash : Nat) (q : TxOutPoint) :
    ∀ (outs : List TxOutput) (idx : Nat),
      q ∈ outpointsFrom txHash outs idx ↔
        q.Hash = txHash ∧ ∃ j, j < outs.length ∧ q.OutIndex = uint32 (idx + j) := by
  intro outs
  induction outs with
  | nil => intro idx; simp [outpointsFrom]
  | cons o rest ih =>
    intro idx
    simp only [outpointsFrom, List.mem_cons, ih, List.length_cons]
    constructor
    · rintro (h | ⟨h1, j, hj, h2⟩)
      · subst h
        exact ⟨rfl, 0, by omega, rfl⟩
      · exact ⟨h1, j + 1, by omega, by rw [h2]; congr 1; omega⟩
    · rintro ⟨h1, j, hj, h2⟩
      cases j with
      | zero =>
        left
        cases q
        simp_all
      | succ j =>
        right
        exact ⟨h1, j, by omega, by rw [h2]; congr 1; omega⟩

theorem addTxOutsFrom_viewpoints (isCoinBase : Bool) (txHash blockHash : Nat) :
    ∀ (outs : List TxOutput) (idx : Nat) (v : UtxoViewpoint),
      (addTxOutsFrom isCoinBase txHash blockHash outs idx v).viewpoints = v.viewpoints := by
  intro outs
  induction outs with
  | nil => intro idx v; rfl
  | cons o rest ih => intro idx v; simp [addTxOutsFrom, ih]

theorem addTxOutsFrom_not_mem (isCoinBase : Bool) (txHash blockHash : Nat) (q : TxOutPoint) :
    ∀ (outs : List TxOutput) (idx : Nat) (v : UtxoViewpoint),
      q ∉ outpointsFrom txHash outs idx →
        (addTxOutsFrom isCoinBase txHash blockHash outs idx v).entries q = v.entries q := by
  intro outs
  induction outs with
  | nil => intro idx v _; rfl
  | cons o rest ih =>
    intro idx v hq
    simp only [outpointsFrom, List.mem_cons, not_or] at hq
    simp only [addTxOutsFrom]
    rw [ih (idx + 1) _ hq.2]
    simp [hq.1]

theorem addTxOutsFrom_mem (isCoinBase : Bool) (txHash blockHash : Nat) (q : TxOutPoint) :
    ∀ (outs : List TxOutput) (idx : Nat) (v : UtxoViewpoint),
      q ∈ outpointsFrom txHash outs idx →
        ∃ txOut ∈ outs, (addTxOutsFrom isCoinBase txHash blockHash outs idx v).entries q =
          some (NewUtxoEntry txOut.Amount txOut.PkScript blockHash isCoinBase) := by
  intro outs
  induction outs with
  | nil => intro idx v hq; simp [outpointsFrom] at hq
  | cons o rest ih =>
    intro idx v hq
    simp only [addTxOutsFrom]
    by_cases hrest : q ∈ outpointsFrom txHash rest (idx + 1)
    · obtain ⟨txOut, hin, h⟩ := ih (idx + 1) (v.AddEntry { Hash := txHash, OutIndex := uint32 idx }
        (NewUtxoEntry o.Amount o.PkScript blockHash isCoinBase)) hrest
      exact ⟨txOut, List.mem_cons_of_mem _ hin, h⟩
    · rw [addTxOutsFrom_not_mem isCoinBase txHash blockHash q rest (idx + 1) _ hrest]
      simp only [outpointsFrom, List.mem_cons] at hq
      rcases hq with hq | hq
      · exact ⟨o, List.mem_cons_self _ _, by simp [hq]⟩
      · exact absurd hq hrest

theorem addTxOutsFrom_get (isCoinBase : Bool) (txHash blockHash : Nat) :
    ∀ (outs : List TxOutput) (idx : Nat) (v : UtxoViewpoint) (j : Nat) (hj : j < outs.length),
      idx + outs.length ≤ 4294967296 →
        (addTxOutsFrom isCoinBase txHash blockHash outs idx v).entries
            { Hash := txHash, OutIndex := idx + j } =
          some (NewUtxoEntry (outs.get ⟨j, hj⟩).Amount (outs.get ⟨j, hj⟩).PkScript blockHash
            isCoinBase) := by
  intro outs
  induction outs with
  | nil => intro idx v j hj; simp at hj
  | cons o rest ih =>
    intro idx v j hj hlen
    simp only [List.length_cons] at hj hlen
    simp only [addTxOutsFrom]
    cases j with
    | zero =>
      have hnot : ({ Hash := txHash, OutIndex := idx + 0 } : TxOutPoint) ∉
          outpointsFrom txHash rest (idx + 1) := by
        rw [mem_outpointsFrom]
        rintro ⟨_, j, hj', h⟩
        simp only [uint32] at h
        rw [Nat.mod_eq_of_lt (by omega)] at h
        omega
      rw [addTxOutsFrom_not_mem isCoinBase txHash blockHash _ rest (idx + 1) _ hnot]
      simp [uint32, Nat.mod_eq_of_lt (show idx < 4294967296 by omega)]
    | succ j =>
      have := ih (idx + 1) (v.AddEntry { Hash := txHash, OutIndex := uint32 idx }
        (NewUtxoEntry o.Amount o.PkScript blockHash isCoinBase)) j (by omega) (by omega)
      rw [show idx + (j + 1) = idx + 1 + j by omega]
      simpa using this


/-- C6. For a transaction that is not a coinbase, `connectTransaction` returns
an assertion error exactly when some spent input (every input but input 0 of a
token-mint transaction) references an outpoint without an entry in the view.
When every spent input has an entry it returns no error, each referenced entry
is the old entry marked spent (unless the outpoint is one of the transaction's
own outputs, which the new entry replaces), and every output of the
transaction has its new entry in the view. -/
theorem connectTransaction_inputs (D : Deps) (tx : Tx) (nodeHash blockIndex : Nat)
    (stxos : Option (List SpentTxOut)) (view : UtxoViewpoint)
    (hcb : D.IsCoinBase tx.Tx = false) :
    ((∃ msg, (connectTransaction D tx nodeHash blockIndex stxos view).1 =
          some (Error.AssertError msg)) ↔
        ∃ p ∈ spentInputs D tx, view.entries p.2.PreviousOut = none) ∧
    ((connectTransaction D tx nodeHash blockIndex stxos view).1 ≠ none ↔
        ∃ p ∈ spentInputs D tx, view.entries p.2.PreviousOut = none) ∧
    ((∀ p ∈ spentInputs D tx, view.entries p.2.PreviousOut ≠ none) →
      (connectTransaction D tx nodeHash blockIndex stxos view).1 = none ∧
      (∀ p ∈ spentInputs D tx, p.2.PreviousOut ∉ createdOutpoints tx →
        ∃ e, view.entries p.2.PreviousOut = some e ∧
          (connectTransaction D tx nodeHash blockIndex stxos view).2.2.entries p.2.PreviousOut =
            some e.Spend) ∧
      (∀ (j : Nat) (hj : j < tx.Tx.TxOut.length), tx.Tx.TxOut.length ≤ 4294967296 →
        (connectTransaction D tx nodeHash blockIndex stxos view).2.2.entries
            { Hash := tx.hash, OutIndex := j } =
          some (NewUtxoEntry (tx.Tx.TxOut.get ⟨j, hj⟩).Amount (tx.Tx.TxOut.get ⟨j, hj⟩).PkScript
            nodeHash false))) := by
  obtain ⟨h1, h2, h3, h4⟩ := connectInputs_spec D tx tx.Tx.TxIn 0 stxos view
  have hall : (∀ p ∈ spentInputs D tx, view.entries p.2.PreviousOut ≠ none) ↔
      ¬ ∃ p ∈ spentInputs D tx, view.entries p.2.PreviousOut = none := by
    constructor
    · rintro h ⟨p, hp, hn⟩; exact h p hp hn
    · intro h p hp hn; exact h ⟨p, hp, hn⟩
  rcases hr : connectInputs D tx tx.Tx.TxIn 0 stxos view with ⟨err, stxos1, view1⟩
  rw [hr] at h1 h2 h3 h4
  simp only at h1 h2 h3 h4
  have hct : connectTransaction D tx nodeHash blockIndex stxos view =
      match err with
      | some e => (some e, stxos1, view1)
      | none => (none, stxos1, AddTxOuts D view1 tx nodeHash) := by
    simp only [connectTransaction, hcb, hr]
    cases err <;> simp
  cases err with
  | some e =>
    rw [hct]
    have hne : ¬ ∀ p ∈ spentInputs D tx, view.entries p.2.PreviousOut ≠ none := by
      intro h; have := h2.mpr h; cases this
    have hex : ∃ p ∈ spentInputs D tx, view.entries p.2.PreviousOut = none := by
      by_contra hc; exact hne (hall.mpr hc)
    rcases h1 with h1 | h1
    · cases h1
    · refine ⟨⟨fun _ => hex, fun _ => ⟨_, h1⟩⟩, ⟨fun _ => hex, fun _ => by simp⟩, ?_⟩
      intro h; exact absurd h hne
  | none =>
    rw [hct]
    have hok := h2.mp rfl
    obtain ⟨h5, h6⟩ := h3 rfl
    refine ⟨⟨?_, ?_⟩, ⟨?_, ?_⟩, ?_⟩
    · rintro ⟨msg, hm⟩; cases hm
    · intro hex; exact absurd hok (hall.not_left.mpr (by simpa using hex))
    · intro h; exact absurd rfl h
    · intro hex; exact absurd hok (hall.not_left.mpr (by simpa using hex))
    · intro _
      refine ⟨rfl, ?_, ?_⟩
      · intro p hp hnot
        cases he : view.entries p.2.PreviousOut with
        | none => exact absurd he (hok p hp)
        | some e =>
          refine ⟨e, rfl, ?_⟩
          simp only [AddTxOuts]
          rw [addTxOutsFrom_not_mem _ _ _ _ _ _ _ hnot, h5]
          have hmem : p.2.PreviousOut ∈
              (spentInputsFrom D tx tx.Tx.TxIn 0).map (fun p => p.2.PreviousOut) :=
            List.mem_map.mpr ⟨p, hp, rfl⟩
          rw [if_pos hmem, he]; rfl
      · intro j hj hlen
        simp only [AddTxOuts, hcb]
        have := addTxOutsFrom_get false tx.hash nodeHash tx.Tx.TxOut 0 view1 j hj (by omega)
        simpa using this


/-- Witness of C6: the sample spend connects on the sample view. -/
theorem connectTransaction_inputs_witness :
    sampleDeps.IsCoinBase sampleSpend.Tx = false ∧
      (∀ p ∈ spentInputs sampleDeps sampleSpend, sampleView.entries p.2.PreviousOut ≠ none) ∧
      (connectTransaction sampleDeps sampleSpend 78 1 (some []) sampleView).1 = none :=
  ⟨rfl, by decide,
    ((connectTransaction_inputs sampleDeps sampleSpend 78 1 (some []) sampleView rfl).2.2
      (by decide)).1⟩

theorem journalFor_forall₂ (D : Deps) (tx : Tx) (v : UtxoViewpoint) :
    ∀ inputs : List (Nat × TxInput),
      (∀ p ∈ inputs, v.entries p.2.PreviousOut ≠ none) →
        List.Forall₂
          (fun p stxo => ∃ e, v.entries p.2.PreviousOut = some e ∧
            stxo = newSpentTxOut D tx p.1 p.2 e.Spend)
          inputs (journalFor D tx v inputs) := by
  intro inputs
  induction inputs with
  | nil => intro _; simp [journalFor]
  | cons p rest ih =>
    intro h
    cases he : v.entries p.2.PreviousOut with
    | none => exact absurd he (h p (List.mem_cons_self _ _))
    | some e =>
      have hrest := ih (fun q hq => h q (List.mem_cons_of_mem _ hq))
      have : journalFor D tx v (p :: rest) =
          newSpentTxOut D tx p.1 p.2 e.Spend :: journalFor D tx v rest := by
        simp [journalFor, he]
      rw [this]
      exact List.Forall₂.cons ⟨e, he, rfl⟩ hrest

theorem newSpentTxOut_Fees (D : Deps) (tx : Tx) (txInIndex : Nat) (txIn : TxInput)
    (entry : UtxoEntry) :
    (newSpentTxOut D tx txInIndex txIn entry).Fees =
      { Value := recordedFee D txIn entry, Id := entry.amount.Id } := by
  unfold newSpentTxOut recordedFee
  by_cases h1 : entry.coinBase = true <;> by_cases h2 : entry.blockHash = D.GenesisHash <;>
    by_cases h3 : txIn.PreviousOut.OutIndex = D.CoinbaseOutput_subsidy <;>
    by_cases h4 : entry.amount.Id = D.MEERA <;> simp [h1, h2, h3, h4]

/-- The journal that a successful `connectTransaction` leaves for a
transaction that is not a coinbase: the old journal followed by one entry per
spent input, in input order. -/
theorem connectTransaction_journal (D : Deps) (tx : Tx) (nodeHash blockIndex : Nat)
    (js : List SpentTxOut) (view : UtxoViewpoint)
    (hcb : D.IsCoinBase tx.Tx = false)
    (hok : (connectTransaction D tx nodeHash blockIndex (some js) view).1 = none) :
    (∀ p ∈ spentInputs D tx, view.entries p.2.PreviousOut ≠ none) ∧
      (connectTransaction D tx nodeHash blockIndex (some js) view).2.1 =
        some (js ++ journalFor D tx view (spentInputs D tx)) := by
  obtain ⟨h1, h2, h3, h4⟩ := connectInputs_spec D tx tx.Tx.TxIn 0 (some js) view
  rcases hr : connectInputs D tx tx.Tx.TxIn 0 (some js) view with ⟨err, stxos1, view1⟩
  rw [hr] at h1 h2 h3 h4
  simp only at h1 h2 h3 h4
  simp only [connectTransaction, hcb, hr] at hok ⊢
  cases err with
  | some e => simp at hok
  | none =>
    obtain ⟨h5, h6⟩ := h3 rfl
    refine ⟨h2.mp rfl, ?_⟩
    simp only [Bool.false_eq_true, ↓reduceIte]
    rw [h6]; rfl

/-- C7. When the number of journal entries differs from `countSpentOutputs` of
the block, `disconnectTransactions` returns an assertion error and the view it
was given: no entry is spent, added or restored and the viewpoints are not
reset. -/
theorem disconnectTransactions_bad_count (D : Deps) (block : SerializedBlock)
    (stxos : List SpentTxOut) (view : UtxoViewpoint)
    (h : (stxos.length : Int) ≠ D.countSpentOutputs block) :
    disconnectTransactions D block stxos view =
      Ret.returned
        (some (Error.AssertError
          "disconnectTransactions called with bad spent transaction out information"), view) := by
  simp [disconnectTransactions, h]

/-- Witness of C7: the sample block, which spends nothing, with a journal of
one entry. -/
theorem disconnectTransactions_bad_count_witness :
    disconnectTransactions sampleDeps sampleBlock
        [newSpentTxOut sampleDeps sampleSpend 0 { PreviousOut := { Hash := 50, OutIndex := 0 } }
          UtxoEntry.zero] sampleView =
      Ret.returned
        (some (Error.AssertError
          "disconnectTransactions called with bad spent transaction out information"),
          sampleView) :=
  disconnectTransactions_bad_count sampleDeps sampleBlock _ sampleView (by decide)

/-- C8, as stated, fails: spending the subsidy output of the coinbase of a
block other than the genesis block records the fee of that block, where the
specification's wording gives 0. -/
theorem connectTransaction_fee_counterexample :
    ¬ ∀ (D : Deps) (tx : Tx) (nodeHash blockIndex : Nat) (js : List SpentTxOut)
        (view : UtxoViewpoint),
        D.IsCoinBase tx.Tx = false →
        (connectTransaction D tx nodeHash blockIndex (some js) view).1 = none →
        ∃ added,
          (connectTransaction D tx nodeHash blockIndex (some js) view).2.1 = some (js ++ added) ∧
          List.Forall₂
            (fun p stxo => ∃ e, view.entries p.2.PreviousOut = some e ∧
              stxo.Fees.Value = specifiedFee D p.2 e)
            (spentInputs D tx) added := by
  intro h
  obtain ⟨added, h1, h2⟩ := h sampleDeps sampleSpend 78 1 [] sampleView rfl rfl
  have h3 : (connectTransaction sampleDeps sampleSpend 78 1 (some []) sampleView).2.1 =
      some [{ Amount := { Value := 100, Id := 0 }, PkScript := [9], BlockHash := 9,
              IsCoinBase := true, TxIndex := 1, TxInIndex := 0,
              Fees := { Value := 7, Id := 0 } }] := by
    decide
  rw [h3] at h1
  simp only [List.nil_append, Option.some.injEq] at h1
  subst h1
  have h4 : spentInputs sampleDeps sampleSpend =
      [(0, { PreviousOut := { Hash := 50, OutIndex := 0 } })] := by decide
  rw [h4] at h2
  simp only [List.forall₂_cons, List.Forall₂.nil, and_true] at h2
  obtain ⟨e, he, hfee⟩ := h2
  have he' : sampleView.entries { Hash := 50, OutIndex := 0 } =
      some { amount := { Value := 100, Id := 0 }, pkScript := [9], blockHash := 9,
             coinBase := true, spent := false, modified := false } := by decide
  rw [he'] at he
  cases he
  revert hfee
  decide

/-- C8, amended. When `connectTransaction` journals the spends of a
transaction that is not a coinbase, each spent input gets one journal entry,
in input order, whose fee is in the coin of the spent amount and whose fee
value is the fee of the origin block (`GetFeeByCoinID`) exactly when the spent
entry is a coinbase output of a block other than the genesis block and is
either the subsidy output or in a coin other than MEER; in every other case
the recorded fee value is 0. -/
theorem connectTransaction_fee (D : Deps) (tx : Tx) (nodeHash blockIndex : Nat)
    (js : List SpentTxOut) (view : UtxoViewpoint)
    (hcb : D.IsCoinBase tx.Tx = false)
    (hok : (connectTransaction D tx nodeHash blockIndex (some js) view).1 = none) :
    ∃ added,
      (connectTransaction D tx nodeHash blockIndex (some js) view).2.1 = some (js ++ added) ∧
      List.Forall₂
        (fun p stxo => ∃ e, view.entries p.2.PreviousOut = some e ∧
          stxo.TxInIndex = uint32 p.1 ∧
          stxo.Fees = { Value := recordedFee D p.2 e, Id := e.amount.Id })
        (spentInputs D tx) added := by
  obtain ⟨hall, hj⟩ := connectTransaction_journal D tx nodeHash blockIndex js view hcb hok
  refine ⟨journalFor D tx view (spentInputs D tx), hj, ?_⟩
  refine List.Forall₂.imp ?_ (journalFor_forall₂ D tx view (spentInputs D tx) hall)
  rintro p stxo ⟨e, he, hs⟩
  refine ⟨e, he, ?_, ?_⟩
  · subst hs
    unfold newSpentTxOut
    simp only []
    repeat' split
    all_goals rfl
  · subst hs
    rw [newSpentTxOut_Fees]
    rfl

/-- Witness of C8 amended: the sample spend of a coinbase subsidy output. -/
theorem connectTransaction_fee_witness :
    ∃ added,
      (connectTransaction sampleDeps sampleSpend 78 1 (some []) sampleView).2.1 =
        some ([] ++ added) ∧
      List.Forall₂
        (fun p stxo => ∃ e, sampleView.entries p.2.PreviousOut = some e ∧
          stxo.TxInIndex = uint32 p.1 ∧
          stxo.Fees = { Value := recordedFee sampleDeps p.2 e, Id := e.amount.Id })
        (spentInputs sampleDeps sampleSpend) added :=
  connectTransaction_fee sampleDeps sampleSpend 78 1 [] sampleView rfl rfl


/-! ### Connect then disconnect (C1) -/

@[simp] theorem UtxoViewpoint.GetEntry_eq (v : UtxoViewpoint) (q : TxOutPoint) :
    v.GetEntry q = v.entries q := rfl

theorem UtxoViewpoint.entries_AddEntry_self (v : UtxoViewpoint) (p : TxOutPoint)
    (e : UtxoEntry) : (v.AddEntry p e).entries p = some e := by simp

theorem restoreEntry_newSpentTxOut (D : Deps) (tx : Tx) (i : Nat) (txIn : TxInput)
    (old : Option UtxoEntry) (e : UtxoEntry) :
    UtxoEntry.RestoredFrom e (restoreEntry old (newSpentTxOut D tx i txIn e.Spend)) := by
  unfold restoreEntry newSpentTxOut UtxoEntry.RestoredFrom
  cases old <;> cases hcb : e.coinBase <;> simp only [] <;> (repeat' split) <;>
    simp_all [UtxoEntry.Spend, UtxoEntry.SetAmount, UtxoEntry.SetPkScript,
      UtxoEntry.SetBlockHash, UtxoEntry.Modified, UtxoEntry.CoinBase, UtxoEntry.zero]

theorem newSpentTxOut_IsCoinBase (D : Deps) (tx : Tx) (i : Nat) (txIn : TxInput)
    (e : UtxoEntry) : (newSpentTxOut D tx i txIn e).IsCoinBase = e.coinBase := by
  unfold newSpentTxOut
  simp only []
  split_ifs <;> rfl

theorem restoreEntry_coinBase (old : Option UtxoEntry) (stxo : SpentTxOut)
    (h : (restoreEntry old stxo).coinBase = true) :
    (∃ o, old = some o ∧ o.coinBase = true) ∨ stxo.IsCoinBase = true := by
  cases hs : stxo.IsCoinBase with
  | true => exact Or.inr rfl
  | false =>
    left
    cases old with
    | none =>
      simp [restoreEntry, hs, UtxoEntry.zero, UtxoEntry.SetAmount, UtxoEntry.SetPkScript,
        UtxoEntry.SetBlockHash, UtxoEntry.Modified] at h
    | some o =>
      refine ⟨o, rfl, ?_⟩
      simpa [restoreEntry, hs, UtxoEntry.SetAmount, UtxoEntry.SetPkScript,
        UtxoEntry.SetBlockHash, UtxoEntry.Modified] using h

theorem disconnectOutputs_coinBase_bound (D : Deps) (blockHash : Nat) (isCoinBase : Bool)
    (txHash : Nat) (q : TxOutPoint) (b : Bool) :
    ∀ (outs : List TxOutput) (idx : Nat) (w : UtxoViewpoint),
      (isCoinBase = true → q ∉ spendableOutpointsFrom D txHash outs idx) →
      (∀ e, w.entries q = some e → e.coinBase = true → b = true) →
      ∀ e, (disconnectOutputs D blockHash isCoinBase txHash outs idx w).entries q = some e →
        e.coinBase = true → b = true := by
  intro outs
  induction outs with
  | nil => intro idx w _ hw; exact hw
  | cons o rest ih =>
    intro idx w hq hw
    by_cases hu : D.IsUnspendable o.PkScript = true
    · simp only [spendableOutpointsFrom, if_pos hu] at hq
      simp only [disconnectOutputs, if_pos hu]
      exact ih (idx + 1) w hq hw
    · simp only [spendableOutpointsFrom, if_neg hu, List.mem_cons, not_or] at hq
      simp only [disconnectOutputs, if_neg hu]
      refine ih (idx + 1) _ (fun hc => (hq hc).2) ?_
      intro e he hc
      by_cases hqp : q = { Hash := txHash, OutIndex := uint32 idx }
      · subst hqp
        rw [UtxoViewpoint.entries_AddEntry_self] at he
        simp only [Option.some.injEq] at he
        subst he
        cases hold : w.entries { Hash := txHash, OutIndex := uint32 idx } with
        | some e' =>
          simp only [UtxoViewpoint.GetEntry, hold] at hc
          exact hw e' hold hc
        | none =>
          simp only [UtxoViewpoint.GetEntry, hold] at hc
          have hcb : isCoinBase = true := hc
          exact absurd rfl (hq hcb).1
      · rw [UtxoViewpoint.entries_AddEntry, if_neg hqp] at he
        exact hw e he hc

theorem disconnectOutputs_viewpoints (D : Deps) (blockHash : Nat) (isCoinBase : Bool)
    (txHash : Nat) :
    ∀ (outs : List TxOutput) (idx : Nat) (w : UtxoViewpoint),
      (disconnectOutputs D blockHash isCoinBase txHash outs idx w).viewpoints = w.viewpoints := by
  intro outs
  induction outs with
  | nil => intro idx w; rfl
  | cons o rest ih =>
    intro idx w
    by_cases hu : D.IsUnspendable o.PkScript = true
    · simp only [disconnectOutputs, if_pos hu, ih]
    · simp only [disconnectOutputs, if_neg hu, ih]
      rfl

theorem disconnectOutputs_not_mem (D : Deps) (blockHash : Nat) (isCoinBase : Bool)
    (txHash : Nat) (q : TxOutPoint) :
    ∀ (outs : List TxOutput) (idx : Nat) (w : UtxoViewpoint),
      q ∉ spendableOutpointsFrom D txHash outs idx →
        (disconnectOutputs D blockHash isCoinBase txHash outs idx w).entries q = w.entries q := by
  intro outs
  induction outs with
  | nil => intro idx w _; rfl
  | cons o rest ih =>
    intro idx w hq
    by_cases hu : D.IsUnspendable o.PkScript = true
    · simp only [spendableOutpointsFrom, if_pos hu] at hq
      simp only [disconnectOutputs, if_pos hu]
      exact ih (idx + 1) w hq
    · simp only [spendableOutpointsFrom, if_neg hu, List.mem_cons, not_or] at hq
      simp only [disconnectOutputs, if_neg hu]
      rw [ih (idx + 1) _ hq.2]
      simp [hq.1]

theorem disconnectOutputs_spent_preserved (D : Deps) (blockHash : Nat) (isCoinBase : Bool)
    (txHash : Nat) (q : TxOutPoint) :
    ∀ (outs : List TxOutput) (idx : Nat) (w : UtxoViewpoint),
      (∃ e, w.entries q = some e ∧ e.spent = true) →
        ∃ e, (disconnectOutputs D blockHash isCoinBase txHash outs idx w).entries q = some e ∧
          e.spent = true := by
  intro outs
  induction outs with
  | nil => intro idx w h; exact h
  | cons o rest ih =>
    intro idx w h
    by_cases hu : D.IsUnspendable o.PkScript = true
    · simp only [disconnectOutputs, if_pos hu]
      exact ih (idx + 1) w h
    · simp only [disconnectOutputs, if_neg hu]
      apply ih
      by_cases hq : q = { Hash := txHash, OutIndex := uint32 idx }
      · subst hq
        exact ⟨_, UtxoViewpoint.entries_AddEntry_self _ _ _, rfl⟩
      · obtain ⟨e, he, hs⟩ := h
        exact ⟨e, by simp [hq, he], hs⟩

theorem disconnectOutputs_mem (D : Deps) (blockHash : Nat) (isCoinBase : Bool)
    (txHash : Nat) (q : TxOutPoint) :
    ∀ (outs : List TxOutput) (idx : Nat) (w : UtxoViewpoint),
      q ∈ spendableOutpointsFrom D txHash outs idx →
        ∃ e, (disconnectOutputs D blockHash isCoinBase txHash outs idx w).entries q = some e ∧
          e.spent = true := by
  intro outs
  induction outs with
  | nil => intro idx w hq; simp [spendableOutpointsFrom] at hq
  | cons o rest ih =>
    intro idx w hq
    by_cases hu : D.IsUnspendable o.PkScript = true
    · simp only [spendableOutpointsFrom, if_pos hu] at hq
      simp only [disconnectOutputs, if_pos hu]
      exact ih (idx + 1) w hq
    · simp only [spendableOutpointsFrom, if_neg hu, List.mem_cons] at hq
      simp only [disconnectOutputs, if_neg hu]
      rcases hq with hq | hq
      · apply disconnectOutputs_spent_preserved
        subst hq
        exact ⟨_, UtxoViewpoint.entries_AddEntry_self _ _ _, rfl⟩
      · exact ih (idx + 1) _ hq


theorem journalFor_length (D : Deps) (tx : Tx) (v : UtxoViewpoint) :
    ∀ inputs : List (Nat × TxInput),
      (∀ p ∈ inputs, v.entries p.2.PreviousOut ≠ none) →
        (journalFor D tx v inputs).length = inputs.length := by
  intro inputs h
  exact (journalFor_forall₂ D tx v inputs h).length_eq.symm

theorem journalFor_append (D : Deps) (tx : Tx) (v : UtxoViewpoint)
    (l1 l2 : List (Nat × TxInput)) :
    journalFor D tx v (l1 ++ l2) = journalFor D tx v l1 ++ journalFor D tx v l2 := by
  simp [journalFor]

theorem spendsJournal_eq_false (D : Deps) (tx : Tx) (p : Nat × TxInput) :
    spendsJournal D tx p = false ↔ (D.IsTokenMintTx tx.Tx = true ∧ p.1 = 0) := by
  unfold spendsJournal
  cases D.IsTokenMintTx tx.Tx <;> by_cases h : p.1 = 0 <;> simp [h]

/-- What the input loop of `disconnectTransactions` does when the journal
holds, just below the position it starts from, the entries that
`connectTransaction` wrote for these inputs on the view `v`: every referenced
outpoint gets the fields of its entry in `v`, and the others keep what they
held. -/
theorem disconnectInputs_restore (D : Deps) (tx : Tx) (v : UtxoViewpoint)
    (J : List SpentTxOut) :
    ∀ (l : List (Nat × TxInput)) (X : List SpentTxOut) (w : UtxoViewpoint),
      (∀ p ∈ l, spendsJournal D tx p = true → v.entries p.2.PreviousOut ≠ none) →
      ∃ w',
        disconnectInputs D tx
            (J ++ journalFor D tx v (l.filter (spendsJournal D tx)).reverse ++ X) l
            ((J.length : Int) + ((l.filter (spendsJournal D tx)).length : Int) - 1) w =
          some ((J.length : Int) - 1, w') ∧
        w'.viewpoints = w.viewpoints ∧
        (∀ q, q ∈ (l.filter (spendsJournal D tx)).map (fun p => p.2.PreviousOut) →
          ∃ e0 e, v.entries q = some e0 ∧ w'.entries q = some e ∧
            UtxoEntry.RestoredFrom e0 e) ∧
        (∀ q, q ∉ (l.filter (spendsJournal D tx)).map (fun p => p.2.PreviousOut) →
          w'.entries q = w.entries q) ∧
        (∀ (q : TxOutPoint) (b : Bool),
          (∀ e, v.entries q = some e → e.coinBase = true → b = true) →
          (∀ e, w.entries q = some e → e.coinBase = true → b = true) →
          ∀ e, w'.entries q = some e → e.coinBase = true → b = true) := by
  intro l
  induction l with
  | nil =>
    intro X w _
    refine ⟨w, ?_, rfl, ?_, ?_, ?_⟩
    · simp [disconnectInputs]
    · intro q hq; simp at hq
    · intro q _; rfl
    · intro q b _ hw; exact hw
  | cons p rest ih =>
    intro X w hpres
    have hrest : ∀ p' ∈ rest, spendsJournal D tx p' = true →
        v.entries p'.2.PreviousOut ≠ none :=
      fun p' hp' => hpres p' (List.mem_cons_of_mem _ hp')
    cases hsp : spendsJournal D tx p with
    | false =>
      have hskip := (spendsJournal_eq_false D tx p).mp hsp
      have hf : (p :: rest).filter (spendsJournal D tx) = rest.filter (spendsJournal D tx) := by
        simp [List.filter_cons, hsp]
      rw [hf]
      obtain ⟨w', h1, h2, h3, h4, h5⟩ := ih X w hrest
      refine ⟨w', ?_, h2, h3, h4, h5⟩
      rw [← h1]
      obtain ⟨i, txIn⟩ := p
      simp only [disconnectInputs]
      rw [if_pos hskip]
    | true =>
      have hnskip : ¬ (D.IsTokenMintTx tx.Tx = true ∧ p.1 = 0) := by
        intro h
        have := (spendsJournal_eq_false D tx p).mpr h
        rw [hsp] at this
        cases this
      have hf : (p :: rest).filter (spendsJournal D tx) =
          p :: rest.filter (spendsJournal D tx) := by
        simp [List.filter_cons, hsp]
      rw [hf]
      cases he : v.entries p.2.PreviousOut with
      | none => exact absurd he (hpres p (List.mem_cons_self _ _) hsp)
      | some e =>
        have hfpres : ∀ p' ∈ (rest.filter (spendsJournal D tx)).reverse,
            v.entries p'.2.PreviousOut ≠ none := by
          intro p' hp'
          have hp'' := List.mem_filter.mp (List.mem_reverse.mp hp')
          exact hrest p' hp''.1 hp''.2
        have hlen := journalFor_length D tx v _ hfpres
        rw [List.length_reverse] at hlen
        have hj : journalFor D tx v (p :: rest.filter (spendsJournal D tx)).reverse =
            journalFor D tx v (rest.filter (spendsJournal D tx)).reverse ++
              [newSpentTxOut D tx p.1 p.2 e.Spend] := by
          rw [List.reverse_cons, journalFor_append]
          simp [journalFor, he]
        rw [hj]
        obtain ⟨w', h1, h2, h3, h4, h5⟩ := ih ([newSpentTxOut D tx p.1 p.2 e.Spend] ++ X)
          (w.AddEntry p.2.PreviousOut
            (restoreEntry (w.entries p.2.PreviousOut) (newSpentTxOut D tx p.1 p.2 e.Spend)))
          hrest
        refine ⟨w', ?_, ?_, ?_, ?_, ?_⟩
        · rw [← h1]
          obtain ⟨i, txIn⟩ := p
          simp only [disconnectInputs]
          rw [if_neg hnskip]
          have hidx : ((J.length : Int) +
              ((((i, txIn) :: rest.filter (spendsJournal D tx)).length : Nat) : Int) - 1) =
              ((J.length + (rest.filter (spendsJournal D tx)).length : Nat) : Int) := by
            simp only [List.length_cons]; push_cast; ring
          rw [hidx]
          have hnneg : ¬ (((J.length + (rest.filter (spendsJournal D tx)).length : Nat) : Int)
              < 0) := by omega
          rw [if_neg hnneg, Int.toNat_ofNat]
          have hget : (J ++ (journalFor D tx v (rest.filter (spendsJournal D tx)).reverse ++
              [newSpentTxOut D tx i txIn e.Spend]) ++ X)[J.length + (rest.filter (spendsJournal D tx)).length]? =
              some (newSpentTxOut D tx i txIn e.Spend) := by
            rw [List.append_assoc, List.getElem?_append_right (by omega)]
            rw [List.append_assoc, List.getElem?_append_right (by omega)]
            simp [hlen]
          rw [List.get?_eq_getElem?, hget]
          simp only [UtxoViewpoint.GetEntry_eq]
          congr 1
          all_goals simp [List.append_assoc]
        · rw [h2]; rfl
        · intro q hq
          by_cases hmem : q ∈ (rest.filter (spendsJournal D tx)).map
              (fun p => p.2.PreviousOut)
          · exact h3 q hmem
          · have hqp : q = p.2.PreviousOut := by
              rw [List.map_cons] at hq
              rcases List.mem_cons.mp hq with h | h
              · exact h
              · exact absurd h hmem
            subst hqp
            refine ⟨e, _, he, ?_, restoreEntry_newSpentTxOut D tx p.1 p.2
              (w.entries p.2.PreviousOut) e⟩
            rw [h4 _ hmem]
            exact UtxoViewpoint.entries_AddEntry_self _ _ _
        · intro q hq
          rw [List.map_cons] at hq
          have hq1 : q ≠ p.2.PreviousOut := fun h => hq (h ▸ List.mem_cons_self _ _)
          have hq2 : q ∉ (rest.filter (spendsJournal D tx)).map (fun p => p.2.PreviousOut) :=
            fun h => hq (List.mem_cons_of_mem _ h)
          rw [h4 q hq2]
          simp [hq1]
        · intro q b hv hw
          refine h5 q b hv ?_
          intro e1 he1 hc
          by_cases hqp : q = p.2.PreviousOut
          · subst hqp
            rw [UtxoViewpoint.entries_AddEntry_self] at he1
            simp only [Option.some.injEq] at he1
            subst he1
            rcases restoreEntry_coinBase _ _ hc with ⟨o, ho, hoc⟩ | hst
            · exact hw o ho hoc
            · rw [newSpentTxOut_IsCoinBase] at hst
              exact hv e he hst
          · rw [UtxoViewpoint.entries_AddEntry, if_neg hqp] at he1
            exact hw e1 he1 hc


theorem spentInputsFrom_eq (D : Deps) (tx : Tx) :
    ∀ (ins : List TxInput) (k : Nat),
      spentInputsFrom D tx ins k = (ins.enumFrom k).filter (spendsJournal D tx) := by
  intro ins
  induction ins with
  | nil => intro k; rfl
  | cons txIn rest ih =>
    intro k
    by_cases hskip : k = 0 ∧ D.IsTokenMintTx tx.Tx = true
    · have hsp : spendsJournal D tx (k, txIn) = false :=
        (spendsJournal_eq_false D tx (k, txIn)).mpr ⟨hskip.2, hskip.1⟩
      simp only [spentInputsFrom, if_pos hskip, List.enumFrom_cons, List.filter_cons, hsp, ih]
      simp
    · have hsp : spendsJournal D tx (k, txIn) = true := by
        cases h : spendsJournal D tx (k, txIn) with
        | true => rfl
        | false =>
          have := (spendsJournal_eq_false D tx (k, txIn)).mp h
          exact absurd ⟨this.2, this.1⟩ hskip
      simp only [spentInputsFrom, if_neg hskip, List.enumFrom_cons, List.filter_cons, hsp, ih]
      simp

theorem disconnectTxs_append (D : Deps) (blockHash : Nat) (stxos : List SpentTxOut)
    (l2 : List (Nat × Tx)) :
    ∀ (l1 : List (Nat × Tx)) (idx : Int) (w : UtxoViewpoint),
      disconnectTxs D blockHash stxos (l1 ++ l2) idx w =
        match disconnectTxs D blockHash stxos l1 idx w with
        | none => none
        | some r => disconnectTxs D blockHash stxos l2 r.1 r.2 := by
  intro l1
  induction l1 with
  | nil => intro idx w; simp [disconnectTxs]
  | cons p rest ih =>
    intro idx w
    obtain ⟨txIdx, tx⟩ := p
    simp only [List.cons_append, disconnectTxs]
    by_cases h1 : tx.IsDuplicate = true
    · simp only [if_pos h1]; exact ih idx w
    · simp only [if_neg h1]
      by_cases h2 : D.IsTokenTx tx.Tx = true ∧ D.IsTokenMintTx tx.Tx = false
      · simp only [if_pos h2]; exact ih idx w
      · simp only [if_neg h2]
        by_cases h3 : D.IsTokenTx tx.Tx = false ∧ D.IsCrossChainVMTx tx.Tx = true
        · simp only [if_pos h3]; exact ih idx w
        · simp only [if_neg h3]
          by_cases h4 : decide (txIdx = 0) = true
          · simp only [if_pos h4]; exact ih _ _
          · simp only [if_neg h4]
            by_cases h5 : D.IsCrossChainImportTx tx.Tx = true
            · simp only [if_pos h5]; exact ih _ _
            · simp only [if_neg h5]
              cases disconnectInputs D tx stxos tx.Tx.TxIn.enum.reverse idx
                  (disconnectOutputs D blockHash (decide (txIdx = 0)) tx.hash tx.Tx.TxOut 0 w) with
              | none => rfl
              | some r => exact ih _ _

theorem ordinary_iff (D : Deps) (tx : Tx) :
    ordinary D tx = true ↔
      tx.IsDuplicate = false ∧ ¬ (D.IsTokenTx tx.Tx = true ∧ D.IsTokenMintTx tx.Tx = false) ∧
        ¬ (D.IsTokenTx tx.Tx = false ∧ D.IsCrossChainVMTx tx.Tx = true) ∧
        D.IsCrossChainImportTx tx.Tx = false := by
  unfold ordinary
  cases tx.IsDuplicate <;> cases D.IsTokenTx tx.Tx <;> cases D.IsTokenMintTx tx.Tx <;>
    cases D.IsCrossChainVMTx tx.Tx <;> cases D.IsCrossChainImportTx tx.Tx <;> simp

theorem disconnectTxs_single (D : Deps) (blockHash : Nat) (stxos : List SpentTxOut)
    (txIdx : Nat) (tx : Tx) (idx : Int) (w : UtxoViewpoint) (hord : ordinary D tx = true) :
    disconnectTxs D blockHash stxos [(txIdx, tx)] idx w =
      if txIdx = 0 then
        some (idx, disconnectOutputs D blockHash true tx.hash tx.Tx.TxOut 0 w)
      else
        disconnectInputs D tx stxos tx.Tx.TxIn.enum.reverse idx
          (disconnectOutputs D blockHash false tx.hash tx.Tx.TxOut 0 w) := by
  obtain ⟨h1, h2, h3, h4⟩ := (ordinary_iff D tx).mp hord
  simp only [disconnectTxs, h1, Bool.false_eq_true, if_false, if_neg h2, if_neg h3, h4]
  by_cases hk : txIdx = 0
  · simp [hk]
  · simp only [hk, decide_False, Bool.false_eq_true, if_false]
    cases disconnectInputs D tx stxos tx.Tx.TxIn.enum.reverse idx
        (disconnectOutputs D blockHash false tx.hash tx.Tx.TxOut 0 w) with
    | none => rfl
    | some r => rfl


theorem touch_spends_iff (D : Deps) (tx : Tx) (q : TxOutPoint) :
    touch D tx q = Touch.spends ↔
      (D.IsCoinBase tx.Tx = false ∧ q ∈ (spentInputs D tx).map (fun p => p.2.PreviousOut)) := by
  unfold touch
  constructor
  · intro h
    by_contra hc
    rw [if_neg hc] at h
    repeat' split at h
    all_goals cases h
  · intro h
    rw [if_pos h]

theorem touch_creates_iff (D : Deps) (tx : Tx) (q : TxOutPoint) :
    touch D tx q = Touch.creates ↔
      (¬ (D.IsCoinBase tx.Tx = false ∧ q ∈ (spentInputs D tx).map (fun p => p.2.PreviousOut)) ∧
        q ∈ spendableOutpoints D tx) := by
  unfold touch
  constructor
  · intro h
    by_cases hc : D.IsCoinBase tx.Tx = false ∧
        q ∈ (spentInputs D tx).map (fun p => p.2.PreviousOut)
    · rw [if_pos hc] at h; cases h
    · rw [if_neg hc] at h
      refine ⟨hc, ?_⟩
      by_contra hs
      rw [if_neg hs] at h
      split at h <;> cases h
  · rintro ⟨h1, h2⟩
    rw [if_neg h1, if_pos h2]

theorem touch_untouched (D : Deps) (tx : Tx) (q : TxOutPoint)
    (h : touch D tx q = Touch.untouched) :
    ¬ (D.IsCoinBase tx.Tx = false ∧ q ∈ (spentInputs D tx).map (fun p => p.2.PreviousOut)) ∧
      q ∉ spendableOutpoints D tx ∧ q ∉ createdOutpoints tx := by
  unfold touch at h
  by_cases hc : D.IsCoinBase tx.Tx = false ∧
      q ∈ (spentInputs D tx).map (fun p => p.2.PreviousOut)
  · rw [if_pos hc] at h; cases h
  · rw [if_neg hc] at h
    by_cases hs : q ∈ spendableOutpoints D tx
    · rw [if_pos hs] at h; cases h
    · rw [if_neg hs] at h
      by_cases hcr : q ∈ createdOutpoints tx
      · rw [if_pos hcr] at h; cases h
      · exact ⟨hc, hs, hcr⟩

/-- One successful `connectTransaction` with a journal: what it appends and
which entries it leaves alone. -/
theorem connectTransaction_step (D : Deps) (tx : Tx) (nodeHash blockIndex : Nat)
    (J : List SpentTxOut) (v : UtxoViewpoint) (js1 : Option (List SpentTxOut))
    (v1 : UtxoViewpoint)
    (h : connectTransaction D tx nodeHash blockIndex (some J) v = (none, js1, v1)) :
    (D.IsCoinBase tx.Tx = true → js1 = some J) ∧
    (D.IsCoinBase tx.Tx = false →
      (∀ p ∈ spentInputs D tx, v.entries p.2.PreviousOut ≠ none) ∧
        js1 = some (J ++ journalFor D tx v (spentInputs D tx))) ∧
    (∀ q, touch D tx q = Touch.untouched → v1.entries q = v.entries q) := by
  cases hcb : D.IsCoinBase tx.Tx with
  | true =>
    simp only [connectTransaction, hcb, if_true] at h
    simp only [Prod.mk.injEq] at h
    obtain ⟨-, h2, h3⟩ := h
    refine ⟨fun _ => h2.symm, (fun hc => by cases hc), ?_⟩
    intro q hq
    obtain ⟨-, -, hcr⟩ := touch_untouched D tx q hq
    rw [← h3]
    exact addTxOutsFrom_not_mem _ _ _ _ _ _ _ hcr
  | false =>
    have hok : (connectTransaction D tx nodeHash blockIndex (some J) v).1 = none := by rw [h]
    obtain ⟨hall, hj⟩ := connectTransaction_journal D tx nodeHash blockIndex J v hcb hok
    rw [h] at hj
    refine ⟨(fun hc => by cases hc), fun _ => ⟨hall, hj⟩, ?_⟩
    intro q hq
    obtain ⟨hsp, -, hcr⟩ := touch_untouched D tx q hq
    obtain ⟨h1, h2, h3, h4⟩ := connectInputs_spec D tx tx.Tx.TxIn 0 (some J) v
    rcases hr : connectInputs D tx tx.Tx.TxIn 0 (some J) v with ⟨err, stxos1, view1⟩
    rw [hr] at h1 h2 h3 h4
    simp only [connectTransaction, hcb, hr] at h
    cases err with
    | some e => simp at h
    | none =>
      simp only [Bool.false_eq_true, if_false, Prod.mk.injEq, true_and] at h
      obtain ⟨-, h6⟩ := h
      obtain ⟨h5, -⟩ := h3 rfl
      rw [← h6]
      simp only [AddTxOuts]
      rw [addTxOutsFrom_not_mem _ _ _ _ _ _ _ hcr, h5 q]
      have hnm : ¬ q ∈ (spentInputsFrom D tx tx.Tx.TxIn 0).map (fun p => p.2.PreviousOut) :=
        fun hm => hsp ⟨hcb, hm⟩
      rw [if_neg hnm]


theorem connectTransaction_coinBase_bound (D : Deps) (tx : Tx) (nodeHash blockIndex : Nat)
    (J : List SpentTxOut) (v : UtxoViewpoint) (js1 : Option (List SpentTxOut))
    (v1 : UtxoViewpoint)
    (h : connectTransaction D tx nodeHash blockIndex (some J) v = (none, js1, v1))
    (q : TxOutPoint) (b : Bool)
    (hq : D.IsCoinBase tx.Tx = true → q ∉ createdOutpoints tx)
    (hv : ∀ e, v.entries q = some e → e.coinBase = true → b = true) :
    ∀ e, v1.entries q = some e → e.coinBase = true → b = true := by
  intro e he hc
  cases hcb : D.IsCoinBase tx.Tx with
  | true =>
    simp only [connectTransaction, hcb, if_true] at h
    simp only [Prod.mk.injEq] at h
    obtain ⟨-, -, h3⟩ := h
    rw [← h3] at he
    simp only [AddTxOuts] at he
    rw [addTxOutsFrom_not_mem _ _ _ _ _ _ _ (hq hcb)] at he
    exact hv e he hc
  | false =>
    obtain ⟨h1, h2, h3, h4⟩ := connectInputs_spec D tx tx.Tx.TxIn 0 (some J) v
    rcases hr : connectInputs D tx tx.Tx.TxIn 0 (some J) v with ⟨err, stxos1, view1⟩
    rw [hr] at h1 h2 h3 h4
    simp only [connectTransaction, hcb, hr] at h
    cases err with
    | some e' => simp at h
    | none =>
      simp only [Bool.false_eq_true, if_false, Prod.mk.injEq, true_and] at h
      obtain ⟨-, h6⟩ := h
      obtain ⟨h5, -⟩ := h3 rfl
      rw [← h6] at he
      simp only [AddTxOuts, hcb] at he
      by_cases hcr : q ∈ createdOutpoints tx
      · obtain ⟨txOut, -, hent⟩ :=
          addTxOutsFrom_mem false tx.hash nodeHash q tx.Tx.TxOut 0 view1 hcr
        rw [hent] at he
        simp only [Option.some.injEq] at he
        subst he
        simp [NewUtxoEntry] at hc
      · rw [addTxOutsFrom_not_mem _ _ _ _ _ _ _ hcr, h5 q] at he
        by_cases hm : q ∈ (spentInputsFrom D tx tx.Tx.TxIn 0).map (fun p => p.2.PreviousOut)
        · rw [if_pos hm] at he
          cases hvq : v.entries q with
          | none => simp [hvq] at he
          | some e0 =>
            simp only [hvq, Option.map_some', Option.some.injEq] at he
            subst he
            exact hv e0 hvq hc
        · rw [if_neg hm] at he
          exact hv e he hc

theorem wellFormedFrom_cons (D : Deps) (tx : Tx) (rest : List Tx) (k : Nat)
    (h : wellFormedFrom D (tx :: rest) k = true) :
    ordinary D tx = true ∧ (D.IsCoinBase tx.Tx = true ↔ k = 0) ∧
      wellFormedFrom D rest (k + 1) = true := by
  simp only [wellFormedFrom, Bool.and_eq_true, beq_iff_eq] at h
  obtain ⟨⟨h1, h2⟩, h3⟩ := h
  refine ⟨h1, ?_, h3⟩
  rw [h2]
  simp

/-- Connecting transactions in order and then walking them backwards with
`disconnectTransactions`' loop: the loop consumes exactly the journal entries
that the connect appended, and leaves every outpoint according to the first
transaction that touched it. -/
theorem roundtrip_aux (D : Deps) (nodeHash blockHash : Nat) :
    ∀ (txs : List Tx) (k : Nat) (J : List SpentTxOut) (v : UtxoViewpoint)
      (J' : List SpentTxOut) (v' : UtxoViewpoint),
      wellFormedFrom D txs k = true →
      connectAll D nodeHash txs k J v = (none, J', v') →
      (∃ Jr, J' = J ++ Jr) ∧
      (∀ q, firstTouch D txs q = Touch.untouched → v'.entries q = v.entries q) ∧
      (∀ (q : TxOutPoint) (b : Bool), (k = 0 → firstTouch D txs q = Touch.spends) →
        (∀ e, v.entries q = some e → e.coinBase = true → b = true) →
        ∀ e, v'.entries q = some e → e.coinBase = true → b = true) ∧
      ∀ (X : List SpentTxOut) (w : UtxoViewpoint),
        ∃ w',
          disconnectTxs D blockHash (J' ++ X) (txs.enumFrom k).reverse
              ((J'.length : Int) - 1) w = some ((J.length : Int) - 1, w') ∧
          w'.viewpoints = w.viewpoints ∧
          (∀ (q : TxOutPoint) (b : Bool), (k = 0 → firstTouch D txs q = Touch.spends) →
            (∀ e, v.entries q = some e → e.coinBase = true → b = true) →
            (∀ e, w.entries q = some e → e.coinBase = true → b = true) →
            ∀ e, w'.entries q = some e → e.coinBase = true → b = true) ∧
          ∀ q,
            (firstTouch D txs q = Touch.spends →
              ∃ e0 e, v.entries q = some e0 ∧ w'.entries q = some e ∧
                UtxoEntry.RestoredFrom e0 e) ∧
            (firstTouch D txs q = Touch.creates →
              ∃ e, w'.entries q = some e ∧ e.spent = true) ∧
            (firstTouch D txs q = Touch.untouched → w'.entries q = w.entries q) := by
  intro txs
  induction txs with
  | nil =>
    intro k J v J' v' _ hc
    simp only [connectAll, Prod.mk.injEq, true_and] at hc
    obtain ⟨hJ, hv⟩ := hc
    subst hJ hv
    refine ⟨⟨[], by simp⟩, fun q _ => rfl, fun q b _ hv => hv, ?_⟩
    intro X w
    refine ⟨w, by simp [disconnectTxs], rfl, fun q b _ _ hw => hw, ?_⟩
    intro q
    simp [firstTouch]
  | cons t rest ih =>
    intro k J v J' v' hwf hc
    obtain ⟨hord, hcbk, hwfr⟩ := wellFormedFrom_cons D t rest k hwf
    rcases hct : connectTransaction D t nodeHash k (some J) v with ⟨err, js1, v1⟩
    simp only [connectAll, hct] at hc
    cases err with
    | some e => simp at hc
    | none =>
      simp only at hc
      obtain ⟨hA, hB, hC⟩ := connectTransaction_step D t nodeHash k J v js1 v1 hct
      obtain ⟨⟨Jr, hJr⟩, ihU, ihB, ihD⟩ := ih (k + 1) (js1.getD J) v1 J' v' hwfr hc
      have hstep : ∀ (q : TxOutPoint) (b : Bool),
          (k = 0 → firstTouch D (t :: rest) q = Touch.spends) →
          (∀ e, v.entries q = some e → e.coinBase = true → b = true) →
          (D.IsCoinBase t.Tx = true →
            q ∉ createdOutpoints t ∧ q ∉ spendableOutpoints D t) ∧
          ∀ e, v1.entries q = some e → e.coinBase = true → b = true := by
        intro q b hfirst hv
        have hun : D.IsCoinBase t.Tx = true →
            q ∉ createdOutpoints t ∧ q ∉ spendableOutpoints D t := by
          intro hcb
          have hf := hfirst (hcbk.mp hcb)
          have ht : touch D t q = Touch.untouched := by
            cases htq : touch D t q with
            | untouched => rfl
            | spends =>
              have := ((touch_spends_iff D t q).mp htq).1
              rw [hcb] at this
              cases this
            | creates => simp only [firstTouch, htq] at hf; cases hf
            | shadows => simp only [firstTouch, htq] at hf; cases hf
          obtain ⟨-, hns, hnc⟩ := touch_untouched D t q ht
          exact ⟨hnc, hns⟩
        exact ⟨hun, connectTransaction_coinBase_bound D t nodeHash k J v js1 v1 hct q b
          (fun hcb => (hun hcb).1) hv⟩
      have hnext : ∀ q : TxOutPoint, k + 1 = 0 → firstTouch D rest q = Touch.spends :=
        fun q hk => absurd hk (Nat.succ_ne_zero k)
      have hft : ∀ q, touch D t q = Touch.untouched →
          firstTouch D (t :: rest) q = firstTouch D rest q := by
        intro q hq; simp only [firstTouch, hq]
      have hft' : ∀ q, touch D t q ≠ Touch.untouched →
          firstTouch D (t :: rest) q = touch D t q := by
        intro q hq
        cases ht : touch D t q with
        | untouched => exact absurd ht hq
        | spends => simp only [firstTouch, ht]
        | creates => simp only [firstTouch, ht]
        | shadows => simp only [firstTouch, ht]
      have hfu : ∀ q, firstTouch D (t :: rest) q = Touch.untouched →
          touch D t q = Touch.untouched ∧ firstTouch D rest q = Touch.untouched := by
        intro q hq
        by_cases ht : touch D t q = Touch.untouched
        · exact ⟨ht, by rw [hft q ht] at hq; exact hq⟩
        · rw [hft' q ht] at hq; exact absurd hq ht
      have henum : ((t :: rest).enumFrom k).reverse =
          (rest.enumFrom (k + 1)).reverse ++ [(k, t)] := by
        simp [List.enumFrom_cons]
      by_cases hk : k = 0
      · -- the coinbase
        have hcb : D.IsCoinBase t.Tx = true := hcbk.mpr hk
        have hJ1 : js1.getD J = J := by rw [hA hcb]; rfl
        rw [hJ1] at hJr ihD
        refine ⟨⟨Jr, hJr⟩, ?_, ?_, ?_⟩
        · intro q hq
          obtain ⟨h1, h2⟩ := hfu q hq
          rw [ihU q h2, hC q h1]
        · intro q b hfirst hv
          exact ihB q b (hnext q) (hstep q b hfirst hv).2
        · intro X w
          obtain ⟨wr, hr1, hr2, hr4, hr3⟩ := ihD X w
          rw [henum, disconnectTxs_append, hr1]
          simp only []
          rw [disconnectTxs_single D blockHash _ k t _ wr hord, if_pos hk]
          refine ⟨_, rfl, ?_, ?_, ?_⟩
          · rw [disconnectOutputs_viewpoints, hr2]
          · intro q b hfirst hv hw
            obtain ⟨hun, hv1⟩ := hstep q b hfirst hv
            exact disconnectOutputs_coinBase_bound D blockHash true t.hash q b _ 0 wr
              (fun _ => (hun hcb).2) (hr4 q b (hnext q) hv1 hw)
          · intro q
            by_cases ht : touch D t q = Touch.untouched
            · obtain ⟨-, hns, -⟩ := touch_untouched D t q ht
              rw [hft q ht, disconnectOutputs_not_mem _ _ _ _ _ _ _ _ hns]
              obtain ⟨g1, g2, g3⟩ := hr3 q
              refine ⟨?_, g2, g3⟩
              intro hs
              obtain ⟨e0, e, he0, hw⟩ := g1 hs
              exact ⟨e0, e, by rw [← hC q ht]; exact he0, hw⟩
            · rw [hft' q ht]
              refine ⟨?_, ?_, fun h => absurd h ht⟩
              · intro hs
                have := (touch_spends_iff D t q).mp hs
                rw [hcb] at this
                cases this.1
              · intro hcr
                exact disconnectOutputs_mem _ _ _ _ _ _ _ _
                  ((touch_creates_iff D t q).mp hcr).2
      · -- a regular transaction
        have hcb : D.IsCoinBase t.Tx = false := by
          cases h : D.IsCoinBase t.Tx with
          | false => rfl
          | true => exact absurd (hcbk.mp h) hk
        obtain ⟨hpres, hjs⟩ := hB hcb
        have hJ1 : js1.getD J = J ++ journalFor D t v (spentInputs D t) := by rw [hjs]; rfl
        rw [hJ1] at hJr ihD
        refine ⟨⟨journalFor D t v (spentInputs D t) ++ Jr, by rw [hJr, List.append_assoc]⟩,
          ?_, ?_, ?_⟩
        · intro q hq
          obtain ⟨h1, h2⟩ := hfu q hq
          rw [ihU q h2, hC q h1]
        · intro q b hfirst hv
          exact ihB q b (hnext q) (hstep q b hfirst hv).2
        · intro X w
          obtain ⟨wr, hr1, hr2, hr4, hr3⟩ := ihD X w
          rw [henum, disconnectTxs_append, hr1]
          simp only []
          rw [disconnectTxs_single D blockHash _ k t _ wr hord, if_neg hk]
          have hl : (t.Tx.TxIn.enum.reverse).filter (spendsJournal D t) =
              (spentInputs D t).reverse := by
            rw [List.filter_reverse, spentInputs, spentInputsFrom_eq]
            rfl
          have hpres' : ∀ p ∈ t.Tx.TxIn.enum.reverse, spendsJournal D t p = true →
              v.entries p.2.PreviousOut ≠ none := by
            intro p hp hsp
            apply hpres
            rw [spentInputs, spentInputsFrom_eq]
            exact List.mem_filter.mpr ⟨List.mem_reverse.mp hp, hsp⟩
          obtain ⟨w2, hd1, hd2, hd3, hd4, hd5⟩ := disconnectInputs_restore D t v J
            t.Tx.TxIn.enum.reverse (Jr ++ X)
            (disconnectOutputs D blockHash false t.hash t.Tx.TxOut 0 wr) hpres'
          rw [hl, List.reverse_reverse, List.length_reverse] at hd1
          rw [hl] at hd3 hd4
          have hlen := journalFor_length D t v (spentInputs D t) hpres
          have hstx : J' ++ X = J ++ journalFor D t v (spentInputs D t) ++ (Jr ++ X) := by
            rw [hJr]; simp [List.append_assoc]
          have hidx : (((J ++ journalFor D t v (spentInputs D t)).length : Nat) : Int) - 1 =
              (J.length : Int) + ((spentInputs D t).length : Int) - 1 := by
            rw [List.length_append, hlen]; push_cast; ring
          rw [hstx, hidx, hd1]
          refine ⟨w2, rfl, ?_, ?_, ?_⟩
          · rw [hd2, disconnectOutputs_viewpoints, hr2]
          · intro q b hfirst hv hw
            obtain ⟨-, hv1⟩ := hstep q b hfirst hv
            exact hd5 q b hv
              (disconnectOutputs_coinBase_bound D blockHash false t.hash q b _ 0 wr
                (fun hc => by cases hc) (hr4 q b (hnext q) hv1 hw))
          · intro q
            have hmr : q ∈ (spentInputs D t).reverse.map (fun p => p.2.PreviousOut) ↔
                q ∈ (spentInputs D t).map (fun p => p.2.PreviousOut) := by
              simp [List.mem_map]
            by_cases ht : touch D t q = Touch.untouched
            · obtain ⟨hnsp, hns, -⟩ := touch_untouched D t q ht
              have hnm : ¬ q ∈ (spentInputs D t).reverse.map (fun p => p.2.PreviousOut) :=
                fun hm => hnsp ⟨hcb, hmr.mp hm⟩
              rw [hft q ht, hd4 q hnm,
                disconnectOutputs_not_mem _ _ _ _ _ _ _ _ hns]
              obtain ⟨g1, g2, g3⟩ := hr3 q
              refine ⟨?_, g2, g3⟩
              intro hs
              obtain ⟨e0, e, he0, hw⟩ := g1 hs
              exact ⟨e0, e, by rw [← hC q ht]; exact he0, hw⟩
            · rw [hft' q ht]
              refine ⟨?_, ?_, fun h => absurd h ht⟩
              · intro hs
                obtain ⟨-, hm⟩ := (touch_spends_iff D t q).mp hs
                exact hd3 q (hmr.mpr hm)
              · intro hcr
                obtain ⟨hnsp, hmem⟩ := (touch_creates_iff D t q).mp hcr
                have hnm : ¬ q ∈ (spentInputs D t).reverse.map (fun p => p.2.PreviousOut) :=
                  fun hm => hnsp ⟨hcb, hmr.mp hm⟩
                rw [hd4 q hnm]
                exact disconnectOutputs_mem _ _ _ _ _ _ _ _ hmem


/-- C11. Without fast-add, when no main parent is found, or when one is found
and `checkBlockContext` fails, `maybeAcceptBlock` returns that error as an
ordinary result and its only calls are `ChainLock`, `ChainUnlock` and the
deferred `flushNotifications`: the pruner, `AddBlock`, the block store,
`connectDagChain` and `updateBestState` are not called. With fast-add the
answers of `GetMainParentByHashs` and `checkBlockContext` have no influence on
the run. -/
theorem maybeAcceptBlock_context_failure (E : Env) (s : ChainState) (block : SerializedBlock)
    (flags : BehaviorFlags) :
    (flags.BFFastAdd = false → E.GetMainParentByHashs block.Parents = none →
      maybeAcceptBlock E s block flags =
        (Ret.returned (some (Error.Plain "Can't find main parent\n")),
          { s with calls := s.calls ++
              [Call.ChainLock, Call.ChainUnlock, Call.flushNotifications] })) ∧
    (∀ mainParent err, flags.BFFastAdd = false →
      E.GetMainParentByHashs block.Parents = some mainParent →
      E.checkBlockContext block mainParent flags = some err →
      maybeAcceptBlock E s block flags =
        (Ret.returned (some err),
          { s with calls := s.calls ++
              [Call.ChainLock, Call.ChainUnlock, Call.flushNotifications] })) ∧
    (flags.BFFastAdd = true →
      ∀ (resolve : List Nat → Option IBlock)
        (check : SerializedBlock → IBlock → BehaviorFlags → Option Error),
        maybeAcceptBlock { E with GetMainParentByHashs := resolve, checkBlockContext := check }
            s block flags =
          maybeAcceptBlock E s block flags) := by
  refine ⟨?_, ?_, ?_⟩
  · intro hf hp
    simp [maybeAcceptBlock, hf, hp, ChainState.call]
  · intro mainParent err hf hp hc
    simp [maybeAcceptBlock, hf, hp, hc, ChainState.call]
  · intro hf resolve check
    have hcd : connectDagChain
        { E with GetMainParentByHashs := resolve, checkBlockContext := check } =
        connectDagChain E := connectDagChain_congr E _ rfl rfl rfl rfl rfl
    simp only [maybeAcceptBlock, hf, hcd]
    rfl

/-- Witness of C11: the sample block when no main parent is found, and with
fast-add. -/
theorem maybeAcceptBlock_context_failure_witness :
    maybeAcceptBlock noMainParentEnv sampleState sampleBlock noFlags =
        (Ret.returned (some (Error.Plain "Can't find main parent\n")),
          { sampleState with calls := sampleState.calls ++
              [Call.ChainLock, Call.ChainUnlock, Call.flushNotifications] }) ∧
      maybeAcceptBlock
          { sampleEnv with
            GetMainParentByHashs := fun _ => none
            checkBlockContext := fun _ _ _ => some (Error.Plain "bad context") }
          sampleState sampleBlock fastFlags =
        maybeAcceptBlock sampleEnv sampleState sampleBlock fastFlags :=
  ⟨(maybeAcceptBlock_context_failure noMainParentEnv sampleState sampleBlock noFlags).1 rfl rfl,
    (maybeAcceptBlock_context_failure sampleEnv sampleState sampleBlock fastFlags).2.2 rfl _ _⟩

/-- C13. When `checkBlockSanity` fails for a block that is neither in the DAG
nor an orphan, `processBlock` returns that error with `isOrphan = false`; the
orphan pool and the published snapshot are unchanged and the only calls are the
read lock and its release, so neither `maybeAcceptBlock` nor `RefreshOrphans`
is called. -/
theorem processBlock_insane (E : Env) (s : ChainState) (block : SerializedBlock)
    (flags : BehaviorFlags) (err : Error)
    (hdag : E.HasBlock block.hash = false)
    (horphan : s.IsOrphan block.hash = false)
    (hsane : E.checkBlockSanity block flags = some err) :
    processBlock E s block flags =
      (Ret.returned (false, some err),
        { s with calls := s.calls ++ [Call.ChainRLock, Call.ChainRUnlock] }) := by
  simp [processBlock, preProcessBlock, hdag, horphan, hsane]
  simp [ChainState.call]

/-- Witness of C13: the sample block with a sanity check that rejects it. -/
theorem processBlock_insane_witness :
    processBlock insaneEnv sampleState sampleBlock noFlags =
      (Ret.returned (false, some (Error.RuleError (ErrorCode.ErrOther 7) "block is not sane")),
        { sampleState with calls := sampleState.calls ++ [Call.ChainRLock, Call.ChainRUnlock] }) :=
  processBlock_insane insaneEnv sampleState sampleBlock noFlags _ (by decide) (by decide) rfl

/-- C14. With the RPC-add flag set and `CheckSubMainChainTip` failing on the
block's parents, `ProcessBlock` returns `(false, true, error)` and makes no
call at all, so `processBlock` is not run. In every other case (the flag is
not set, whatever the check would answer, or the check passes) the run is that
of `processBlock`: the same calls and state, the same `isOrphan` and error
with `isTipsExpired = false`, or the same panic. -/
theorem ProcessBlock_stale_tips (E : Env) (s : ChainState) (block : SerializedBlock)
    (flags : BehaviorFlags) :
    (∀ err, flags.BFRPCAdd = true → E.CheckSubMainChainTip block.Parents = some err →
      ∃ msg, ProcessBlock E s block flags =
        (Ret.returned (false, true, some (Error.Plain msg)), s)) ∧
    ((flags.BFRPCAdd = false ∨ E.CheckSubMainChainTip block.Parents = none) →
      ProcessBlock E s block flags =
        (tipsNotExpired (processBlock E s block flags).1, (processBlock E s block flags).2)) := by
  constructor
  · intro err hf hc
    exact ⟨"The tips of block is expired (error:" ++ err.msg ++ ")",
      by simp [ProcessBlock, hf, hc]⟩
  · intro h
    have hexp : (if flags.BFRPCAdd = true then E.CheckSubMainChainTip block.Parents else none) =
        none := by
      rcases h with h | h
      · simp [h]
      · simp [h]
    simp only [ProcessBlock, hexp]
    rcases hp : processBlock E s block flags with ⟨r, s'⟩
    cases r with
    | returned a => obtain ⟨o, e⟩ := a; rfl
    | panicked m => rfl

/-- Witness of C14: the sample block submitted with the RPC-add flag when the
tips are stale, and without the flag. -/
theorem ProcessBlock_stale_tips_witness :
    (∃ msg, ProcessBlock staleTipEnv sampleState sampleBlock rpcFlags =
        (Ret.returned (false, true, some (Error.Plain msg)), sampleState)) ∧
      ProcessBlock staleTipEnv sampleState sampleBlock noFlags =
        (tipsNotExpired (processBlock staleTipEnv sampleState sampleBlock noFlags).1,
          (processBlock staleTipEnv sampleState sampleBlock noFlags).2) :=
  ⟨(ProcessBlock_stale_tips staleTipEnv sampleState sampleBlock rpcFlags).1 _ rfl rfl,
    (ProcessBlock_stale_tips staleTipEnv sampleState sampleBlock noFlags).2 (Or.inl rfl)⟩


/-! ### Coinbase transactions (C20) -/

/-- C20. For a coinbase transaction `connectTransaction` returns no error and
the journal it was given; the view's viewpoints and every entry that is not at
an outpoint of the transaction's outputs are unchanged, every outpoint of its
outputs holds a new, unspent entry built from one of its outputs, and every
spent entry of the resulting view was already in the given view, so no entry
is marked spent. -/
theorem connectTransaction_coinbase (D : Deps) (tx : Tx) (nodeHash blockIndex : Nat)
    (stxos : Option (List SpentTxOut)) (view : UtxoViewpoint)
    (hcb : D.IsCoinBase tx.Tx = true) :
    (connectTransaction D tx nodeHash blockIndex stxos view).1 = none ∧
    (connectTransaction D tx nodeHash blockIndex stxos view).2.1 = stxos ∧
    (connectTransaction D tx nodeHash blockIndex stxos view).2.2.viewpoints = view.viewpoints ∧
    (∀ q, q ∉ createdOutpoints tx →
      (connectTransaction D tx nodeHash blockIndex stxos view).2.2.entries q = view.entries q) ∧
    (∀ q ∈ createdOutpoints tx, ∃ txOut ∈ tx.Tx.TxOut,
      (connectTransaction D tx nodeHash blockIndex stxos view).2.2.entries q =
        some (NewUtxoEntry txOut.Amount txOut.PkScript nodeHash true)) ∧
    (∀ q e, (connectTransaction D tx nodeHash blockIndex stxos view).2.2.entries q = some e →
      e.spent = true → view.entries q = some e) := by
  have hct : connectTransaction D tx nodeHash blockIndex stxos view =
      (none, stxos, AddTxOuts D view tx nodeHash) := by
    simp [connectTransaction, hcb]
  rw [hct]
  have hmem : ∀ q ∈ createdOutpoints tx, ∃ txOut ∈ tx.Tx.TxOut,
      (AddTxOuts D view tx nodeHash).entries q =
        some (NewUtxoEntry txOut.Amount txOut.PkScript nodeHash true) := by
    intro q hq
    have := addTxOutsFrom_mem (D.IsCoinBase tx.Tx) tx.hash nodeHash q tx.Tx.TxOut 0 view hq
    rw [hcb] at this
    simpa [AddTxOuts, hcb] using this
  have hnot : ∀ q, q ∉ createdOutpoints tx →
      (AddTxOuts D view tx nodeHash).entries q = view.entries q := by
    intro q hq
    exact addTxOutsFrom_not_mem _ _ _ _ _ _ _ hq
  refine ⟨rfl, rfl, ?_, hnot, hmem, ?_⟩
  · exact addTxOutsFrom_viewpoints _ _ _ _ _ _
  · intro q e he hs
    by_cases hq : q ∈ createdOutpoints tx
    · obtain ⟨txOut, -, hnew⟩ := hmem q hq
      simp only at he
      rw [hnew] at he
      cases he
      simp [NewUtxoEntry] at hs
    · simp only at he
      rw [hnot q hq] at he
      exact he

/-- Witness of C20: the sample coinbase connected to the sample view. -/
theorem connectTransaction_coinbase_witness :
    sampleDeps.IsCoinBase sampleCoinbase.Tx = true ∧
      (connectTransaction sampleDeps sampleCoinbase 77 0 (some []) sampleView).1 = none ∧
      (connectTransaction sampleDeps sampleCoinbase 77 0 (some []) sampleView).2.1 = some [] :=
  ⟨rfl, (connectTransaction_coinbase sampleDeps sampleCoinbase 77 0 (some []) sampleView rfl).1,
    (connectTransaction_coinbase sampleDeps sampleCoinbase 77 0 (some []) sampleView rfl).2.1⟩

/-! ### Checkpoint checks (C12) -/

/-- C12, as stated, fails: a block the DAG already holds, with a timestamp
before the previous checkpoint, is answered with `ErrDuplicateBlock`, not with
`ErrCheckpointTimeTooOld`. -/
theorem preProcessBlock_checkpoint_counterexample :
    ¬ ∀ (E : Env) (s : ChainState) (block : SerializedBlock) (flags : BehaviorFlags)
        (checkpoint : Option IBlock) (checkpointNode : BlockNode),
        flags.BFFastAdd = false →
        E.findPreviousCheckpoint = Except.ok checkpoint →
        E.GetBlockNode checkpoint = some checkpointNode →
        block.Timestamp < checkpointNode.timestamp →
        ∃ msg, (preProcessBlock E s block flags).1 =
          (false, some (Error.RuleError ErrorCode.ErrCheckpointTimeTooOld msg)) := by
  intro h
  obtain ⟨msg, hm⟩ := h knownBlockEnv sampleState sampleBlock noFlags _
    { timestamp := 100, difficulty := 0, powType := 0 } rfl rfl rfl (by decide)
  have h2 : (preProcessBlock knownBlockEnv sampleState sampleBlock noFlags).1 =
      (false, some (Error.RuleError ErrorCode.ErrDuplicateBlock "already have block")) := rfl
  rw [h2] at hm
  simp at hm

/-- C12, amended. Take a block that is neither in the DAG nor in the orphan
pool and passes the sanity check, with fast-add not set and a previous
checkpoint node found. If the block's timestamp is before the checkpoint's
time, `preProcessBlock` fails with `ErrCheckpointTimeTooOld`. If it is not,
and the claimed target does not meet the easiest target allowed for the time
elapsed since the checkpoint, `preProcessBlock` fails with
`ErrDifficultyTooLow`. In both cases `isOrphan` is false, the orphan pool is
unchanged and the only calls are the read lock and its release. -/
theorem preProcessBlock_checkpoint (E : Env) (s : ChainState) (block : SerializedBlock)
    (flags : BehaviorFlags) (checkpoint : Option IBlock) (checkpointNode : BlockNode)
    (hfast : flags.BFFastAdd = false)
    (hdag : E.HasBlock block.hash = false)
    (horphan : s.IsOrphan block.hash = false)
    (hsane : E.checkBlockSanity block flags = none)
    (hfind : E.findPreviousCheckpoint = Except.ok checkpoint)
    (hnode : E.GetBlockNode checkpoint = some checkpointNode) :
    (block.Timestamp < checkpointNode.timestamp →
      ∃ msg, preProcessBlock E s block flags =
        ((false, some (Error.RuleError ErrorCode.ErrCheckpointTimeTooOld msg)),
          { s with calls := s.calls ++ [Call.ChainRLock, Call.ChainRUnlock] })) ∧
    (¬ block.Timestamp < checkpointNode.timestamp →
      E.CompareDiff block.Pow (E.CompactToBig block.Difficulty)
        (E.CompactToBig (E.calcEasiestDifficulty checkpointNode.difficulty
          (block.Timestamp - checkpointNode.timestamp) block.Pow)) = false →
      ∃ msg, preProcessBlock E s block flags =
        ((false, some (Error.RuleError ErrorCode.ErrDifficultyTooLow msg)),
          { s with calls := s.calls ++ [Call.ChainRLock, Call.ChainRUnlock] })) := by
  constructor
  · intro hold
    have hchk : checkpointChecks E block flags.BFFastAdd checkpoint =
        some (ruleError ErrorCode.ErrCheckpointTimeTooOld
          "block has timestamp before last checkpoint timestamp") := by
      simp [checkpointChecks, hnode, hold]
    refine ⟨"block has timestamp before last checkpoint timestamp", ?_⟩
    simp [preProcessBlock, hdag, horphan, hsane, hfind, hchk, ruleError]
    simp [ChainState.call]
  · intro hnew hlow
    have hchk : checkpointChecks E block flags.BFFastAdd checkpoint =
        some (ruleError ErrorCode.ErrDifficultyTooLow
          "block target difficulty is too low when compared to the previous checkpoint") := by
      simp [checkpointChecks, hnode, hnew, hfast, hlow]
    refine ⟨"block target difficulty is too low when compared to the previous checkpoint", ?_⟩
    simp [preProcessBlock, hdag, horphan, hsane, hfind, hchk, ruleError]
    simp [ChainState.call]

/-- Witness of C12 amended: the sample block, whose timestamp 10 is before the
checkpoint's 100, and the block with timestamp 200 and too easy a target. -/
theorem preProcessBlock_checkpoint_witness :
    (∃ msg, preProcessBlock checkpointEnv sampleState sampleBlock noFlags =
        ((false, some (Error.RuleError ErrorCode.ErrCheckpointTimeTooOld msg)),
          { sampleState with
            calls := sampleState.calls ++ [Call.ChainRLock, Call.ChainRUnlock] })) ∧
      (∃ msg, preProcessBlock checkpointEnv sampleState easyBlock noFlags =
        ((false, some (Error.RuleError ErrorCode.ErrDifficultyTooLow msg)),
          { sampleState with
            calls := sampleState.calls ++ [Call.ChainRLock, Call.ChainRUnlock] })) :=
  ⟨(preProcessBlock_checkpoint checkpointEnv sampleState sampleBlock noFlags _
      { timestamp := 100, difficulty := 0, powType := 0 } rfl (by decide) (by decide) rfl rfl
      rfl).1 (by decide),
    (preProcessBlock_checkpoint checkpointEnv sampleState easyBlock noFlags _
      { timestamp := 100, difficulty := 0, powType := 0 } rfl (by decide) (by decide) rfl rfl
      rfl).2 (by decide) (by decide)⟩


/-! ### The best-state snapshot (C17, C18) -/

theorem foldl_UpdateWeight_stateSnapshot (attachNodes : List IBlock) :
    ∀ s : ChainState,
      (attachNodes.foldl (fun s e => s.call (Call.UpdateWeight e.id)) s).stateSnapshot =
        s.stateSnapshot := by
  induction attachNodes with
  | nil => intro s; rfl
  | cons n rest ih => intro s; simp only [List.foldl_cons]; rw [ih]; rfl

/-- What `updateBestState` does once the unknown-rule check has let it
through: the returned error and the snapshot it leaves. -/
theorem updateBestState_after_warning (E : Env) (s : ChainState) (ib : IBlock)
    (block : SerializedBlock) (attachNodes : List IBlock)
    (hwarn : E.isCurrent = true → E.warnUnknownRuleActivations ib = none) :
    (updateBestState E s ib block attachNodes).1 =
        (match E.GetBlockNode (some E.GetMainChainTip) with
        | none => some (Error.Plain "No main tip node\n")
        | some node =>
          match E.dbPutBestState (builtState E s block node) with
          | some err => some err
          | none =>
            if E.hasIndexManager = true then
              match E.indexUpdateMainTip E.GetMainChainTip.hash
                  (uint64 E.GetMainChainTip.order) with
              | some err => some err
              | none => E.dagCommit
            else E.dagCommit) ∧
      (updateBestState E s ib block attachNodes).2.stateSnapshot =
        (match E.GetBlockNode (some E.GetMainChainTip) with
        | none => s.stateSnapshot
        | some node =>
          match E.dbPutBestState (builtState E s block node) with
          | some _ => s.stateSnapshot
          | none =>
            if E.hasIndexManager = true then
              match E.indexUpdateMainTip E.GetMainChainTip.hash
                  (uint64 E.GetMainChainTip.order) with
              | some _ => s.stateSnapshot
              | none => builtState E s block node
            else builtState E s block node) := by
  unfold updateBestState builtState
  cases hcur : E.isCurrent with
  | true =>
    have hw := hwarn hcur
    simp only [hw, ↓reduceIte, ChainState.stateSnapshot_call]
    cases E.GetBlockNode (some E.GetMainChainTip) with
    | none => simp [foldl_UpdateWeight_stateSnapshot]
    | some node =>
      simp only []
      split
      · simp [foldl_UpdateWeight_stateSnapshot]
      · cases E.hasIndexManager with
        | false => simp
        | true =>
          simp only [↓reduceIte]
          split
          · simp [foldl_UpdateWeight_stateSnapshot]
          · simp
  | false =>
    simp only [Bool.false_eq_true, ↓reduceIte]
    cases E.GetBlockNode (some E.GetMainChainTip) with
    | none => simp [foldl_UpdateWeight_stateSnapshot]
    | some node =>
      simp only []
      split
      · simp [foldl_UpdateWeight_stateSnapshot]
      · cases E.hasIndexManager with
        | false => simp
        | true =>
          simp only [↓reduceIte]
          split
          · simp [foldl_UpdateWeight_stateSnapshot]
          · simp


/-- C17. When `updateBestState` reaches the swap of the published snapshot
(the unknown-rule check passes or is not run, the main-tip node is found, the
best-state write succeeds and so does the index manager when there is one),
the snapshot it publishes has the hash of the main-chain tip read in the call
as tip hash, the number of transactions of the admitted block as per-block
count, and the previous snapshot's total plus that number as cumulative total,
all in 64-bit unsigned arithmetic; the error it returns is that of the final
`Commit` of the DAG. -/
theorem updateBestState_published (E : Env) (s : ChainState) (ib : IBlock)
    (block : SerializedBlock) (attachNodes : List IBlock) (mainTipNode : BlockNode)
    (hwarn : E.isCurrent = true → E.warnUnknownRuleActivations ib = none)
    (hnode : E.GetBlockNode (some E.GetMainChainTip) = some mainTipNode)
    (hdb : E.dbPutBestState (builtState E s block mainTipNode) = none)
    (hindex : E.hasIndexManager = true →
      E.indexUpdateMainTip E.GetMainChainTip.hash (uint64 E.GetMainChainTip.order) = none) :
    (updateBestState E s ib block attachNodes).2.stateSnapshot.Hash = E.GetMainChainTip.hash ∧
    (updateBestState E s ib block attachNodes).2.stateSnapshot.NumTxns =
      block.Transactions.length % 18446744073709551616 ∧
    (updateBestState E s ib block attachNodes).2.stateSnapshot.TotalTxns =
      (s.stateSnapshot.TotalTxns + block.Transactions.length % 18446744073709551616) %
        18446744073709551616 ∧
    (block.Transactions.length < 18446744073709551616 →
      (updateBestState E s ib block attachNodes).2.stateSnapshot.NumTxns =
        block.Transactions.length) ∧
    (updateBestState E s ib block attachNodes).1 = E.dagCommit := by
  obtain ⟨h1, h2⟩ := updateBestState_after_warning E s ib block attachNodes hwarn
  have hsnap : (updateBestState E s ib block attachNodes).2.stateSnapshot =
      builtState E s block mainTipNode := by
    rw [h2, hnode]
    simp only [hdb]
    cases hi : E.hasIndexManager with
    | false => simp
    | true => simp [hindex hi]
  have herr : (updateBestState E s ib block attachNodes).1 = E.dagCommit := by
    rw [h1, hnode]
    simp only [hdb]
    cases hi : E.hasIndexManager with
    | false => simp
    | true => simp [hindex hi]
  rw [hsnap]
  refine ⟨rfl, rfl, rfl, ?_, herr⟩
  intro hlt
  simp [builtState, uint64, Nat.mod_eq_of_lt hlt]

/-- Witness of C17: the sample block published by the sample collaborators. -/
theorem updateBestState_published_witness :
    (updateBestState sampleEnv sampleState sampleNode sampleBlock [sampleNode]).2.stateSnapshot.Hash
        = sampleEnv.GetMainChainTip.hash ∧
      (updateBestState sampleEnv sampleState sampleNode sampleBlock
        [sampleNode]).2.stateSnapshot.TotalTxns = 2 :=
  ⟨(updateBestState_published sampleEnv sampleState sampleNode sampleBlock [sampleNode]
      { timestamp := 0, difficulty := 0, powType := 0 } (by decide) rfl rfl (by decide)).1,
    (updateBestState_published sampleEnv sampleState sampleNode sampleBlock [sampleNode]
      { timestamp := 0, difficulty := 0, powType := 0 } (by decide) rfl rfl (by decide)).2.2.1⟩

/-- C18. When the unknown-rule check fails, the main-tip node is missing, the
best-state write fails or the index manager's `UpdateMainTip` fails,
`updateBestState` returns that error and the published snapshot is the one
from before the call. Whenever the published snapshot differs from the one
before the call, the best-state write and the index manager's update have
succeeded and the snapshot is the one that was written. -/
theorem updateBestState_failure (E : Env) (s : ChainState) (ib : IBlock)
    (block : SerializedBlock) (attachNodes : List IBlock) :
    (∀ err, E.isCurrent = true → E.warnUnknownRuleActivations ib = some err →
      (updateBestState E s ib block attachNodes).1 = some err ∧
        (updateBestState E s ib block attachNodes).2.stateSnapshot = s.stateSnapshot) ∧
    ((E.isCurrent = true → E.warnUnknownRuleActivations ib = none) →
      (E.GetBlockNode (some E.GetMainChainTip) = none →
        (updateBestState E s ib block attachNodes).1 = some (Error.Plain "No main tip node\n") ∧
          (updateBestState E s ib block attachNodes).2.stateSnapshot = s.stateSnapshot) ∧
      (∀ node err, E.GetBlockNode (some E.GetMainChainTip) = some node →
        E.dbPutBestState (builtState E s block node) = some err →
        (updateBestState E s ib block attachNodes).1 = some err ∧
          (updateBestState E s ib block attachNodes).2.stateSnapshot = s.stateSnapshot) ∧
      (∀ node err, E.GetBlockNode (some E.GetMainChainTip) = some node →
        E.dbPutBestState (builtState E s block node) = none →
        E.hasIndexManager = true →
        E.indexUpdateMainTip E.GetMainChainTip.hash (uint64 E.GetMainChainTip.order) =
          some err →
        (updateBestState E s ib block attachNodes).1 = some err ∧
          (updateBestState E s ib block attachNodes).2.stateSnapshot = s.stateSnapshot)) ∧
    (∀ node, E.GetBlockNode (some E.GetMainChainTip) = some node →
      (updateBestState E s ib block attachNodes).2.stateSnapshot ≠ s.stateSnapshot →
      E.dbPutBestState (builtState E s block node) = none ∧
        (E.hasIndexManager = true →
          E.indexUpdateMainTip E.GetMainChainTip.hash (uint64 E.GetMainChainTip.order) =
            none) ∧
        (updateBestState E s ib block attachNodes).2.stateSnapshot =
          builtState E s block node) := by
  have hfail : ∀ err, E.isCurrent = true → E.warnUnknownRuleActivations ib = some err →
      (updateBestState E s ib block attachNodes).1 = some err ∧
        (updateBestState E s ib block attachNodes).2.stateSnapshot = s.stateSnapshot := by
    intro err hcur hw
    simp [updateBestState, hcur, hw]
  refine ⟨hfail, ?_, ?_⟩
  · intro hwarn
    obtain ⟨h1, h2⟩ := updateBestState_after_warning E s ib block attachNodes hwarn
    refine ⟨?_, ?_, ?_⟩
    · intro hn
      rw [h1, h2, hn]
      exact ⟨rfl, rfl⟩
    · intro node err hn hdb
      rw [h1, h2, hn]
      simp [hdb]
    · intro node err hn hdb hi hidx
      rw [h1, h2, hn]
      simp [hdb, hi, hidx]
  · intro node hn hne
    by_cases hwarn : E.isCurrent = true → E.warnUnknownRuleActivations ib = none
    · obtain ⟨-, h2⟩ := updateBestState_after_warning E s ib block attachNodes hwarn
      rw [h2, hn] at hne ⊢
      simp only at hne ⊢
      cases hdb : E.dbPutBestState (builtState E s block node) with
      | some err => rw [hdb] at hne; exact absurd rfl hne
      | none =>
        rw [hdb] at hne
        simp only at hne ⊢
        cases hi : E.hasIndexManager with
        | false => simp
        | true =>
          rw [hi] at hne
          simp only [if_true] at hne ⊢
          cases hidx : E.indexUpdateMainTip E.GetMainChainTip.hash
              (uint64 E.GetMainChainTip.order) with
          | some err => rw [hidx] at hne; exact absurd rfl hne
          | none => simp
    · have hcur : E.isCurrent = true := by
        by_contra h
        exact hwarn (fun h' => absurd h' h)
      cases hw : E.warnUnknownRuleActivations ib with
      | none => exact absurd (fun _ => hw) hwarn
      | some err => exact absurd (hfail err hcur hw).2 hne

/-- Witness of C18: the sample block when the index manager fails to update
the main tip. -/
theorem updateBestState_failure_witness :
    (updateBestState failingIndexEnv sampleState sampleNode sampleBlock [sampleNode]).1 =
        some (Error.Plain "index failure") ∧
      (updateBestState failingIndexEnv sampleState sampleNode sampleBlock
        [sampleNode]).2.stateSnapshot = sampleState.stateSnapshot :=
  ((updateBestState_failure failingIndexEnv sampleState sampleNode sampleBlock
      [sampleNode]).2.1 (by decide)).2.2 { timestamp := 0, difficulty := 0, powType := 0 }
    (Error.Plain "index failure") rfl rfl rfl rfl


/-! ### Notifications (C15, C16) -/

theorem notifyConnected_calls (l : List (SerializedBlock × Bool)) :
    ∀ s : ChainState, (notifyConnected l s).calls =
      s.calls ++ l.map (fun e => Call.sendNotification (Notification.BlockConnected e.1 e.2)) := by
  induction l with
  | nil => intro s; simp [notifyConnected]
  | cons e rest ih =>
    intro s
    simp [notifyConnected, ih, ChainState.call]

theorem sentNotifications_quiet_append (l r : List Call)
    (h : ∀ c ∈ l, c.isNotification = false) :
    sentNotifications (l ++ r) = sentNotifications r := by
  induction l with
  | nil => rfl
  | cons c rest ih =>
    have hc := h c (List.mem_cons_self _ _)
    have hrest := ih (fun d hd => h d (List.mem_cons_of_mem _ hd))
    cases c <;> simp_all [sentNotifications, Call.isNotification]

theorem sentNotifications_quiet (l : List Call) (h : ∀ c ∈ l, c.isNotification = false) :
    sentNotifications l = [] := by
  have := sentNotifications_quiet_append l [] h
  simpa [sentNotifications] using this

theorem sentNotifications_connected (l : List (SerializedBlock × Bool)) (r : List Call) :
    sentNotifications
        (l.map (fun e => Call.sendNotification (Notification.BlockConnected e.1 e.2)) ++ r) =
      l.map (fun e => Notification.BlockConnected e.1 e.2) ++ sentNotifications r := by
  induction l with
  | nil => rfl
  | cons e rest ih => simp [sentNotifications, ih]

theorem notifiesUnderLock_quiet_unlock (l r : List Call)
    (h : ∀ c ∈ l, c.isNotification = false) :
    ∀ held, notifiesUnderLock held (l ++ Call.ChainUnlock :: r) = notifiesUnderLock false r := by
  induction l with
  | nil => intro held; rfl
  | cons c rest ih =>
    have hc := h c (List.mem_cons_self _ _)
    have hrest := ih (fun d hd => h d (List.mem_cons_of_mem _ hd))
    intro held
    cases c <;>
      first
        | exact hrest held
        | exact hrest true
        | exact hrest false
        | exact absurd hc (by simp [Call.isNotification])

theorem notifiesUnderLock_quiet (l : List Call) (h : ∀ c ∈ l, c.isNotification = false) :
    ∀ held, notifiesUnderLock held l = false := by
  induction l with
  | nil => intro held; rfl
  | cons c rest ih =>
    have hc := h c (List.mem_cons_self _ _)
    have hrest := ih (fun d hd => h d (List.mem_cons_of_mem _ hd))
    intro held
    cases c <;>
      first
        | exact hrest held
        | exact hrest true
        | exact hrest false
        | exact absurd hc (by simp [Call.isNotification])

theorem notifiesUnderLock_unlocked (l : List Call) (h : ∀ c ∈ l, c ≠ Call.ChainLock) :
    notifiesUnderLock false l = false := by
  induction l with
  | nil => rfl
  | cons c rest ih =>
    have hc := h c (List.mem_cons_self _ _)
    have hrest := ih (fun d hd => h d (List.mem_cons_of_mem _ hd))
    cases c <;>
      first
        | exact hrest
        | exact absurd rfl hc

theorem announcements_unlocked (E : Env) (block : SerializedBlock) (tip : Bool)
    (flags : BehaviorFlags) (connected : List (SerializedBlock × Bool)) :
    ∀ c ∈ announcements E block tip flags connected, c ≠ Call.ChainLock := by
  intro c hc heq
  subst heq
  simp [announcements] at hc

theorem sentNotifications_announcements (E : Env) (block : SerializedBlock) (tip : Bool)
    (flags : BehaviorFlags) (connected : List (SerializedBlock × Bool)) :
    sentNotifications (announcements E block tip flags connected) =
      connected.map (fun e => Notification.BlockConnected e.1 e.2) ++
        [Notification.BlockAccepted block tip flags] := by
  unfold announcements
  rw [sentNotifications_connected]
  cases flags.BFP2PAdd <;> cases E.hasAcct <;> simp [sentNotifications]


theorem announcesUnderLock_cons (held : Bool) (c : Call) (rest : List Call)
    (h1 : c ≠ Call.ChainLock) (h2 : c ≠ Call.ChainUnlock) :
    announcesUnderLock held (c :: rest) =
      ((held && c.announces) || announcesUnderLock held rest) := by
  cases c <;> first | rfl | exact absurd rfl h1 | exact absurd rfl h2

theorem announcesUnderLock_quiet (l : List Call) (h : ∀ c ∈ l, c.announces = false) :
    ∀ held, announcesUnderLock held l = false := by
  induction l with
  | nil => intro held; rfl
  | cons c rest ih =>
    have hc := h c (List.mem_cons_self _ _)
    have hrest := ih (fun d hd => h d (List.mem_cons_of_mem _ hd))
    intro held
    by_cases h1 : c = Call.ChainLock
    · subst h1; exact hrest true
    · by_cases h2 : c = Call.ChainUnlock
      · subst h2; exact hrest false
      · rw [announcesUnderLock_cons held c rest h1 h2, hc, hrest held]
        simp

theorem announcesUnderLock_quiet_unlock (l r : List Call)
    (h : ∀ c ∈ l, c.announces = false) :
    ∀ held, announcesUnderLock held (l ++ Call.ChainUnlock :: r) =
      announcesUnderLock false r := by
  induction l with
  | nil => intro held; rfl
  | cons c rest ih =>
    have hc := h c (List.mem_cons_self _ _)
    have hrest := ih (fun d hd => h d (List.mem_cons_of_mem _ hd))
    intro held
    by_cases h1 : c = Call.ChainLock
    · subst h1; exact hrest true
    · by_cases h2 : c = Call.ChainUnlock
      · subst h2; exact hrest false
      · rw [List.cons_append, announcesUnderLock_cons held c _ h1 h2, hc, hrest held]
        simp

theorem announcesUnderLock_unlocked (l : List Call) (h : ∀ c ∈ l, c ≠ Call.ChainLock) :
    announcesUnderLock false l = false := by
  induction l with
  | nil => rfl
  | cons c rest ih =>
    have hc := h c (List.mem_cons_self _ _)
    have hrest := ih (fun d hd => h d (List.mem_cons_of_mem _ hd))
    by_cases h2 : c = Call.ChainUnlock
    · subst h2; exact hrest
    · rw [announcesUnderLock_cons false c rest hc h2, hrest]
      simp

theorem mem_sentNotifications (n : Notification) :
    ∀ l : List Call, n ∈ sentNotifications l → Call.sendNotification n ∈ l := by
  intro l
  induction l with
  | nil => intro h; simp [sentNotifications] at h
  | cons c rest ih =>
    intro h
    cases c with
    | sendNotification m =>
      simp only [sentNotifications, List.mem_cons] at h
      rcases h with h | h
      · subst h; exact List.mem_cons_self _ _
      · exact List.mem_cons_of_mem _ (ih h)
    | _ => exact List.mem_cons_of_mem _ (ih h)

theorem reorganizes_of_not_simple (E : Env) (block : SerializedBlock)
    (newOrders oldOrders : List IBlock) (ib : IBlock) (tip : Bool)
    (hadd : E.AddBlock block = (newOrders, oldOrders, some ib, tip))
    (hsimple : isSimpleExtend ib newOrders oldOrders = false) :
    reorganizes E block = true := by
  simp [reorganizes, hadd, hsimple]

theorem maybeAcceptBlock_shape (E : Env) (s : ChainState) (block : SerializedBlock)
    (flags : BehaviorFlags) :
    ((maybeAcceptBlock E s block flags).1 ≠ Ret.returned none ∧
      Extends (fun c => c.announces = false ∧
          (reorganizes E block = false → c.isNotification = false)) s
        (maybeAcceptBlock E s block flags).2) ∨
    (∃ newOrders oldOrders ib tip pre,
      E.AddBlock block = (newOrders, oldOrders, some ib, tip) ∧
      (maybeAcceptBlock E s block flags).1 = Ret.returned none ∧
      (∀ c ∈ pre, c.announces = false ∧
        (reorganizes E block = false → c.isNotification = false)) ∧
      (maybeAcceptBlock E s block flags).2.calls =
        s.calls ++ (pre ++ Call.ChainUnlock ::
          announcements E (placedBlock block ib) tip flags
            (connectedBlocksOf E s block newOrders oldOrders ib))) := by
  have hq : ∀ c : Call, c.isNotification = false → c.announces = false ∧
      (reorganizes E block = false → c.isNotification = false) :=
    fun c hc => ⟨Call.announces_of_isNotification c hc, fun _ => hc⟩
  have hL : Extends (fun c => c.announces = false ∧
      (reorganizes E block = false → c.isNotification = false)) s (s.call Call.ChainLock) :=
    Extends.step (Extends.refl _ _) (hq _ rfl)
  cases hcc : (if flags.BFFastAdd = false then
        match E.GetMainParentByHashs block.Parents with
        | none => some (Error.Plain "Can't find main parent\n")
        | some mainParent => E.checkBlockContext block mainParent flags
      else none) with
  | some err =>
    left
    simp only [maybeAcceptBlock, hcc]
    refine ⟨by simp, ?_⟩
    exact Extends.step (Extends.step hL (hq _ rfl)) (hq _ rfl)
  | none =>
    rcases hadd : E.AddBlock block with ⟨newOrders, oldOrders, ib, tip⟩
    cases ib with
    | none =>
      left
      simp only [maybeAcceptBlock, hcc, hadd]
      refine ⟨by simp, ?_⟩
      exact Extends.step (Extends.step (Extends.step (Extends.step hL (hq _ rfl)) (hq _ rfl))
        (hq _ rfl)) (hq _ rfl)
    | some ib =>
      have h0 : Extends (fun c => c.announces = false ∧
          (reorganizes E block = false → c.isNotification = false)) s
          (afterOracle s block) := by
        unfold afterOracle
        exact Extends.step (Extends.step hL (hq _ rfl)) (hq _ rfl)
      have h1 := h0.trans (Extends.mono hq
        (storeBlock_extends E (afterOracle s block) (placedBlock block ib)))
      have hcdc : Extends (fun c => c.announces = false ∧
          (reorganizes E block = false → c.isNotification = false))
          ((storeBlock E (afterOracle s block) (placedBlock block ib)).2.call
            (Call.shutdownWait ib.hash))
          (connectDagChain E
            ((storeBlock E (afterOracle s block) (placedBlock block ib)).2.call
              (Call.shutdownWait ib.hash))
            ib (placedBlock block ib) newOrders oldOrders []).2 := by
        cases hsimple : isSimpleExtend ib newOrders oldOrders with
        | true =>
          exact Extends.mono (fun c (hc : Call.quiet c) => hq c hc.1)
            (connectDagChain_simple_extends E _ ib (placedBlock block ib) newOrders oldOrders []
              hsimple).1
        | false =>
          have hR := reorganizes_of_not_simple E block newOrders oldOrders ib tip hadd hsimple
          exact Extends.mono
            (fun c (hc : c.announces = false) =>
              ⟨hc, fun hf => by rw [hR] at hf; cases hf⟩)
            (connectDagChain_extends E _ ib (placedBlock block ib) newOrders oldOrders [])
      have h2 := (h1.step (c := Call.shutdownWait ib.hash) (hq _ rfl)).trans hcdc
      have h3 := h2.trans (Extends.mono hq (updateBestState_extends E _
        (connectDagChain E
              ((storeBlock E (afterOracle s block) (placedBlock block ib)).2.call
                (Call.shutdownWait ib.hash))
              ib (placedBlock block ib) newOrders oldOrders []).1.2.1 (placedBlock block ib)
        newOrders))
      have hconn : connectedBlocksOf E s block newOrders oldOrders ib =
          (connectDagChain E
              ((storeBlock E (afterOracle s block) (placedBlock block ib)).2.call
                (Call.shutdownWait ib.hash))
              ib (placedBlock block ib) newOrders oldOrders []).1.2.2 := rfl
      clear hcdc h0
      simp only [afterOracle] at h1 h2 h3 hconn
      simp only [maybeAcceptBlock, hcc, hadd]
      rcases hst : storeBlock E (((s.call Call.ChainLock).call Call.pruneChainIfNeeded).call
        (Call.AddBlock block.hash)) (placedBlock block ib) with ⟨e1, s1⟩
      rw [hst] at h1 h2 h3 hconn
      simp only at h1 h2 h3 hconn
      cases e1 with
      | some err =>
        left
        exact ⟨by simp, Extends.step h1 (hq _ rfl)⟩
      | none =>
        simp only []
        cases hw : E.shutdownWait ib.hash with
        | some err =>
          left
          exact ⟨by simp, Extends.step (Extends.step h1 (hq _ rfl)) (hq _ rfl)⟩
        | none =>
          simp only []
          rcases hcd : connectDagChain E (s1.call (Call.shutdownWait ib.hash)) ib
            (placedBlock block ib) newOrders oldOrders [] with ⟨⟨⟨ok, e2⟩, ib1, connected⟩, s2⟩
          rw [hcd] at h2 h3 hconn
          simp only at h2 h3 hconn
          cases e2 with
          | some err =>
            left
            exact ⟨by simp, Extends.step h2 (hq _ rfl)⟩
          | none =>
            simp only []
            rcases hub : updateBestState E s2 ib1 (placedBlock block ib) newOrders with ⟨e3, s3⟩
            rw [hub] at h3
            simp only at h3
            cases e3 with
            | some err =>
              left
              exact ⟨by simp, Extends.step h3 (hq _ rfl)⟩
            | none =>
              simp only []
              cases hd : E.shutdownDone with
              | some err =>
                left
                exact ⟨by simp, Extends.step (Extends.step h3 (hq _ rfl)) (hq _ rfl)⟩
              | none =>
                right
                obtain ⟨extra, he, hqq⟩ := h3
                refine ⟨newOrders, oldOrders, ib, tip, extra ++ [Call.shutdownDone], rfl, rfl,
                  ?_, ?_⟩
                · intro c hc
                  rcases List.mem_append.mp hc with hc | hc
                  · exact hqq c hc
                  · simp at hc
                    subst hc
                    exact hq _ rfl
                · rw [hconn]
                  unfold announcements
                  cases flags.BFP2PAdd <;> cases E.hasAcct <;>
                    simp [ChainState.call, notifyConnected_calls, he, announcements]


theorem notifiesUnderLock_plain_append (l r : List Call)
    (h : ∀ c ∈ l, c.isNotification = false ∧ c ≠ Call.ChainLock ∧ c ≠ Call.ChainUnlock) :
    ∀ held, notifiesUnderLock held (l ++ r) = notifiesUnderLock held r := by
  induction l with
  | nil => intro held; rfl
  | cons c rest ih =>
    have hc := h c (List.mem_cons_self _ _)
    have hrest := ih (fun d hd => h d (List.mem_cons_of_mem _ hd))
    intro held
    cases c <;>
      first
        | exact hrest held
        | exact absurd rfl hc.2.1
        | exact absurd rfl hc.2.2
        | exact absurd hc.1 (by simp [Call.isNotification])

theorem disconnectBlock_shape (E : Env) (s : ChainState) (ib : IBlock)
    (block : SerializedBlock) (view : UtxoViewpoint) (stxos : List SpentTxOut) :
    ((disconnectBlock E s ib block view stxos).1 ≠ none ∧
      Extends (fun c => c.isNotification = false) s
        (disconnectBlock E s ib block view stxos).2) ∨
    ((disconnectBlock E s ib block view stxos).1 = none ∧
      ∃ pre, (∀ c ∈ pre,
          c.isNotification = false ∧ c ≠ Call.ChainLock ∧ c ≠ Call.ChainUnlock) ∧
        (disconnectBlock E s ib block view stxos).2.calls =
          s.calls ++ (pre ++
            [Call.sendNotification (Notification.BlockDisconnected block)])) := by
  rcases hvm : E.vmDisconnectBlock block with err | vmbid
  · left
    simp only [disconnectBlock, hvm]
    exact ⟨by simp, Extends.step (Extends.refl _ _) rfl⟩
  cases hdb : E.dbPutUtxoView view with
  | some err =>
    left
    simp only [disconnectBlock, hvm, hdb]
    exact ⟨by simp, Extends.step (Extends.step (Extends.refl _ _) rfl) rfl⟩
  | none =>
    cases hrm : E.DBRemoveSpendJournalEntry block.hash with
    | some err =>
      left
      simp only [disconnectBlock, hvm, hdb, hrm]
      refine ⟨by simp, ?_⟩
      refine Extends.step (Extends.step (Extends.step (Extends.refl _ _) ?_) ?_) ?_ <;> rfl
    | none =>
      cases hi : E.hasIndexManager with
      | false =>
        right
        simp only [disconnectBlock, hvm, hdb, hrm, hi]
        refine ⟨by simp, [Call.vmDisconnectBlock block.hash, Call.dbPutUtxoView,
          Call.DBRemoveSpendJournalEntry block.hash, Call.viewCommit], ?_, ?_⟩
        · simp [Call.isNotification]
        · simp [ChainState.call]
      | true =>
        cases hidx : E.indexDisconnectBlock block (stxos.map (fun stxo => stxo.PkScript)) ib
            vmbid with
        | some err =>
          left
          simp only [disconnectBlock, hvm, hdb, hrm, hi, hidx]
          refine ⟨by simp, ?_⟩
          refine Extends.step (Extends.step (Extends.step (Extends.step (Extends.refl _ _)
            ?_) ?_) ?_) ?_ <;> rfl
        | none =>
          right
          simp only [disconnectBlock, hvm, hdb, hrm, hi, hidx]
          refine ⟨by simp, [Call.vmDisconnectBlock block.hash, Call.dbPutUtxoView,
            Call.DBRemoveSpendJournalEntry block.hash,
            Call.indexDisconnectBlock block.hash (stxos.map (fun stxo => stxo.PkScript))
              ib.id vmbid,
            Call.viewCommit], ?_, ?_⟩
          · simp [Call.isNotification]
          · simp [ChainState.call]

/-- C15, as stated, fails: when the oracle removes a block from the order,
the reorganize disconnects it and `disconnectBlock` sends `BlockDisconnected`
for it (line 497), so the notifications of the successful run are not only
the `BlockConnected` and the `BlockAccepted` ones. -/
theorem maybeAcceptBlock_notifications_counterexample :
    ¬ ∀ (E : Env) (s : ChainState) (block : SerializedBlock) (flags : BehaviorFlags),
        (maybeAcceptBlock E s block flags).1 = Ret.returned none →
        ∃ newOrders oldOrders ib tip extra,
          E.AddBlock block = (newOrders, oldOrders, some ib, tip) ∧
          (maybeAcceptBlock E s block flags).2.calls = s.calls ++ extra ∧
          sentNotifications extra =
            (connectedBlocksOf E s block newOrders oldOrders ib).map
                (fun e => Notification.BlockConnected e.1 e.2) ++
              [Notification.BlockAccepted (placedBlock block ib) tip flags] := by
  intro h
  obtain ⟨newOrders, oldOrders, ib, tip, extra, -, hcalls, hsent⟩ :=
    h reorgEnv sampleState sampleBlock noFlags rfl
  have hextra : extra = (maybeAcceptBlock reorgEnv sampleState sampleBlock noFlags).2.calls := by
    rw [hcalls]
    rfl
  have hmem : Notification.BlockDisconnected otherBlock ∈ sentNotifications extra := by
    rw [hextra]
    decide
  rw [hsent] at hmem
  simp at hmem

/-- C15, amended. On every successful `maybeAcceptBlock` the calls split at a
`ChainUnlock`. The notifications after it are, in this order: one
`BlockConnected` for each element of the connected-blocks list that
`connectDagChain` left, in list order, and then one `BlockAccepted` that
carries the admitted block, the tip-changed flag returned by the oracle's
`AddBlock` and the flags of the caller. The notifications before it are
`BlockDisconnected` notifications only, and there is none when the admission
is not a reorganize. -/
theorem maybeAcceptBlock_notifications (E : Env) (s : ChainState) (block : SerializedBlock)
    (flags : BehaviorFlags)
    (hok : (maybeAcceptBlock E s block flags).1 = Ret.returned none) :
    ∃ newOrders oldOrders ib tip pre post,
      E.AddBlock block = (newOrders, oldOrders, some ib, tip) ∧
      (maybeAcceptBlock E s block flags).2.calls =
        s.calls ++ (pre ++ Call.ChainUnlock :: post) ∧
      sentNotifications post =
        (connectedBlocksOf E s block newOrders oldOrders ib).map
            (fun e => Notification.BlockConnected e.1 e.2) ++
          [Notification.BlockAccepted (placedBlock block ib) tip flags] ∧
      (∀ n ∈ sentNotifications pre, ∃ b, n = Notification.BlockDisconnected b) ∧
      (reorganizes E block = false → sentNotifications pre = []) := by
  rcases maybeAcceptBlock_shape E s block flags with
    ⟨hne, -⟩ | ⟨newOrders, oldOrders, ib, tip, pre, hadd, -, hq, hcalls⟩
  · exact absurd hok hne
  · refine ⟨newOrders, oldOrders, ib, tip, pre, _, hadd, hcalls,
      sentNotifications_announcements E (placedBlock block ib) tip flags _, ?_, ?_⟩
    · intro n hn
      have ha := (hq _ (mem_sentNotifications n pre hn)).1
      cases n with
      | BlockDisconnected b => exact ⟨b, rfl⟩
      | BlockAccepted b t f => simp [Call.announces] at ha
      | BlockConnected b m => simp [Call.announces] at ha
    · intro hR
      exact sentNotifications_quiet pre (fun c hc => (hq c hc).2 hR)

/-- Witness of C15 amended: the sample block accepted with the sample
collaborators. -/
theorem maybeAcceptBlock_notifications_witness :
    ∃ newOrders oldOrders ib tip pre post,
      sampleEnv.AddBlock sampleBlock = (newOrders, oldOrders, some ib, tip) ∧
      (maybeAcceptBlock sampleEnv sampleState sampleBlock noFlags).2.calls =
        sampleState.calls ++ (pre ++ Call.ChainUnlock :: post) ∧
      sentNotifications post =
        (connectedBlocksOf sampleEnv sampleState sampleBlock newOrders oldOrders ib).map
            (fun e => Notification.BlockConnected e.1 e.2) ++
          [Notification.BlockAccepted (placedBlock sampleBlock ib) tip noFlags] ∧
      (∀ n ∈ sentNotifications pre, ∃ b, n = Notification.BlockDisconnected b) ∧
      (reorganizes sampleEnv sampleBlock = false → sentNotifications pre = []) :=
  maybeAcceptBlock_notifications sampleEnv sampleState sampleBlock noFlags rfl

/-- C16, as stated, fails: `disconnectBlock`, run with the chain lock held as
its contract demands, calls `sendNotification` for `BlockDisconnected` before
any `ChainUnlock`. -/
theorem acceptance_notifications_counterexample :
    ¬ ∀ (E : Env) (s : ChainState) (ib : IBlock) (block : SerializedBlock)
        (flags : BehaviorFlags) (view : UtxoViewpoint) (stxos : List SpentTxOut),
        (∀ extra, (maybeAcceptBlock E s block flags).2.calls = s.calls ++ extra →
          notifiesUnderLock false extra = false) ∧
        (∀ extra, (disconnectBlock E s ib block view stxos).2.calls = s.calls ++ extra →
          notifiesUnderLock true extra = false) := by
  intro h
  have h2 := (h sampleEnv lockedState sampleNode sampleBlock noFlags UtxoViewpoint.empty []).2
    [Call.vmDisconnectBlock sampleBlock.hash, Call.dbPutUtxoView,
      Call.DBRemoveSpendJournalEntry sampleBlock.hash,
          Call.indexDisconnectBlock sampleBlock.hash [] sampleNode.id 0, Call.viewCommit,
      Call.sendNotification (Notification.BlockDisconnected sampleBlock)] rfl
  exact absurd h2 (by decide)

/-- C16, amended. The notifications that `maybeAcceptBlock` itself sends are
dispatched only after the exclusive lock is released: in every execution of
`maybeAcceptBlock`, none of its own `sendNotification` calls (`BlockAccepted`,
`BlockConnected`) occurs between `ChainLock` and `ChainUnlock`, and when the
admission is not a reorganize no `sendNotification` at all occurs there.
`disconnectBlock`, which runs with the lock held, sends no notification when
it fails, and when it succeeds its last call is the one `sendNotification`
for `BlockDisconnected` of the block, made without any `ChainUnlock` before
it, hence while the lock is held. -/
theorem acceptance_notifications (E : Env) (s : ChainState) (ib : IBlock)
    (block : SerializedBlock) (flags : BehaviorFlags) (view : UtxoViewpoint)
    (stxos : List SpentTxOut) :
    (∀ held extra, (maybeAcceptBlock E s block flags).2.calls = s.calls ++ extra →
      announcesUnderLock held extra = false ∧
        (reorganizes E block = false → notifiesUnderLock held extra = false)) ∧
    (∀ extra, (disconnectBlock E s ib block view stxos).2.calls = s.calls ++ extra →
      ((disconnectBlock E s ib block view stxos).1 = none →
        sentNotifications extra = [Notification.BlockDisconnected block] ∧
          extra.getLast? =
            some (Call.sendNotification (Notification.BlockDisconnected block)) ∧
          notifiesUnderLock true extra = true) ∧
      ((disconnectBlock E s ib block view stxos).1 ≠ none →
        sentNotifications extra = [])) := by
  constructor
  · intro held extra hextra
    rcases maybeAcceptBlock_shape E s block flags with
      ⟨-, e, he, hq⟩ | ⟨newOrders, oldOrders, ib, tip, pre, -, -, hq, hcalls⟩
    · rw [he] at hextra
      rw [← List.append_cancel_left hextra]
      exact ⟨announcesUnderLock_quiet e (fun c hc => (hq c hc).1) held,
        fun hR => notifiesUnderLock_quiet e (fun c hc => (hq c hc).2 hR) held⟩
    · rw [hcalls] at hextra
      rw [← List.append_cancel_left hextra]
      constructor
      · rw [announcesUnderLock_quiet_unlock pre _ (fun c hc => (hq c hc).1) held]
        exact announcesUnderLock_unlocked _ (announcements_unlocked E _ tip flags _)
      · intro hR
        rw [notifiesUnderLock_quiet_unlock pre _ (fun c hc => (hq c hc).2 hR) held]
        exact notifiesUnderLock_unlocked _ (announcements_unlocked E _ tip flags _)
  · intro extra hextra
    rcases disconnectBlock_shape E s ib block view stxos with
      ⟨hne, e, he, hq⟩ | ⟨hnone, pre, hq, hcalls⟩
    · rw [he] at hextra
      rw [← List.append_cancel_left hextra]
      exact ⟨fun h => absurd h hne, fun _ => sentNotifications_quiet e hq⟩
    · rw [hcalls] at hextra
      rw [← List.append_cancel_left hextra]
      refine ⟨fun _ => ⟨?_, ?_, ?_⟩, fun h => absurd hnone h⟩
      · rw [sentNotifications_quiet_append pre _ (fun c hc => (hq c hc).1)]
        rfl
      · simp
      · rw [notifiesUnderLock_plain_append pre _ hq true]
        rfl

/-- Witness of C16 amended: the sample block disconnected with the lock held. -/
theorem acceptance_notifications_witness :
    sentNotifications
        [Call.vmDisconnectBlock sampleBlock.hash, Call.dbPutUtxoView,
          Call.DBRemoveSpendJournalEntry sampleBlock.hash,
          Call.indexDisconnectBlock sampleBlock.hash [] sampleNode.id 0, Call.viewCommit,
          Call.sendNotification (Notification.BlockDisconnected sampleBlock)] =
        [Notification.BlockDisconnected sampleBlock] ∧
      notifiesUnderLock true
        [Call.vmDisconnectBlock sampleBlock.hash, Call.dbPutUtxoView,
          Call.DBRemoveSpendJournalEntry sampleBlock.hash,
          Call.indexDisconnectBlock sampleBlock.hash [] sampleNode.id 0, Call.viewCommit,
          Call.sendNotification (Notification.BlockDisconnected sampleBlock)] = true :=
  ⟨(((acceptance_notifications sampleEnv lockedState sampleNode sampleBlock noFlags
      UtxoViewpoint.empty []).2 _ rfl).1 rfl).1,
    (((acceptance_notifications sampleEnv lockedState sampleNode sampleBlock noFlags
      UtxoViewpoint.empty []).2 _ rfl).1 rfl).2.2⟩


/-! ### The block-batch file (C19) -/

theorem PutUint32_length (o : ByteOrder) (v : Nat) : (o.PutUint32 v).length = 4 := by
  cases o <;> rfl

theorem Uint32_PutUint32 (o : ByteOrder) (v : Nat) (tail : List Nat) (hv : v < 4294967296) :
    o.Uint32 { backing := o.PutUint32 v ++ tail, len := 4 } = some v := by
  cases o <;> simp [ByteOrder.Uint32, ByteOrder.PutUint32] <;> omega

theorem sliceFrom_fileSlice (pre x slack : List Nat) :
    (fileSlice (pre ++ x) slack).sliceFrom pre.length = some (fileSlice x slack) := by
  simp [ByteSlice.sliceFrom, fileSlice]

theorem Decode_record (o : ByteOrder) (K : BlockSource) (b0 : IBDBlock) (b x slack : List Nat)
    (hb : b.length < 4294967292) :
    IBDBlock.Decode o K b0 (fileSlice (o.PutUint32 b.length ++ b ++ x) slack) =
      match K.NewBlockFromBytes b with
      | Except.error err => (Ret.returned (some err, { b0 with length := b.length }), [b])
      | Except.ok block =>
        (Ret.returned (none, { b0 with length := b.length, blk := some block }), [b]) := by
  have h4 : (o.PutUint32 b.length).length = 4 := PutUint32_length o _
  have hhead : (fileSlice (o.PutUint32 b.length ++ b ++ x) slack).slice 0 4 =
      some { backing := o.PutUint32 b.length ++ (b ++ x ++ slack), len := 4 } := by
    simp [ByteSlice.slice, fileSlice, ByteSlice.cap, h4]
  have hu : uint32 (b.length + 4) = b.length + 4 := by
    unfold uint32
    omega
  have hpay : (fileSlice (o.PutUint32 b.length ++ b ++ x) slack).slice 4 (b.length + 4) =
      some { backing := b ++ x ++ slack, len := b.length } := by
    have hd : List.drop 4 (o.PutUint32 b.length ++ (b ++ (x ++ slack))) = b ++ (x ++ slack) := by
      rw [← h4]
      exact List.drop_left _ _
    simp [ByteSlice.slice, fileSlice, ByteSlice.cap, h4, hd]
    omega
  have hbytes : ({ backing := b ++ x ++ slack, len := b.length } : ByteSlice).bytes = b := by
    simp [ByteSlice.bytes]
  unfold IBDBlock.Decode
  rw [hhead]
  simp only [Uint32_PutUint32 o b.length _ (by omega), hu, hpay, hbytes]

theorem importLoop_records (o : ByteOrder) (K : BlockSource) (E : Env) (maxOrder : Nat)
    (hmax : maxOrder < 4294967295) (slack : List Nat) :
    ∀ (bs : List (List Nat)) (pre : List Nat) (fuel i : Nat) (handed : List (List Nat))
      (s : ChainState),
      (∀ b ∈ bs, b.length < 4294967292) →
      i + bs.length = maxOrder + 1 →
      bs.length < fuel →
      (importLoop o K E
          (fileSlice (pre ++ (bs.map (fun b => o.PutUint32 b.length ++ b)).flatten) slack)
          maxOrder fuel i pre.length handed s) =
        feedBlocks K E bs handed s := by
  intro bs
  induction bs with
  | nil =>
    intro pre fuel i handed s _ hi hfuel
    cases fuel with
    | zero => simp at hfuel
    | succ f =>
      have hni : ¬ i ≤ maxOrder := by simp at hi; omega
      simp [importLoop, feedBlocks, hni]
  | cons b rest ih =>
    intro pre fuel i handed s hlen hi hfuel
    cases fuel with
    | zero => simp at hfuel
    | succ f =>
      have hile : i ≤ maxOrder := by simp at hi; omega
      have hb : b.length < 4294967292 := hlen b (List.mem_cons_self _ _)
      have hnext : uint32 (i + 1) = i + 1 := by
        unfold uint32
        omega
      have hrest := ih (pre ++ (o.PutUint32 b.length ++ b)) f (i + 1) (handed ++ [b])
      have hoff : (pre ++ (o.PutUint32 b.length ++ b)).length = pre.length + (4 + b.length) := by
        simp [PutUint32_length]
      rw [hoff] at hrest
      have hfile : pre ++ ((b :: rest).map (fun b => o.PutUint32 b.length ++ b)).flatten =
          pre ++ (o.PutUint32 b.length ++ b) ++
            (rest.map (fun b => o.PutUint32 b.length ++ b)).flatten := by
        simp
      have hslice : (fileSlice (pre ++ ((b :: rest).map
          (fun b => o.PutUint32 b.length ++ b)).flatten) slack).sliceFrom pre.length =
          some (fileSlice (o.PutUint32 b.length ++ b ++
            (rest.map (fun b => o.PutUint32 b.length ++ b)).flatten) slack) := by
        rw [← sliceFrom_fileSlice pre _ slack]
        simp
      unfold importLoop feedBlocks
      rw [if_pos hile, hslice]
      simp only []
      rw [Decode_record o K _ b _ slack hb, hfile]
      cases hparse : K.NewBlockFromBytes b with
      | error err => rfl
      | ok blk =>
        simp only []
        cases hsane : E.checkBlockSanity blk importFlags with
        | some err => rfl
        | none =>
          simp only []
          rcases hacc : FastAcceptBlock E s blk importFlags with ⟨r, s1⟩
          cases r with
          | panicked m => rfl
          | returned e =>
            cases e with
            | some err => rfl
            | none =>
              simp only [hnext]
              exact hrest s1 (fun c hc => hlen c (List.mem_cons_of_mem _ hc))
                (by simp at hi ⊢; omega) (by simp at hfuel; omega)

theorem exportLoop_all (o : ByteOrder) (K : BlockSource) (content : Nat → List Nat) :
    ∀ (bhs : List Nat) (out : List Nat),
      (∀ h ∈ bhs, ∃ blk, K.FetchBlockByHash h = Except.ok blk ∧
        K.Bytes blk = Except.ok (content h)) →
      (∀ h ∈ bhs, (content h).length < 4294967292) →
      exportLoop o K bhs out =
        (none, out ++ ((bhs.map content).map (fun b => o.PutUint32 b.length ++ b)).flatten) := by
  intro bhs
  induction bhs with
  | nil => intro out _ _; simp [exportLoop]
  | cons h rest ih =>
    intro out hfetch hlen
    obtain ⟨blk, h1, h2⟩ := hfetch h (List.mem_cons_self _ _)
    have hl := hlen h (List.mem_cons_self _ _)
    have hu : uint32 (content h).length = (content h).length := by
      unfold uint32
      omega
    unfold exportLoop
    simp only [h1, h2, hu, IBDBlock.Encode]
    rw [ih _ (fun g hg => hfetch g (List.mem_cons_of_mem _ hg))
      (fun g hg => hlen g (List.mem_cons_of_mem _ hg))]
    simp

theorem feedBlocks_handed (K : BlockSource) (E : Env) :
    ∀ (bs : List (List Nat)) (handed : List (List Nat)) (s : ChainState),
      ∃ t, List.IsPrefix t bs ∧ (feedBlocks K E bs handed s).handed = handed ++ t ∧
        (feedBlocks K E bs handed s).outcome ≠ none ∧
        ((feedBlocks K E bs handed s).outcome = some (Ret.returned none) → t = bs) := by
  intro bs
  induction bs with
  | nil =>
    intro handed s
    exact ⟨[], List.prefix_refl _, by simp [feedBlocks], by simp [feedBlocks], fun _ => rfl⟩
  | cons b rest ih =>
    intro handed s
    have hstop : List.IsPrefix [b] (b :: rest) := ⟨rest, rfl⟩
    unfold feedBlocks
    cases K.NewBlockFromBytes b with
    | error err => exact ⟨[b], hstop, rfl, by simp, by simp⟩
    | ok blk =>
      simp only []
      cases E.checkBlockSanity blk importFlags with
      | some err => exact ⟨[b], hstop, rfl, by simp, by simp⟩
      | none =>
        simp only []
        rcases FastAcceptBlock E s blk importFlags with ⟨r, s1⟩
        cases r with
        | panicked m => exact ⟨[b], hstop, rfl, by simp, by simp⟩
        | returned e =>
          cases e with
          | some err => exact ⟨[b], hstop, rfl, by simp, by simp⟩
          | none =>
            obtain ⟨t, ht, hh, hsome, hall⟩ := ih (handed ++ [b]) s1
            refine ⟨b :: t, ?_, ?_, hsome, ?_⟩
            · obtain ⟨u, hu⟩ := ht
              exact ⟨u, by simp [hu]⟩
            · simp only [hh]
              simp
            · intro hok
              rw [hall hok]


/-- C19. Block-batch framing round trip. When every block of the list `bhs`
is fetched and serialized, there are fewer than `2 ^ 32 - 1` of them and each
serialization is shorter than `2 ^ 32 - 4` bytes, `exportBlockChain` writes
the 4-byte count header, which decodes to the number of records, followed for
each block, in order, by its 4-byte length and exactly its bytes. Reading that
file on an empty database, whatever follows it in the backing array,
`importBlockChain` with more fuel than there are records does exactly what
feeding the original byte strings in order does: every byte string it hands
to the block parser is the one that was written, in the same order, up to
the first block that is refused, and all of them when it returns no error. -/
theorem batch_roundtrip (o : ByteOrder) (K : BlockSource) (E : Env) (s : ChainState)
    (bhs : List Nat) (content : Nat → List Nat) (slack : List Nat) (fuel : Nat)
    (hfetch : ∀ h ∈ bhs, ∃ blk, K.FetchBlockByHash h = Except.ok blk ∧
      K.Bytes blk = Except.ok (content h))
    (hcount : bhs.length < 4294967295)
    (hlen : ∀ h ∈ bhs, (content h).length < 4294967292)
    (hempty : E.GetMainChainTip.order = 0)
    (hfuel : bhs.length < fuel) :
    exportBlockChain o K bhs = (none, batchFile o (bhs.map content)) ∧
    o.Uint32 (fileSlice ((batchFile o (bhs.map content)).take 4) []) = some bhs.length ∧
    (importBlockChain o K E s
      (Except.ok (fileSlice (batchFile o (bhs.map content)) slack)) fuel) =
      feedBlocks K E (bhs.map content) [] s ∧
    (importBlockChain o K E s
      (Except.ok (fileSlice (batchFile o (bhs.map content)) slack)) fuel).outcome ≠ none ∧
    List.IsPrefix
      (importBlockChain o K E s
        (Except.ok (fileSlice (batchFile o (bhs.map content)) slack)) fuel).handed
      (bhs.map content) ∧
    ((importBlockChain o K E s
        (Except.ok (fileSlice (batchFile o (bhs.map content)) slack)) fuel).outcome =
        some (Ret.returned none) →
      (importBlockChain o K E s
        (Except.ok (fileSlice (batchFile o (bhs.map content)) slack)) fuel).handed =
        bhs.map content) := by
  have h4 : (o.PutUint32 bhs.length).length = 4 := PutUint32_length o _
  have hu : uint32 bhs.length = bhs.length := by
    unfold uint32
    omega
  have hexport : exportBlockChain o K bhs = (none, batchFile o (bhs.map content)) := by
    unfold exportBlockChain batchFile
    rw [exportLoop_all o K content bhs _ hfetch hlen, hu]
    simp
  have hheader : o.Uint32 (fileSlice ((batchFile o (bhs.map content)).take 4) []) =
      some bhs.length := by
    have htake : (batchFile o (bhs.map content)).take 4 = o.PutUint32 bhs.length := by
      unfold batchFile
      rw [List.length_map, ← h4]
      exact List.take_left _ _
    rw [htake]
    have := Uint32_PutUint32 o bhs.length [] (by omega)
    simpa [fileSlice, h4] using this
  have himport : importBlockChain o K E s
      (Except.ok (fileSlice (batchFile o (bhs.map content)) slack)) fuel =
      feedBlocks K E (bhs.map content) [] s := by
    have hhead : (fileSlice (batchFile o (bhs.map content)) slack).slice 0 4 =
        some {
          backing := o.PutUint32 bhs.length ++
            (((bhs.map content).map (fun b => o.PutUint32 b.length ++ b)).flatten ++ slack),
          len := 4 } := by
      simp [ByteSlice.slice, fileSlice, ByteSlice.cap, batchFile, h4]
    have hloop := importLoop_records o K E bhs.length hcount slack (bhs.map content)
      (o.PutUint32 bhs.length) fuel 1 [] s
      (by
        intro b hb
        obtain ⟨h, hh, rfl⟩ := List.mem_map.mp hb
        exact hlen h hh)
      (by simp; omega) (by simpa using hfuel)
    rw [h4] at hloop
    unfold importBlockChain
    rw [if_neg (by omega)]
    simp only [hhead, Uint32_PutUint32 o bhs.length _ (by omega)]
    simpa [batchFile] using hloop
  obtain ⟨t, ht, hh, hsome, hall⟩ := feedBlocks_handed K E (bhs.map content) [] s
  rw [himport]
  refine ⟨hexport, hheader, rfl, hsome, ?_, ?_⟩
  · rw [hh]
    simpa using ht
  · intro hok
    rw [hh, hall hok]
    simp

/-- Witness of C19: one block exported and read back, with one stray byte
after the file. -/
theorem batch_roundtrip_witness :
    exportBlockChain ByteOrder.LittleEndian sampleSource [77] =
        (none, [1, 0, 0, 0, 3, 0, 0, 0, 77, 1, 2]) ∧
      (importBlockChain ByteOrder.LittleEndian sampleSource emptyChainEnv sampleState
        (Except.ok (fileSlice [1, 0, 0, 0, 3, 0, 0, 0, 77, 1, 2] [9])) 2).handed =
        [[77, 1, 2]] :=
  ⟨(batch_roundtrip ByteOrder.LittleEndian sampleSource emptyChainEnv sampleState [77]
      (fun h => [h % 256, 1, 2]) [9] 2 (fun h hh => ⟨_, rfl, rfl⟩) (by decide)
      (fun h hh => by simp) rfl (by decide)).1,
    (batch_roundtrip ByteOrder.LittleEndian sampleSource emptyChainEnv sampleState [77]
      (fun h => [h % 256, 1, 2]) [9] 2 (fun h hh => ⟨_, rfl, rfl⟩) (by decide)
      (fun h hh => by simp) rfl (by decide)).2.2.2.2.2 rfl⟩


/-! ### The test network's proof-of-work limit (C21) -/

theorem byteLengthFrom_zero (fuel : Nat) : byteLengthFrom fuel 0 = 0 := by
  cases fuel <;> simp [byteLengthFrom]

theorem byteLengthFrom_spec :
    ∀ (fuel n : Nat), n ≤ fuel →
      n < 256 ^ byteLengthFrom fuel n ∧
        (n ≠ 0 → 256 ^ (byteLengthFrom fuel n - 1) ≤ n) := by
  intro fuel
  induction fuel with
  | zero =>
    intro n hn
    have h0 : n = 0 := by omega
    subst h0
    simp [byteLengthFrom]
  | succ fuel ih =>
    intro n hn
    by_cases h0 : n = 0
    · subst h0
      simp [byteLengthFrom]
    · simp only [byteLengthFrom, if_neg h0]
      obtain ⟨hlt, hge⟩ := ih (n / 256) (by omega)
      constructor
      · rw [pow_succ]
        omega
      · intro _
        simp only [Nat.add_sub_cancel]
        by_cases hq : n / 256 = 0
        · rw [hq, byteLengthFrom_zero]
          simp
          omega
        · have hpos : 1 ≤ byteLengthFrom fuel (n / 256) := by
            by_contra hc
            have hz : byteLengthFrom fuel (n / 256) = 0 := by omega
            rw [hz] at hlt
            simp at hlt
            exact hq hlt
          have h1 := hge hq
          have hpow : 256 ^ byteLengthFrom fuel (n / 256) =
              256 ^ (byteLengthFrom fuel (n / 256) - 1) * 256 := by
            rw [← pow_succ]
            congr 1
            omega
          rw [hpow]
          omega

theorem byteLength_spec (n : Nat) (hn : n ≠ 0) :
    256 ^ (byteLength n - 1) ≤ n ∧ n < 256 ^ byteLength n :=
  ⟨(byteLengthFrom_spec n n (Nat.le_refl n)).2 hn, (byteLengthFrom_spec n n (Nat.le_refl n)).1⟩

/-- C21. The limit `testNetPowLimit` is `2 ^ 242 - 1`, and its compact form is
`0x1f03ffff`; the configured `MeerXKeccakV1PowLimitBits` is `0x1f0198f2`, which
is the compact form of the smaller number `0x0198f2 * 2 ^ 224` and not of the
limit. -/
theorem testNetPowLimit_compact :
    testNetPowLimit = 2 ^ 242 - 1 ∧
    TestNetParams.PowConfig.MeerXKeccakV1PowLimit = testNetPowLimit ∧
    BigToCompact testNetPowLimit = 0x1f03ffff ∧
    TestNetParams.PowConfig.MeerXKeccakV1PowLimitBits = 0x1f0198f2 ∧
    BigToCompact testNetPowLimit ≠ TestNetParams.PowConfig.MeerXKeccakV1PowLimitBits ∧
    CompactToBig TestNetParams.PowConfig.MeerXKeccakV1PowLimitBits =
      ((0x0198f2 * 2 ^ 224 : Nat) : Int) ∧
    BigToCompact (CompactToBig TestNetParams.PowConfig.MeerXKeccakV1PowLimitBits) =
      0x1f0198f2 ∧
    CompactToBig TestNetParams.PowConfig.MeerXKeccakV1PowLimitBits < testNetPowLimit := by
  refine ⟨?_, rfl, ?_, rfl, ?_, ?_, ?_, ?_⟩
  · norm_num [testNetPowLimit, Lsh, Big1]
  · decide
  · decide
  · decide
  · decide
  · decide

/-! ### A block left out of the order (C25) -/

/-- C25. When the oracle reports the new block's node as the only newly
ordered node and no node removed from the order, and the node is not ordered,
`connectDagChain` returns `(true, nil)` and does nothing else: it makes no call
(no `checkConnectBlock`, no `connectBlock`, no write of the UTXO set or the
journal, no `ValidBlock` or `InvalidBlock`), the node keeps its status and the
connected-blocks list is the one it was given. -/
theorem connectDagChain_unordered (E : Env) (s : ChainState) (ib : IBlock)
    (block : SerializedBlock) (connectedBlocks : List (SerializedBlock × Bool))
    (hord : ib.IsOrdered = false) :
    connectDagChain E s ib block [ib] [] connectedBlocks =
      (((true, none), ib, connectedBlocks), s) := by
  simp [connectDagChain, isSimpleExtend, newOr, hord]

/-- Witness of C25: the sample block when its node is not ordered. -/
theorem connectDagChain_unordered_witness :
    connectDagChain sampleEnv sampleState { sampleNode with IsOrdered := false } sampleBlock
        [{ sampleNode with IsOrdered := false }] [] [] =
      (((true, none), { sampleNode with IsOrdered := false }, []), sampleState) :=
  connectDagChain_unordered sampleEnv sampleState { sampleNode with IsOrdered := false }
    sampleBlock [] rfl

/-! ### Storing the block body (C26) -/

/-- C26. The store transaction of `maybeAcceptBlock`: when the block store
already has the block's hash it succeeds without calling the store; when the
store call succeeds, or fails with an error that is `ErrBlockExists`, it
succeeds; an error of the existence check, and any other error of the store
call, is the error of the transaction. -/
theorem storeBlock_idempotent (E : Env) (s : ChainState) (block : SerializedBlock) :
    (E.dbHasBlock block.hash = Except.ok true → storeBlock E s block = (none, s)) ∧
    (∀ err, E.dbHasBlock block.hash = Except.error err →
      storeBlock E s block = (some err, s)) ∧
    (E.dbHasBlock block.hash = Except.ok false → E.dbMaybeStoreBlock block = none →
      storeBlock E s block = (none, s.call (Call.dbMaybeStoreBlock block.hash))) ∧
    (∀ err, E.dbHasBlock block.hash = Except.ok false →
      E.dbMaybeStoreBlock block = some err → E.IsErrBlockExists err = true →
      storeBlock E s block = (none, s.call (Call.dbMaybeStoreBlock block.hash))) ∧
    (∀ err, E.dbHasBlock block.hash = Except.ok false →
      E.dbMaybeStoreBlock block = some err → E.IsErrBlockExists err = false →
      storeBlock E s block = (some err, s.call (Call.dbMaybeStoreBlock block.hash))) := by
  refine ⟨?_, ?_, ?_, ?_, ?_⟩
  · intro h
    simp [storeBlock, h]
  · intro err h
    simp [storeBlock, h]
  · intro h1 h2
    simp [storeBlock, h1, h2]
  · intro err h1 h2 h3
    simp [storeBlock, h1, h2, h3]
  · intro err h1 h2 h3
    simp [storeBlock, h1, h2, h3]

/-- Witness of C26: the sample block when the store already holds it, and
when the store call reports that the block exists. -/
theorem storeBlock_idempotent_witness :
    storeBlock { sampleEnv with dbHasBlock := fun _ => Except.ok true } sampleState sampleBlock =
        (none, sampleState) ∧
      storeBlock
          { sampleEnv with
            dbMaybeStoreBlock := fun _ => some (Error.Plain "block exists")
            IsErrBlockExists := fun _ => true }
          sampleState sampleBlock =
        (none, sampleState.call (Call.dbMaybeStoreBlock sampleBlock.hash)) :=
  ⟨(storeBlock_idempotent { sampleEnv with dbHasBlock := fun _ => Except.ok true } sampleState
      sampleBlock).1 rfl,
    (storeBlock_idempotent
      { sampleEnv with
        dbMaybeStoreBlock := fun _ => some (Error.Plain "block exists")
        IsErrBlockExists := fun _ => true }
      sampleState sampleBlock).2.2.2.1 (Error.Plain "block exists") rfl rfl rfl⟩


/-! ### Fast-add and the checkpoint checks (C30) -/

theorem orphanScan_no_error (E : Env) (block : SerializedBlock) :
    ∀ (parents : List Nat) (s : ChainState), (orphanScan E block parents s).1.2 = none := by
  intro parents
  induction parents with
  | nil => intro s; rfl
  | cons p rest ih =>
    intro s
    unfold orphanScan
    split
    · rfl
    · exact ih s

/-- C30, as stated, fails: with fast-add, a block the DAG already holds, with
a timestamp before the previous checkpoint, is answered with
`ErrDuplicateBlock`, not with `ErrCheckpointTimeTooOld`. -/
theorem preProcessBlock_fastAdd_counterexample :
    ¬ ∀ (E : Env) (s : ChainState) (block : SerializedBlock) (flags : BehaviorFlags)
        (checkpoint : Option IBlock) (checkpointNode : BlockNode),
        E.findPreviousCheckpoint = Except.ok checkpoint →
        E.GetBlockNode checkpoint = some checkpointNode →
        block.Timestamp < checkpointNode.timestamp →
        ∃ msg, (preProcessBlock E s block flags).1.2 =
          some (Error.RuleError ErrorCode.ErrCheckpointTimeTooOld msg) := by
  intro h
  obtain ⟨msg, hm⟩ := h knownBlockEnv sampleState sampleBlock fastFlags _
    { timestamp := 100, difficulty := 0, powType := 0 } rfl rfl (by decide)
  have h2 : (preProcessBlock knownBlockEnv sampleState sampleBlock fastFlags).1.2 =
      some (Error.RuleError ErrorCode.ErrDuplicateBlock "already have block") := rfl
  rw [h2] at hm
  simp at hm

/-- C30, amended. The fast-add flag suppresses only the difficulty-floor check
in `preProcessBlock`. For every block that is neither in the DAG nor in the
orphan pool, that passes the sanity check and for which the previous
checkpoint is found, with or without fast-add: if the checkpoint node exists
and the block's timestamp is before the checkpoint's time, the call fails with
`ErrCheckpointTimeTooOld`. With fast-add set the call does not fail with
`ErrDifficultyTooLow`, unless that is the very error that `checkBlockSanity`
or `findPreviousCheckpoint` returned. -/
theorem preProcessBlock_fastAdd (E : Env) (s : ChainState) (block : SerializedBlock)
    (flags : BehaviorFlags) :
    (∀ (checkpoint : Option IBlock) (checkpointNode : BlockNode),
      E.HasBlock block.hash = false →
      s.IsOrphan block.hash = false →
      E.checkBlockSanity block flags = none →
      E.findPreviousCheckpoint = Except.ok checkpoint →
      E.GetBlockNode checkpoint = some checkpointNode →
      block.Timestamp < checkpointNode.timestamp →
      ∃ msg, preProcessBlock E s block flags =
        ((false, some (Error.RuleError ErrorCode.ErrCheckpointTimeTooOld msg)),
          { s with calls := s.calls ++ [Call.ChainRLock, Call.ChainRUnlock] })) ∧
    (flags.BFFastAdd = true → ∀ msg,
      (preProcessBlock E s block flags).1.2 =
        some (Error.RuleError ErrorCode.ErrDifficultyTooLow msg) →
      E.checkBlockSanity block flags =
          some (Error.RuleError ErrorCode.ErrDifficultyTooLow msg) ∨
        E.findPreviousCheckpoint =
          Except.error (Error.RuleError ErrorCode.ErrDifficultyTooLow msg)) := by
  constructor
  · intro checkpoint checkpointNode hdag horphan hsane hfind hnode hold
    have hchk : checkpointChecks E block flags.BFFastAdd checkpoint =
        some (ruleError ErrorCode.ErrCheckpointTimeTooOld
          "block has timestamp before last checkpoint timestamp") := by
      simp [checkpointChecks, hnode, hold]
    refine ⟨"block has timestamp before last checkpoint timestamp", ?_⟩
    simp [preProcessBlock, hdag, horphan, hsane, hfind, hchk, ruleError]
    simp [ChainState.call]
  · intro hfast msg herr
    unfold preProcessBlock at herr
    simp only [] at herr
    cases hdag : E.HasBlock block.hash with
    | true => simp [hdag, ruleError] at herr
    | false =>
      cases horphan : (s.call Call.ChainRLock).IsOrphan block.hash with
      | true => simp [hdag, horphan, ruleError] at herr
      | false =>
        cases hsane : E.checkBlockSanity block flags with
        | some err =>
          left
          simpa [hdag, horphan, hsane] using herr
        | none =>
          cases hfind : E.findPreviousCheckpoint with
          | error err =>
            right
            simpa [hdag, horphan, hsane, hfind] using herr
          | ok checkpoint =>
            exfalso
            simp only [hdag, horphan, hsane, hfind, Bool.false_eq_true, ↓reduceIte] at herr
            cases hnode : E.GetBlockNode checkpoint with
            | none =>
              simp [checkpointChecks, hnode, orphanScan_no_error] at herr
            | some node =>
              by_cases hold : block.Timestamp < node.timestamp
              · simp [checkpointChecks, hnode, hold, ruleError] at herr
              · simp [checkpointChecks, hnode, hold, hfast, orphanScan_no_error] at herr

/-- Witness of C30 amended: the sample block, whose timestamp 10 is before the
checkpoint's 100, submitted with fast-add. -/
theorem preProcessBlock_fastAdd_witness :
    ∃ msg, preProcessBlock checkpointEnv sampleState sampleBlock fastFlags =
      ((false, some (Error.RuleError ErrorCode.ErrCheckpointTimeTooOld msg)),
        { sampleState with
          calls := sampleState.calls ++ [Call.ChainRLock, Call.ChainRUnlock] }) :=
  (preProcessBlock_fastAdd checkpointEnv sampleState sampleBlock fastFlags).1 _
    { timestamp := 100, difficulty := 0, powType := 0 } (by decide) (by decide) rfl rfl rfl
    (by decide)

/-! ### The journal of `connectTransaction` (C22) -/

theorem newSpentTxOut_fields (D : Deps) (tx : Tx) (txInIndex : Nat) (txIn : TxInput)
    (entry : UtxoEntry) :
    (newSpentTxOut D tx txInIndex txIn entry).Amount = entry.amount ∧
    (newSpentTxOut D tx txInIndex txIn entry).PkScript = entry.pkScript ∧
    (newSpentTxOut D tx txInIndex txIn entry).BlockHash = entry.blockHash ∧
    (newSpentTxOut D tx txInIndex txIn entry).IsCoinBase = entry.coinBase ∧
    (newSpentTxOut D tx txInIndex txIn entry).TxIndex = uint32OfInt tx.Index ∧
    (newSpentTxOut D tx txInIndex txIn entry).TxInIndex = uint32 txInIndex := by
  unfold newSpentTxOut
  simp only []
  split_ifs <;> exact ⟨rfl, rfl, rfl, rfl, rfl, rfl⟩

/-- C22. For every successful `connectTransaction` call on a transaction that
is not a coinbase, with a journal requested: the journal afterwards is the
given journal followed by one new entry for each spent input, in input order,
where the spent inputs are all inputs but input 0 of a token-mint
transaction. Each new entry has the amount, locking script, origin block hash
and coinbase flag of the entry the view holds at the input's previous
outpoint, the transaction's index and the input's index (as `uint32`). -/
theorem connectTransaction_journal_growth (D : Deps) (tx : Tx) (nodeHash blockIndex : Nat)
    (js : List SpentTxOut) (view : UtxoViewpoint)
    (hcb : D.IsCoinBase tx.Tx = false)
    (hok : (connectTransaction D tx nodeHash blockIndex (some js) view).1 = none) :
    spentInputs D tx =
      tx.Tx.TxIn.enum.filter (fun p => !(decide (p.1 = 0) && D.IsTokenMintTx tx.Tx)) ∧
    ∃ added,
      (connectTransaction D tx nodeHash blockIndex (some js) view).2.1 = some (js ++ added) ∧
      added.length = (spentInputs D tx).length ∧
      List.Forall₂
        (fun p stxo => ∃ e, view.entries p.2.PreviousOut = some e ∧
          stxo.Amount = e.amount ∧ stxo.PkScript = e.pkScript ∧
          stxo.BlockHash = e.blockHash ∧ stxo.IsCoinBase = e.coinBase ∧
          stxo.TxIndex = uint32OfInt tx.Index ∧ stxo.TxInIndex = uint32 p.1)
        (spentInputs D tx) added := by
  obtain ⟨hall, hj⟩ := connectTransaction_journal D tx nodeHash blockIndex js view hcb hok
  refine ⟨spentInputsFrom_eq D tx tx.Tx.TxIn 0, journalFor D tx view (spentInputs D tx), hj,
    journalFor_length D tx view _ hall, ?_⟩
  refine (journalFor_forall₂ D tx view _ hall).imp ?_
  rintro p stxo ⟨e, he, rfl⟩
  obtain ⟨h1, h2, h3, h4, h5, h6⟩ := newSpentTxOut_fields D tx p.1 p.2 e.Spend
  exact ⟨e, he, h1, h2, h3, h4, h5, h6⟩

/-- Witness of C22: the sample spend connected to the sample view with an
empty journal. -/
theorem connectTransaction_journal_growth_witness :
    ∃ added,
      (connectTransaction sampleDeps sampleSpend 78 1 (some []) sampleView).2.1 =
        some ([] ++ added) ∧
      added.length = (spentInputs sampleDeps sampleSpend).length ∧
      List.Forall₂
        (fun p stxo => ∃ e, sampleView.entries p.2.PreviousOut = some e ∧
          stxo.Amount = e.amount ∧ stxo.PkScript = e.pkScript ∧
          stxo.BlockHash = e.blockHash ∧ stxo.IsCoinBase = e.coinBase ∧
          stxo.TxIndex = uint32OfInt sampleSpend.Index ∧ stxo.TxInIndex = uint32 p.1)
        (spentInputs sampleDeps sampleSpend) added :=
  (connectTransaction_journal_growth sampleDeps sampleSpend 78 1 [] sampleView rfl rfl).2


/-! ### Bounds of `IBDBlock.Decode` (C28) -/

theorem Uint32_four (o : ByteOrder) (l : List Nat) :
    ∃ v, o.Uint32 { backing := l, len := 4 } = some v ∧ v < 4294967296 := by
  cases o
  · exact ⟨l.getD 0 0 % 256 + l.getD 1 0 % 256 * 256 + l.getD 2 0 % 256 * 65536 +
      l.getD 3 0 % 256 * 16777216, rfl, by omega⟩
  · exact ⟨l.getD 3 0 % 256 + l.getD 2 0 % 256 * 256 + l.getD 1 0 % 256 * 65536 +
      l.getD 0 0 % 256 * 16777216, rfl, by omega⟩

theorem Decode_isPanic (o : ByteOrder) (K : BlockSource) (b : IBDBlock) (bytes : ByteSlice) :
    (IBDBlock.Decode o K b bytes).1.isPanic = false ↔
      (4 ≤ bytes.cap ∧ headerLength o bytes + 4 < 4294967296 ∧
        headerLength o bytes + 4 ≤ bytes.cap) := by
  obtain ⟨v, hv, hlt⟩ := Uint32_four o bytes.backing
  have hh : headerLength o bytes = v := by simp [headerLength, hv]
  rw [hh]
  unfold IBDBlock.Decode
  by_cases h4 : 4 ≤ bytes.cap
  · have hhead : bytes.slice 0 4 = some { backing := bytes.backing, len := 4 } := by
      simp [ByteSlice.slice, h4]
    simp only [hhead, hv]
    by_cases hin : 4 ≤ uint32 (v + 4) ∧ uint32 (v + 4) ≤ bytes.cap
    · have hpay : bytes.slice 4 (uint32 (v + 4)) =
          some { backing := bytes.backing.drop 4, len := uint32 (v + 4) - 4 } := by
        simp [ByteSlice.slice, hin]
      simp only [hpay]
      have hr : (4 ≤ bytes.cap ∧ v + 4 < 4294967296 ∧ v + 4 ≤ bytes.cap) := by
        unfold uint32 at hin
        omega
      cases K.NewBlockFromBytes
          ({ backing := bytes.backing.drop 4, len := uint32 (v + 4) - 4 } : ByteSlice).bytes <;>
        simp [Ret.isPanic, hr]
    · have hpay : bytes.slice 4 (uint32 (v + 4)) = none := by
        simp only [ByteSlice.slice, hin, if_false]
      simp only [hpay]
      have hr : ¬ (4 ≤ bytes.cap ∧ v + 4 < 4294967296 ∧ v + 4 ≤ bytes.cap) := by
        unfold uint32 at hin
        omega
      simp [Ret.isPanic, hr]
  · have hhead : bytes.slice 0 4 = none := by
      simp [ByteSlice.slice, h4]
    simp only [hhead]
    simp [Ret.isPanic, h4]

/-- C28, as stated, fails: a slice of length 0 whose backing array holds four
zero bytes is decoded without a panic, although it has fewer than 4 bytes. -/
theorem Decode_bounds_counterexample :
    ¬ ∀ (o : ByteOrder) (K : BlockSource) (b : IBDBlock) (bytes : ByteSlice),
        bytes.len ≤ bytes.cap →
        ((IBDBlock.Decode o K b bytes).1.isPanic = false ↔
          (4 ≤ bytes.len ∧ headerLength o bytes + 4 < 4294967296 ∧
            headerLength o bytes + 4 ≤ bytes.len)) := by
  intro h
  have h1 := (h ByteOrder.LittleEndian sampleSource { length := 0, bytes := [], blk := none }
    { backing := [0, 0, 0, 0], len := 0 } (by decide)).mp (by decide)
  exact absurd h1.1 (by decide)

/-- C28, amended. `IBDBlock.Decode` performs no bounds check: its slice
accesses are in range exactly when the capacity of the input slice is at least
4 bytes, the 32-bit sum `length+4` does not wrap modulo `2 ^ 32`, and
`length+4` is at most that capacity; so they are in range whenever the input
has at least 4 bytes, the sum does not wrap and `length+4` is at most the
input length. For a well-formed record (the 4-byte length `n`, then `n` bytes,
then any trailing bytes, `n < 2 ^ 32 - 4`) it sets the decoded length to `n`
and passes exactly the `n` bytes after the header to the block parser. -/
theorem Decode_bounds (o : ByteOrder) (K : BlockSource) (b : IBDBlock) (bytes : ByteSlice) :
    ((IBDBlock.Decode o K b bytes).1.isPanic = false ↔
      (4 ≤ bytes.cap ∧ headerLength o bytes + 4 < 4294967296 ∧
        headerLength o bytes + 4 ≤ bytes.cap)) ∧
    (bytes.len ≤ bytes.cap → 4 ≤ bytes.len → headerLength o bytes + 4 < 4294967296 →
      headerLength o bytes + 4 ≤ bytes.len →
      (IBDBlock.Decode o K b bytes).1.isPanic = false) ∧
    (∀ payload trailing slack : List Nat, payload.length < 4294967292 →
      IBDBlock.Decode o K b
          (fileSlice (o.PutUint32 payload.length ++ payload ++ trailing) slack) =
        match K.NewBlockFromBytes payload with
        | Except.error err =>
          (Ret.returned (some err, { b with length := payload.length }), [payload])
        | Except.ok block =>
          (Ret.returned (none, { b with length := payload.length, blk := some block }),
            [payload])) := by
  refine ⟨Decode_isPanic o K b bytes, ?_, ?_⟩
  · intro hcap h4 hwrap hlen
    exact (Decode_isPanic o K b bytes).mpr ⟨by omega, hwrap, by omega⟩
  · intro payload trailing slack hn
    exact Decode_record o K b payload trailing slack hn

/-- Witness of C28 amended: a record of three bytes followed by a stray byte. -/
theorem Decode_bounds_witness :
    IBDBlock.Decode ByteOrder.LittleEndian sampleSource { length := 0, bytes := [], blk := none }
        (fileSlice [3, 0, 0, 0, 77, 1, 2, 9] []) =
      (Ret.returned
        (none, { length := 3, bytes := [], blk := some { sampleBlock with hash := 77 } }),
        [[77, 1, 2]]) :=
  (Decode_bounds ByteOrder.LittleEndian sampleSource { length := 0, bytes := [], blk := none }
    (fileSlice [] [])).2.2 [77, 1, 2] [9] [] (by decide)


/-! ### Locking in `maybeAcceptBlock` (C29) -/

theorem connectBlock_calm (E : Env) (s : ChainState) (node : IBlock) (block : SerializedBlock)
    (view : UtxoViewpoint) (stxos : List SpentTxOut)
    (connectedBlocks : List (SerializedBlock × Bool)) :
    Extends Call.calm s (connectBlock E s node block view stxos connectedBlocks).2 := by
  unfold connectBlock
  simp only []
  repeat' split
  all_goals
    repeat (first
      | exact Extends.refl _ _
      | refine Extends.step ?_ ⟨rfl, rfl⟩)

theorem connectDagChain_simple_calm (E : Env) (s : ChainState) (ib : IBlock)
    (block : SerializedBlock) (newOrders oldOrders : List IBlock)
    (connectedBlocks : List (SerializedBlock × Bool))
    (h : isSimpleExtend ib newOrders oldOrders = true) :
    Extends Call.calm s
      (connectDagChain E s ib block newOrders oldOrders connectedBlocks).2 := by
  cases hsimple : isSimpleExtend ib newOrders oldOrders with
  | false => rw [h] at hsimple; cases hsimple
  | true =>
    unfold connectDagChain
    simp only [hsimple, ↓reduceIte]
    cases ho : ib.IsOrdered with
    | false =>
      simp only [↓reduceIte]
      exact Extends.refl _ _
    | true =>
      simp only [Bool.true_eq_false, ↓reduceIte]
      rcases hc : E.checkConnectBlock ib block (UtxoViewpoint.empty.SetViewpoints [ib.hash]) []
        with ⟨err, view1, stxos1⟩
      cases err with
      | some e =>
        simp only [InvalidBlock]
        have hcb := connectBlock_calm E (((s.call (Call.checkConnectBlock ib.id)).call
          (Call.InvalidBlock ib.id)).call Call.viewClean)
          { ib with status := BlockStatus.Invalid } block view1.Clean [] connectedBlocks
        have hpre : Extends Call.calm s (((s.call (Call.checkConnectBlock ib.id)).call
          (Call.InvalidBlock ib.id)).call Call.viewClean) :=
          ((((Extends.refl _ s).step ⟨rfl, rfl⟩).step ⟨rfl, rfl⟩).step ⟨rfl, rfl⟩)
        have hall := hpre.trans hcb
        split
        · rename_i heq
          rw [heq] at hall
          exact hall.step ⟨rfl, rfl⟩
        · rename_i heq
          rw [heq] at hall
          simp only [BlockStatus.KnownInvalid, Bool.true_eq_false, ↓reduceIte]
          exact hall
      | none =>
        have hcb := connectBlock_calm E (s.call (Call.checkConnectBlock ib.id)) ib
          block view1 stxos1 connectedBlocks
        have hpre : Extends Call.calm s (s.call (Call.checkConnectBlock ib.id)) :=
          (Extends.refl _ s).step ⟨rfl, rfl⟩
        have hall := hpre.trans hcb
        simp only []
        split
        · rename_i heq
          rw [heq] at hall
          exact hall.step ⟨rfl, rfl⟩
        · rename_i heq
          rw [heq] at hall
          simp only [ValidBlock]
          split
          · exact hall.step ⟨rfl, rfl⟩
          · exact hall

theorem storeBlock_calm (E : Env) (s : ChainState) (block : SerializedBlock) :
    Extends Call.calm s (storeBlock E s block).2 := by
  unfold storeBlock
  repeat' split
  all_goals
    repeat (first
      | exact Extends.refl _ _
      | refine Extends.step ?_ ⟨rfl, rfl⟩)

theorem foldl_UpdateWeight_calm (attachNodes : List IBlock) :
    ∀ s0 s : ChainState, Extends Call.calm s0 s →
      Extends Call.calm s0 (attachNodes.foldl (fun s e => s.call (Call.UpdateWeight e.id)) s) := by
  induction attachNodes with
  | nil => intro s0 s h; exact h
  | cons n rest ih =>
    intro s0 s h
    exact ih s0 _ (h.step ⟨rfl, rfl⟩)

theorem updateBestState_calm (E : Env) (s : ChainState) (ib : IBlock)
    (block : SerializedBlock) (attachNodes : List IBlock) :
    Extends Call.calm s (updateBestState E s ib block attachNodes).2 := by
  unfold updateBestState
  simp only []
  repeat' split
  all_goals
    repeat (first
      | exact Extends.refl _ _
      | refine foldl_UpdateWeight_calm _ _ _ ?_
      | refine Extends.step ?_ ⟨rfl, rfl⟩)

theorem announcements_not_locking (E : Env) (block : SerializedBlock) (tip : Bool)
    (flags : BehaviorFlags) (connected : List (SerializedBlock × Bool)) :
    ∀ c ∈ announcements E block tip flags connected, c.isLocking = false := by
  intro c hc
  by_contra hl
  have hc2 : c = Call.ChainLock ∨ c = Call.ChainUnlock := by
    cases c <;> simp_all [Call.isLocking]
  rcases hc2 with rfl | rfl <;> simp [announcements] at hc

theorem count_calm (l : List Call) (h : ∀ c ∈ l, Call.calm c) :
    l.count Call.ChainLock = 0 ∧ l.count Call.ChainUnlock = 0 := by
  constructor
  · refine List.count_eq_zero.mpr (fun hmem => ?_)
    have := (h _ hmem).2
    simp [Call.isLocking] at this
  · refine List.count_eq_zero.mpr (fun hmem => ?_)
    have := (h _ hmem).2
    simp [Call.isLocking] at this

theorem count_not_locking (l : List Call) (h : ∀ c ∈ l, c.isLocking = false) :
    l.count Call.ChainLock = 0 ∧ l.count Call.ChainUnlock = 0 := by
  constructor
  · refine List.count_eq_zero.mpr (fun hmem => ?_)
    have := h _ hmem
    simp [Call.isLocking] at this
  · refine List.count_eq_zero.mpr (fun hmem => ?_)
    have := h _ hmem
    simp [Call.isLocking] at this


theorem connectDagChain_steady (E : Env) (s : ChainState) (ib : IBlock)
    (block : SerializedBlock) (newOrders oldOrders : List IBlock)
    (connectedBlocks : List (SerializedBlock × Bool)) :
    Extends Call.steady s
      (connectDagChain E s ib block newOrders oldOrders connectedBlocks).2 := by
  cases hsimple : isSimpleExtend ib newOrders oldOrders with
  | true =>
    exact Extends.mono Call.steady_of_calm
      (connectDagChain_simple_calm E s ib block newOrders oldOrders connectedBlocks hsimple)
  | false =>
    rw [connectDagChain_reorganize E s ib block newOrders oldOrders connectedBlocks hsimple]
    have hstart : Extends Call.steady s (s.call (Call.reorganizeChain ib.id)) :=
      (Extends.refl _ s).step ⟨rfl, rfl⟩
    exact hstart.trans
      (reorganizeChain_steady E _ ib oldOrders newOrders block connectedBlocks)

theorem maybeAcceptBlock_lock_shape (E : Env) (s : ChainState) (block : SerializedBlock)
    (flags : BehaviorFlags) (r : Option Error)
    (hret : (maybeAcceptBlock E s block flags).1 = Ret.returned r) :
    ∃ pre post,
      (maybeAcceptBlock E s block flags).2.calls =
        s.calls ++ (Call.ChainLock :: pre ++ Call.ChainUnlock :: post) ∧
      (∀ c ∈ pre, Call.steady c ∧ (reorganizes E block = false → c.isNotification = false)) ∧
      (∀ c ∈ post, c.isLocking = false) ∧
      (r = none → ∃ s2 ib1 blk newOrders s3,
        updateBestState E s2 ib1 blk newOrders = (none, s3) ∧ E.shutdownDone = none ∧
        s.calls ++ Call.ChainLock :: pre = s3.calls ++ [Call.shutdownDone] ∧
        ∀ c ∈ post, c ≠ Call.shutdownDone) := by
  have hq : ∀ c : Call, Call.calm c → Call.steady c ∧
      (reorganizes E block = false → c.isNotification = false) :=
    fun c hc => ⟨Call.steady_of_calm c hc, fun _ => hc.1⟩
  revert hret
  cases hcc : (if flags.BFFastAdd = false then
        match E.GetMainParentByHashs block.Parents with
        | none => some (Error.Plain "Can't find main parent\n")
        | some mainParent => E.checkBlockContext block mainParent flags
      else none) with
  | some err =>
    simp only [maybeAcceptBlock, hcc]
    intro hret
    refine ⟨[], [Call.flushNotifications], by simp [ChainState.call], by simp, by simp [Call.isLocking], ?_⟩
    intro hr
    subst hr
    simp at hret
  | none =>
    rcases hadd : E.AddBlock block with ⟨newOrders, oldOrders, ib, tip⟩
    cases ib with
    | none =>
      simp only [maybeAcceptBlock, hcc, hadd]
      intro hret
      refine ⟨[Call.pruneChainIfNeeded, Call.AddBlock block.hash], [Call.flushNotifications],
        by simp [ChainState.call], ?_, by simp [Call.isLocking], ?_⟩
      · intro c hc
        simp only [List.mem_cons, List.mem_singleton, List.not_mem_nil, or_false] at hc
        rcases hc with rfl | rfl <;> exact hq _ ⟨rfl, rfl⟩
      · intro hr
        subst hr
        simp at hret
    | some ib =>
      have h0 : Extends (fun c => Call.steady c ∧
          (reorganizes E block = false → c.isNotification = false))
          (s.call Call.ChainLock) (afterOracle s block) := by
        unfold afterOracle
        exact ((Extends.refl _ _).step (hq Call.pruneChainIfNeeded ⟨rfl, rfl⟩)).step
          (hq (Call.AddBlock block.hash) ⟨rfl, rfl⟩)
      have h1 := h0.trans (Extends.mono hq
        (storeBlock_calm E (afterOracle s block) (placedBlock block ib)))
      have hcdc : Extends (fun c => Call.steady c ∧
          (reorganizes E block = false → c.isNotification = false))
          ((storeBlock E (afterOracle s block) (placedBlock block ib)).2.call
            (Call.shutdownWait ib.hash))
          (connectDagChain E
            ((storeBlock E (afterOracle s block) (placedBlock block ib)).2.call
              (Call.shutdownWait ib.hash))
            ib (placedBlock block ib) newOrders oldOrders []).2 := by
        cases hsimple : isSimpleExtend ib newOrders oldOrders with
        | true =>
          exact Extends.mono hq
            (connectDagChain_simple_calm E _ ib (placedBlock block ib) newOrders oldOrders []
              hsimple)
        | false =>
          have hR := reorganizes_of_not_simple E block newOrders oldOrders ib tip hadd hsimple
          exact Extends.mono
            (fun c (hc : Call.steady c) => ⟨hc, fun hf => by rw [hR] at hf; cases hf⟩)
            (connectDagChain_steady E _ ib (placedBlock block ib) newOrders oldOrders [])
      have h2 := (h1.step (c := Call.shutdownWait ib.hash) (hq _ ⟨rfl, rfl⟩)).trans hcdc
      have h3 := h2.trans (Extends.mono hq (updateBestState_calm E _
        (connectDagChain E
              ((storeBlock E (afterOracle s block) (placedBlock block ib)).2.call
                (Call.shutdownWait ib.hash))
              ib (placedBlock block ib) newOrders oldOrders []).1.2.1 (placedBlock block ib)
        newOrders))
      clear hcdc h0
      simp only [afterOracle] at h1 h2 h3
      simp only [maybeAcceptBlock, hcc, hadd]
      rcases hst : storeBlock E (((s.call Call.ChainLock).call Call.pruneChainIfNeeded).call
        (Call.AddBlock block.hash)) (placedBlock block ib) with ⟨e1, s1⟩
      rw [hst] at h1 h2 h3
      simp only at h1 h2 h3
      cases e1 with
      | some err => intro hret; simp at hret
      | none =>
        simp only []
        cases hw : E.shutdownWait ib.hash with
        | some err => intro hret; simp at hret
        | none =>
          simp only []
          rcases hcd : connectDagChain E (s1.call (Call.shutdownWait ib.hash)) ib
            (placedBlock block ib) newOrders oldOrders [] with ⟨⟨⟨ok, e2⟩, ib1, connected⟩, s2⟩
          rw [hcd] at h2 h3
          simp only at h2 h3
          cases e2 with
          | some err => intro hret; simp at hret
          | none =>
            simp only []
            rcases hub : updateBestState E s2 ib1 (placedBlock block ib) newOrders with ⟨e3, s3⟩
            rw [hub] at h3
            simp only at h3
            cases e3 with
            | some err => intro hret; simp at hret
            | none =>
              simp only []
              cases hd : E.shutdownDone with
              | some err => intro hret; simp at hret
              | none =>
                intro hret
                obtain ⟨extra, he, hqq⟩ := h3
                have he2 : s3.calls = s.calls ++ Call.ChainLock :: extra := by
                  rw [he]
                  simp [ChainState.call]
                refine ⟨extra ++ [Call.shutdownDone],
                  announcements E (placedBlock block ib) tip flags connected, ?_, ?_,
                  announcements_not_locking E _ tip flags connected, ?_⟩
                · unfold announcements
                  cases flags.BFP2PAdd <;> cases E.hasAcct <;>
                    simp [ChainState.call, notifyConnected_calls, he2]
                · intro c hc
                  rcases List.mem_append.mp hc with hc | hc
                  · exact hqq c hc
                  · simp at hc
                    subst hc
                    exact hq _ ⟨rfl, rfl⟩
                · intro _
                  refine ⟨s2, ib1, placedBlock block ib, newOrders, s3, hub, rfl, ?_, ?_⟩
                  · rw [he2]
                    simp
                  · intro c hc heq
                    subst heq
                    simp [announcements] at hc

/-- C29, as stated, fails: in a reorganize, `disconnectBlock` sends
`BlockDisconnected` (line 497) while the chain lock is held, so a notification
is sent before the release of line 259. -/
theorem maybeAcceptBlock_locking_counterexample :
    ¬ ∀ (E : Env) (s : ChainState) (block : SerializedBlock) (flags : BehaviorFlags),
        (maybeAcceptBlock E s block flags).1 = Ret.returned none →
        ∀ pre post, (maybeAcceptBlock E s block flags).2.calls =
            s.calls ++ (pre ++ Call.ChainUnlock :: post) →
          ∀ c ∈ pre, c.isNotification = false := by
  intro h
  have h1 := h reorgEnv sampleState sampleBlock noFlags rfl
    [Call.ChainLock, Call.pruneChainIfNeeded, Call.AddBlock 77, Call.dbMaybeStoreBlock 77,
      Call.shutdownWait 77, Call.reorganizeChain 5, Call.vmDisconnectBlock 66,
      Call.dbPutUtxoView, Call.DBRemoveSpendJournalEntry 66,
      Call.indexDisconnectBlock 66 [] 4 0, Call.viewCommit,
      Call.sendNotification (Notification.BlockDisconnected otherBlock),
      Call.vmConnectBlock 77, Call.dbPutUtxoView, Call.DBPutSpendJournalEntry 77 [],
      Call.indexConnectBlock 77 [] 5 0, Call.viewCommit, Call.updateTokenState 5,
      Call.connectedBlocksPushBack 77 true, Call.UpdateWeight 5,
      Call.dbPutBestState
        { Hash := 77, Bits := 0, BlockSize := 100, NumTxns := 1, MedianTime := 0,
          TotalTxns := 2, Weight := 2, GraphState := 0, TokenTipHash := 0 },
      Call.indexUpdateMainTip 77 5, Call.dagCommit, Call.shutdownDone]
    [Call.sendNotification
        (Notification.BlockConnected (placedBlock sampleBlock sampleNode) true),
      Call.sendNotification
        (Notification.BlockAccepted (placedBlock sampleBlock sampleNode) true noFlags),
      Call.flushNotifications]
    (by decide)
    (Call.sendNotification (Notification.BlockDisconnected otherBlock)) (by decide)
  exact absurd h1 (by decide)

/-- C29, amended. On every path on which `maybeAcceptBlock` returns, with or
without an error, the calls it makes are one `ChainLock`, then calls that
neither lock nor unlock nor send `BlockConnected` or `BlockAccepted`, then one
`ChainUnlock`, then calls that neither lock nor unlock: the exclusive lock is
taken exactly once and released exactly once. On the success path the call
right before the `ChainUnlock` is the shutdown gate's `Done`, which comes
right after the calls of `updateBestState`, and every `BlockConnected` and
`BlockAccepted` notification comes after the `ChainUnlock`. When the admission
is not a reorganize, no notification at all comes before the `ChainUnlock`. -/
theorem maybeAcceptBlock_locking (E : Env) (s : ChainState) (block : SerializedBlock)
    (flags : BehaviorFlags) (r : Option Error)
    (hret : (maybeAcceptBlock E s block flags).1 = Ret.returned r) :
    ∃ pre post,
      (maybeAcceptBlock E s block flags).2.calls =
        s.calls ++ (Call.ChainLock :: pre ++ Call.ChainUnlock :: post) ∧
      (∀ c ∈ pre, c.announces = false ∧ c.isLocking = false) ∧
      (reorganizes E block = false → ∀ c ∈ pre, c.isNotification = false) ∧
      (∀ c ∈ post, c.isLocking = false) ∧
      (Call.ChainLock :: pre ++ Call.ChainUnlock :: post).count Call.ChainLock = 1 ∧
      (Call.ChainLock :: pre ++ Call.ChainUnlock :: post).count Call.ChainUnlock = 1 ∧
      (r = none → ∃ s2 ib1 blk newOrders s3,
        updateBestState E s2 ib1 blk newOrders = (none, s3) ∧ E.shutdownDone = none ∧
        s.calls ++ Call.ChainLock :: pre = s3.calls ++ [Call.shutdownDone] ∧
        ∀ c ∈ post, c ≠ Call.shutdownDone) := by
  obtain ⟨pre, post, hcalls, hpre, hpost, hsucc⟩ :=
    maybeAcceptBlock_lock_shape E s block flags r hret
  obtain ⟨hp1, hp2⟩ := count_not_locking pre (fun c hc => (hpre c hc).1.2)
  obtain ⟨hq1, hq2⟩ := count_not_locking post hpost
  refine ⟨pre, post, hcalls, fun c hc => (hpre c hc).1, fun hR c hc => (hpre c hc).2 hR,
    hpost, ?_, ?_, hsucc⟩
  · simp [List.count_cons, hp1, hq1]
  · simp [List.count_cons, hp2, hq2]

/-- Witness of C29 amended: the sample block accepted with the sample
collaborators. -/
theorem maybeAcceptBlock_locking_witness :
    ∃ pre post,
      (maybeAcceptBlock sampleEnv sampleState sampleBlock noFlags).2.calls =
        sampleState.calls ++ (Call.ChainLock :: pre ++ Call.ChainUnlock :: post) ∧
      (∀ c ∈ pre, c.announces = false ∧ c.isLocking = false) ∧
      (reorganizes sampleEnv sampleBlock = false → ∀ c ∈ pre, c.isNotification = false) ∧
      (∀ c ∈ post, c.isLocking = false) ∧
      (Call.ChainLock :: pre ++ Call.ChainUnlock :: post).count Call.ChainLock = 1 ∧
      (Call.ChainLock :: pre ++ Call.ChainUnlock :: post).count Call.ChainUnlock = 1 :=
  (maybeAcceptBlock_locking sampleEnv sampleState sampleBlock noFlags none rfl).imp
    (fun pre h => h.imp (fun post h =>
      ⟨h.1, h.2.1, h.2.2.1, h.2.2.2.1, h.2.2.2.2.1, h.2.2.2.2.2.1⟩))


/-! ### The walk of `disconnectTransactions` (C23, C24, C27) -/

theorem restoreEntry_Restores (old : Option UtxoEntry) (stxo : SpentTxOut) :
    Restores stxo (restoreEntry old stxo) := by
  unfold restoreEntry Restores
  cases hcb : stxo.IsCoinBase <;> cases old <;> simp [UtxoEntry.SetAmount,
    UtxoEntry.SetPkScript, UtxoEntry.SetBlockHash, UtxoEntry.Modified, UtxoEntry.CoinBase]

theorem Restores_Spend (stxo : SpentTxOut) (e : UtxoEntry) (h : Restores stxo e) :
    Restores stxo e.Spend := h

theorem disconnectOutputs_stable (D : Deps) (blockHash : Nat) (isCoinBase : Bool)
    (txHash : Nat) (q : TxOutPoint) (P : UtxoEntry → Prop) (hP : ∀ e, P e → P e.Spend) :
    ∀ (outs : List TxOutput) (idx : Nat) (w : UtxoViewpoint),
      (∃ e, w.entries q = some e ∧ P e) →
        ∃ e, (disconnectOutputs D blockHash isCoinBase txHash outs idx w).entries q = some e ∧
          P e := by
  intro outs
  induction outs with
  | nil => intro idx w h; exact h
  | cons o rest ih =>
    intro idx w h
    by_cases hu : D.IsUnspendable o.PkScript = true
    · simp only [disconnectOutputs, if_pos hu]
      exact ih (idx + 1) w h
    · simp only [disconnectOutputs, if_neg hu]
      apply ih
      obtain ⟨e, he, hs⟩ := h
      by_cases hq : q = { Hash := txHash, OutIndex := uint32 idx }
      · subst hq
        refine ⟨_, UtxoViewpoint.entries_AddEntry_self _ _ _, ?_⟩
        simp only [UtxoViewpoint.GetEntry, he]
        exact hP e hs
      · exact ⟨e, by simp [hq, he], hs⟩

theorem disconnectOutputs_fresh (D : Deps) (blockHash : Nat) (isCoinBase : Bool)
    (txHash : Nat) :
    ∀ (outs : List TxOutput) (idx : Nat) (w : UtxoViewpoint) (j : Nat) (hj : j < outs.length),
      idx + outs.length ≤ 4294967296 →
      D.IsUnspendable (outs.get ⟨j, hj⟩).PkScript = false →
      w.entries { Hash := txHash, OutIndex := idx + j } = none →
        (disconnectOutputs D blockHash isCoinBase txHash outs idx w).entries
            { Hash := txHash, OutIndex := idx + j } =
          some (NewUtxoEntry (outs.get ⟨j, hj⟩).Amount (outs.get ⟨j, hj⟩).PkScript blockHash
            isCoinBase).Spend := by
  intro outs
  induction outs with
  | nil => intro idx w j hj; simp at hj
  | cons o rest ih =>
    intro idx w j hj hlen hsp hnone
    simp only [List.length_cons] at hj hlen
    have hidx : uint32 idx = idx := Nat.mod_eq_of_lt (by omega)
    cases j with
    | zero =>
      simp only [List.get_eq_getElem, List.getElem_cons_zero] at hsp ⊢
      simp only [disconnectOutputs, hsp, Bool.false_eq_true, if_false, hidx]
      simp only [Nat.add_zero] at hnone ⊢
      obtain ⟨e, he, heq⟩ := disconnectOutputs_stable D blockHash isCoinBase txHash
        { Hash := txHash, OutIndex := idx }
        (fun e => e = (NewUtxoEntry o.Amount o.PkScript blockHash isCoinBase).Spend)
        (fun e he => by rw [he]; rfl) rest (idx + 1)
        (w.AddEntry { Hash := txHash, OutIndex := idx }
          (match w.GetEntry { Hash := txHash, OutIndex := idx } with
            | some e => e
            | none => NewUtxoEntry o.Amount o.PkScript blockHash isCoinBase).Spend)
        ⟨_, UtxoViewpoint.entries_AddEntry_self _ _ _, by
          simp only [UtxoViewpoint.GetEntry, hnone]⟩
      rw [he, heq]
    | succ j =>
      simp only [List.get_eq_getElem, List.getElem_cons_succ] at hsp ⊢
      rw [show idx + (j + 1) = idx + 1 + j by omega] at hnone ⊢
      by_cases hu : D.IsUnspendable o.PkScript = true
      · simp only [disconnectOutputs, if_pos hu]
        exact ih (idx + 1) w j (by omega) (by omega) hsp hnone
      · simp only [disconnectOutputs, if_neg hu, hidx]
        refine ih (idx + 1) _ j (by omega) (by omega) hsp ?_
        have hne : ({ Hash := txHash, OutIndex := idx + 1 + j } : TxOutPoint) ≠
            { Hash := txHash, OutIndex := idx } := by
          intro h
          injection h with _ h2
          omega
        simp [hne, hnone]

theorem disconnectInputs_props (D : Deps) (tx : Tx) (stxos : List SpentTxOut) :
    ∀ (l : List (Nat × TxInput)) (idx : Int) (w : UtxoViewpoint) (r : Int × UtxoViewpoint),
      disconnectInputs D tx stxos l idx w = some r →
      r.1 = idx - ((l.filter (spendsJournal D tx)).length : Int) ∧
      r.2.viewpoints = w.viewpoints ∧
      (∀ q, q ∉ (l.filter (spendsJournal D tx)).map (fun p => p.2.PreviousOut) →
        r.2.entries q = w.entries q) ∧
      (∀ (j : Nat) (p : Nat × TxInput), (l.filter (spendsJournal D tx))[j]? = some p →
        p.2.PreviousOut ∉
          ((l.filter (spendsJournal D tx)).drop (j + 1)).map (fun p => p.2.PreviousOut) →
        0 ≤ idx - (j : Int) ∧ ∃ stxo, stxos[(idx - (j : Int)).toNat]? = some stxo ∧
          ∃ e, r.2.entries p.2.PreviousOut = some e ∧ Restores stxo e) := by
  intro l
  induction l with
  | nil =>
    intro idx w r h
    simp only [disconnectInputs, Option.some.injEq] at h
    subst h
    simp
  | cons a rest ih =>
    intro idx w r h
    obtain ⟨i, txIn⟩ := a
    by_cases hs : spendsJournal D tx (i, txIn) = true
    · have hskip : ¬ (D.IsTokenMintTx tx.Tx = true ∧ i = 0) := by
        intro hc
        simp [spendsJournal, hc.1, hc.2] at hs
      simp only [disconnectInputs, if_neg hskip] at h
      by_cases hneg : idx < 0
      · simp [hneg] at h
      · simp only [if_neg hneg] at h
        cases hget : stxos[idx.toNat]? with
        | none => simp [hget] at h
        | some stxo =>
          simp only [List.get?_eq_getElem?, hget] at h
          obtain ⟨h1, h2, h3, h4⟩ := ih (idx - 1) _ r h
          have hfil : (((i, txIn) :: rest).filter (spendsJournal D tx)) =
              (i, txIn) :: rest.filter (spendsJournal D tx) := by
            simp [List.filter_cons, hs]
          rw [hfil]
          refine ⟨?_, ?_, ?_, ?_⟩
          · rw [h1]
            simp only [List.length_cons]
            push_cast
            omega
          · rw [h2]
            rfl
          · intro q hq
            simp only [List.map_cons, List.mem_cons, not_or] at hq
            rw [h3 q hq.2]
            simp [hq.1]
          · intro j p hj hnot
            cases j with
            | zero =>
              simp only [List.getElem?_cons_zero, Option.some.injEq] at hj
              subst hj
              simp only [Nat.zero_add, List.drop_succ_cons, List.drop_zero] at hnot
              refine ⟨by omega, stxo, ?_, ?_⟩
              · simpa using hget
              · rw [h3 _ hnot]
                exact ⟨_, UtxoViewpoint.entries_AddEntry_self _ _ _,
                  restoreEntry_Restores _ _⟩
            | succ j =>
              simp only [List.getElem?_cons_succ] at hj
              simp only [List.drop_succ_cons] at hnot
              obtain ⟨hge, stxo', hst, e, he, hr⟩ := h4 j p hj hnot
              refine ⟨by push_cast; omega, stxo', ?_, e, he, hr⟩
              rw [← hst]
              congr 2
              push_cast
              omega
    · have hskip : D.IsTokenMintTx tx.Tx = true ∧ i = 0 := by
        simp only [spendsJournal, Bool.not_eq_true', Bool.not_eq_false, Bool.and_eq_true,
          decide_eq_true_eq, Bool.not_eq_true] at hs
        simpa [Bool.not_eq_true, and_comm] using hs
      simp only [disconnectInputs, if_pos hskip] at h
      have hfil : (((i, txIn) :: rest).filter (spendsJournal D tx)) =
          rest.filter (spendsJournal D tx) := by
        simp [List.filter_cons, hs]
      rw [hfil]
      exact ih idx w r h

theorem disconnectInputs_total (D : Deps) (tx : Tx) (stxos : List SpentTxOut) :
    ∀ (l : List (Nat × TxInput)) (idx : Int) (w : UtxoViewpoint),
      ((l.filter (spendsJournal D tx)).length : Int) ≤ idx + 1 →
      idx < (stxos.length : Int) →
      ∃ r, disconnectInputs D tx stxos l idx w = some r := by
  intro l
  induction l with
  | nil => intro idx w _ _; exact ⟨_, rfl⟩
  | cons a rest ih =>
    intro idx w hlen hidx
    obtain ⟨i, txIn⟩ := a
    by_cases hs : spendsJournal D tx (i, txIn) = true
    · have hskip : ¬ (D.IsTokenMintTx tx.Tx = true ∧ i = 0) := by
        intro hc
        simp [spendsJournal, hc.1, hc.2] at hs
      have hfil : (((i, txIn) :: rest).filter (spendsJournal D tx)) =
          (i, txIn) :: rest.filter (spendsJournal D tx) := by
        simp [List.filter_cons, hs]
      rw [hfil] at hlen
      simp only [List.length_cons] at hlen
      push_cast at hlen
      have hneg : ¬ idx < 0 := by omega
      have hlt : idx.toNat < stxos.length := by omega
      simp only [disconnectInputs, if_neg hskip, if_neg hneg, List.get?_eq_getElem?,
        List.getElem?_eq_getElem hlt]
      exact ih (idx - 1) _ (by omega) (by omega)
    · have hskip : D.IsTokenMintTx tx.Tx = true ∧ i = 0 := by
        simp only [spendsJournal, Bool.not_eq_true', Bool.not_eq_false, Bool.and_eq_true,
          decide_eq_true_eq, Bool.not_eq_true] at hs
        simpa [Bool.not_eq_true, and_comm] using hs
      have hfil : (((i, txIn) :: rest).filter (spendsJournal D tx)) =
          rest.filter (spendsJournal D tx) := by
        simp [List.filter_cons, hs]
      rw [hfil] at hlen
      simp only [disconnectInputs, if_pos hskip]
      exact ih idx w hlen hidx


theorem WalkRel.nil (stxos : List SpentTxOut) (idx : Int) (w : UtxoViewpoint) :
    WalkRel stxos [] [] idx w w := by
  refine ⟨rfl, fun P _ q _ h => h, fun q _ _ => rfl, ?_⟩
  intro j q hj
  simp at hj

theorem WalkRel.comp {stxos : List SpentTxOut} {s1 s2 : List (Option TxOutPoint)}
    {m1 m2 : List TxOutPoint} {idx : Int} {w w1 w2 : UtxoViewpoint}
    (h1 : WalkRel stxos s1 m1 idx w w1)
    (h2 : WalkRel stxos s2 m2 (idx - (s1.length : Int)) w1 w2) :
    WalkRel stxos (s1 ++ s2) (m1 ++ m2) idx w w2 := by
  obtain ⟨hv1, hst1, hfr1, hre1⟩ := h1
  obtain ⟨hv2, hst2, hfr2, hre2⟩ := h2
  refine ⟨hv2.trans hv1, ?_, ?_, ?_⟩
  · intro P hP q hq h
    simp only [List.mem_append, not_or] at hq
    exact hst2 P hP q hq.2 (hst1 P hP q hq.1 h)
  · intro q hq hm
    simp only [List.mem_append, not_or] at hq hm
    rw [hfr2 q hq.2 hm.2, hfr1 q hq.1 hm.1]
  · intro j q hj hnot
    by_cases hlt : j < s1.length
    · rw [List.getElem?_append_left hlt] at hj
      have hdrop : List.drop (j + 1) (s1 ++ s2) = List.drop (j + 1) s1 ++ s2 := by
        rw [List.drop_append_of_le_length (by omega)]
      rw [hdrop] at hnot
      simp only [List.mem_append, not_or] at hnot
      obtain ⟨hge, stxo, hget, hent⟩ := hre1 j q hj hnot.1
      exact ⟨hge, stxo, hget, hst2 (Restores stxo) (fun e he => he) q hnot.2 hent⟩
    · have hge : s1.length ≤ j := by omega
      rw [List.getElem?_append_right hge] at hj
      have hdrop : List.drop (j + 1) (s1 ++ s2) = List.drop (j - s1.length + 1) s2 := by
        rw [List.drop_append_eq_append_drop, List.drop_eq_nil_of_le (by omega)]
        simp only [List.nil_append]
        congr 1
        omega
      rw [hdrop] at hnot
      obtain ⟨hge2, stxo, hget, hent⟩ := hre2 (j - s1.length) q hj hnot
      have hidx : idx - (s1.length : Int) - ((j - s1.length : Nat) : Int) = idx - (j : Int) := by
        omega
      rw [hidx] at hge2 hget
      exact ⟨hge2, stxo, hget, hent⟩

theorem disconnectTxs_skipped (D : Deps) (blockHash : Nat) (stxos : List SpentTxOut)
    (i : Nat) (tx : Tx) (rest : List (Nat × Tx)) (idx : Int) (w : UtxoViewpoint)
    (hsk : skipped D tx = true) :
    disconnectTxs D blockHash stxos ((i, tx) :: rest) idx w =
      disconnectTxs D blockHash stxos rest idx w := by
  unfold skipped at hsk
  cases h1 : tx.IsDuplicate <;> cases h2 : D.IsTokenTx tx.Tx <;>
    cases h3 : D.IsTokenMintTx tx.Tx <;> cases h4 : D.IsCrossChainVMTx tx.Tx <;>
    simp [h1, h2, h3, h4] at hsk <;> simp [disconnectTxs, h1, h2, h3, h4]

theorem disconnectTxs_kept (D : Deps) (blockHash : Nat) (stxos : List SpentTxOut)
    (i : Nat) (tx : Tx) (rest : List (Nat × Tx)) (idx : Int) (w : UtxoViewpoint)
    (hsk : skipped D tx = false) :
    disconnectTxs D blockHash stxos ((i, tx) :: rest) idx w =
      if i = 0 then
        disconnectTxs D blockHash stxos rest idx
          (disconnectOutputs D blockHash true tx.hash tx.Tx.TxOut 0 w)
      else if D.IsCrossChainImportTx tx.Tx = true then
        disconnectTxs D blockHash stxos rest (idx - 1)
          (disconnectOutputs D blockHash false tx.hash tx.Tx.TxOut 0 w)
      else
        match disconnectInputs D tx stxos tx.Tx.TxIn.enum.reverse idx
            (disconnectOutputs D blockHash false tx.hash tx.Tx.TxOut 0 w) with
        | none => none
        | some r => disconnectTxs D blockHash stxos rest r.1 r.2 := by
  unfold skipped at hsk
  by_cases hi : i = 0
  · cases h1 : tx.IsDuplicate <;> cases h2 : D.IsTokenTx tx.Tx <;>
      cases h3 : D.IsTokenMintTx tx.Tx <;> cases h4 : D.IsCrossChainVMTx tx.Tx <;>
      simp [h1, h2, h3, h4] at hsk <;> simp [disconnectTxs, h1, h2, h3, h4, hi]
  · cases h1 : tx.IsDuplicate <;> cases h2 : D.IsTokenTx tx.Tx <;>
      cases h3 : D.IsTokenMintTx tx.Tx <;> cases h4 : D.IsCrossChainVMTx tx.Tx <;>
      simp [h1, h2, h3, h4] at hsk <;>
      cases h5 : D.IsCrossChainImportTx tx.Tx <;>
      simp [disconnectTxs, h1, h2, h3, h4, h5, hi] <;>
      cases disconnectInputs D tx stxos tx.Tx.TxIn.enum.reverse idx
        (disconnectOutputs D blockHash false tx.hash tx.Tx.TxOut 0 w) <;> rfl


theorem txSlots_skipped (D : Deps) (i : Nat) (tx : Tx) (hsk : skipped D tx = true) :
    txSlots D i tx = [] := by
  simp [txSlots, hsk]

theorem txSlots_zero (D : Deps) (tx : Tx) : txSlots D 0 tx = [] := by
  simp [txSlots]

theorem txSlots_import (D : Deps) (i : Nat) (tx : Tx) (hsk : skipped D tx = false)
    (hi : i ≠ 0) (him : D.IsCrossChainImportTx tx.Tx = true) : txSlots D i tx = [none] := by
  simp [txSlots, hsk, hi, him]

theorem txSlots_inputs (D : Deps) (i : Nat) (tx : Tx) (hsk : skipped D tx = false)
    (hi : i ≠ 0) (him : D.IsCrossChainImportTx tx.Tx = false) :
    (txSlots D i tx).reverse =
      (tx.Tx.TxIn.enum.reverse.filter (spendsJournal D tx)).map
        (fun p => some p.2.PreviousOut) := by
  simp [txSlots, hsk, hi, him, List.filter_reverse, List.map_reverse]

theorem disconnectOutputs_walk (D : Deps) (blockHash : Nat) (isCoinBase : Bool) (tx : Tx)
    (stxos : List SpentTxOut) (idx : Int) (w : UtxoViewpoint) :
    WalkRel stxos [] (spendableOutpoints D tx) idx w
      (disconnectOutputs D blockHash isCoinBase tx.hash tx.Tx.TxOut 0 w) := by
  refine ⟨disconnectOutputs_viewpoints D blockHash isCoinBase tx.hash _ 0 w, ?_, ?_, ?_⟩
  · intro P hP q _ h
    exact disconnectOutputs_stable D blockHash isCoinBase tx.hash q P hP _ 0 w h
  · intro q _ hm
    exact disconnectOutputs_not_mem D blockHash isCoinBase tx.hash q _ 0 w hm
  · intro j q hj
    simp at hj

theorem disconnectInputs_walk (D : Deps) (tx : Tx) (stxos : List SpentTxOut)
    (l : List (Nat × TxInput)) (idx : Int) (w : UtxoViewpoint) (r : Int × UtxoViewpoint)
    (h : disconnectInputs D tx stxos l idx w = some r) :
    WalkRel stxos ((l.filter (spendsJournal D tx)).map (fun p => some p.2.PreviousOut)) []
      idx w r.2 := by
  obtain ⟨-, hv, hfr, hre⟩ := disconnectInputs_props D tx stxos l idx w r h
  have hmem : ∀ (m : List (Nat × TxInput)) (q : TxOutPoint),
      some q ∉ m.map (fun p => some p.2.PreviousOut) → q ∉ m.map (fun p => p.2.PreviousOut) := by
    intro m q hq hc
    apply hq
    obtain ⟨p, hp, rfl⟩ := List.mem_map.mp hc
    exact List.mem_map.mpr ⟨p, hp, rfl⟩
  refine ⟨hv, ?_, ?_, ?_⟩
  · intro P hP q hq hent
    rw [hfr q (hmem _ q hq)]
    exact hent
  · intro q hq _
    exact hfr q (hmem _ q hq)
  · intro j q hj hnot
    rw [List.getElem?_map] at hj
    cases hp : (l.filter (spendsJournal D tx))[j]? with
    | none => simp [hp] at hj
    | some p =>
      simp only [hp, Option.map_some', Option.some.injEq] at hj
      subst hj
      rw [← List.map_drop] at hnot
      exact hre j p hp (hmem _ _ hnot)

theorem WalkRel.import (stxos : List SpentTxOut) (idx : Int) (w : UtxoViewpoint) :
    WalkRel stxos [none] [] idx w w := by
  refine ⟨rfl, fun P _ q _ h => h, fun q _ _ => rfl, ?_⟩
  intro j q hj
  cases j with
  | zero => simp at hj
  | succ j => simp at hj

theorem disconnectTxs_step (D : Deps) (blockHash : Nat) (stxos : List SpentTxOut)
    (i : Nat) (tx : Tx) (rest : List (Nat × Tx)) (idx : Int) (w : UtxoViewpoint)
    (r : Int × UtxoViewpoint)
    (h : disconnectTxs D blockHash stxos ((i, tx) :: rest) idx w = some r) :
    ∃ w1,
      disconnectTxs D blockHash stxos rest (idx - ((txSlots D i tx).length : Int)) w1 = some r ∧
      WalkRel stxos (txSlots D i tx).reverse
        (if skipped D tx = true then [] else spendableOutpoints D tx) idx w w1 ∧
      (skipped D tx = false →
        (∀ q ∈ spendableOutpoints D tx, some q ∉ txSlots D i tx →
          ∃ e, w1.entries q = some e ∧ e.spent = true) ∧
        (∀ (k : Nat) (hk : k < tx.Tx.TxOut.length), tx.Tx.TxOut.length ≤ 4294967296 →
          D.IsUnspendable (tx.Tx.TxOut.get ⟨k, hk⟩).PkScript = false →
          w.entries { Hash := tx.hash, OutIndex := k } = none →
          some ({ Hash := tx.hash, OutIndex := k } : TxOutPoint) ∉ txSlots D i tx →
          w1.entries { Hash := tx.hash, OutIndex := k } =
            some (NewUtxoEntry (tx.Tx.TxOut.get ⟨k, hk⟩).Amount
              (tx.Tx.TxOut.get ⟨k, hk⟩).PkScript blockHash (decide (i = 0))).Spend)) := by
  cases hsk : skipped D tx with
  | true =>
    rw [disconnectTxs_skipped D blockHash stxos i tx rest idx w hsk] at h
    refine ⟨w, ?_, ?_, fun hc => by cases hc⟩
    · simpa [txSlots_skipped D i tx hsk] using h
    · simpa [txSlots_skipped D i tx hsk] using WalkRel.nil stxos idx w
  | false =>
    rw [disconnectTxs_kept D blockHash stxos i tx rest idx w hsk] at h
    have hfresh : ∀ (cb : Bool) (k : Nat) (hk : k < tx.Tx.TxOut.length),
        tx.Tx.TxOut.length ≤ 4294967296 →
        D.IsUnspendable (tx.Tx.TxOut.get ⟨k, hk⟩).PkScript = false →
        w.entries { Hash := tx.hash, OutIndex := k } = none →
        (disconnectOutputs D blockHash cb tx.hash tx.Tx.TxOut 0 w).entries
            { Hash := tx.hash, OutIndex := k } =
          some (NewUtxoEntry (tx.Tx.TxOut.get ⟨k, hk⟩).Amount
            (tx.Tx.TxOut.get ⟨k, hk⟩).PkScript blockHash cb).Spend := by
      intro cb k hk hlen hsp hnone
      have := disconnectOutputs_fresh D blockHash cb tx.hash tx.Tx.TxOut 0 w k hk
        (by omega) hsp (by simpa using hnone)
      simpa using this
    by_cases hi : i = 0
    · subst hi
      simp only [if_true] at h
      refine ⟨disconnectOutputs D blockHash true tx.hash tx.Tx.TxOut 0 w, ?_, ?_,
        fun _ => ⟨?_, ?_⟩⟩
      · simpa [txSlots_zero] using h
      · simpa [txSlots_zero] using disconnectOutputs_walk D blockHash true tx stxos idx w
      · intro q hq _
        exact disconnectOutputs_mem D blockHash true tx.hash q _ 0 w hq
      · intro k hk hlen hsp hnone _
        simpa using hfresh true k hk hlen hsp hnone
    · simp only [if_neg hi] at h
      have hdec : decide (i = 0) = false := by simp [hi]
      rw [hdec]
      cases him : D.IsCrossChainImportTx tx.Tx with
      | true =>
        simp only [him, if_true] at h
        refine ⟨disconnectOutputs D blockHash false tx.hash tx.Tx.TxOut 0 w, ?_, ?_,
          fun _ => ⟨?_, ?_⟩⟩
        · simpa [txSlots_import D i tx hsk hi him] using h
        · have := WalkRel.comp (disconnectOutputs_walk D blockHash false tx stxos idx w)
            (WalkRel.import stxos (idx - (([] : List (Option TxOutPoint)).length : Int)) _)
          simpa [txSlots_import D i tx hsk hi him] using this
        · intro q hq _
          exact disconnectOutputs_mem D blockHash false tx.hash q _ 0 w hq
        · intro k hk hlen hsp hnone _
          exact hfresh false k hk hlen hsp hnone
      | false =>
        simp only [him, Bool.false_eq_true, if_false] at h
        cases hin : disconnectInputs D tx stxos tx.Tx.TxIn.enum.reverse idx
            (disconnectOutputs D blockHash false tx.hash tx.Tx.TxOut 0 w) with
        | none => simp [hin] at h
        | some r1 =>
          simp only [hin] at h
          obtain ⟨hidx, -, hfr, -⟩ := disconnectInputs_props D tx stxos _ idx _ r1 hin
          have hslots := txSlots_inputs D i tx hsk hi him
          have hlen : ((txSlots D i tx).length : Int) =
              ((tx.Tx.TxIn.enum.reverse.filter (spendsJournal D tx)).length : Int) := by
            have := congrArg List.length hslots
            simp only [List.length_reverse, List.length_map] at this
            rw [this]
          have hnotmem : ∀ q : TxOutPoint, some q ∉ txSlots D i tx →
              q ∉ (tx.Tx.TxIn.enum.reverse.filter (spendsJournal D tx)).map
                (fun p => p.2.PreviousOut) := by
            intro q hq hc
            apply hq
            rw [← List.mem_reverse, hslots]
            obtain ⟨p, hp, rfl⟩ := List.mem_map.mp hc
            exact List.mem_map.mpr ⟨p, hp, rfl⟩
          refine ⟨r1.2, ?_, ?_, fun _ => ⟨?_, ?_⟩⟩
          · rw [hlen, ← hidx]
            exact h
          · have := WalkRel.comp (disconnectOutputs_walk D blockHash false tx stxos idx w)
              (disconnectInputs_walk D tx stxos _
                (idx - (([] : List (Option TxOutPoint)).length : Int)) _ r1
                (by simpa using hin))
            rw [hslots]
            simpa using this
          · intro q hq hnot
            rw [hfr q (hnotmem q hnot)]
            exact disconnectOutputs_mem D blockHash false tx.hash q _ 0 w hq
          · intro k hk hlen2 hsp hnone hnot
            rw [hfr _ (hnotmem _ hnot)]
            exact hfresh false k hk hlen2 hsp hnone


theorem consumedSlots_cons (D : Deps) (a : Nat × Tx) (l : List (Nat × Tx)) :
    consumedSlots D (a :: l) = (txSlots D a.1 a.2).reverse ++ consumedSlots D l := by
  simp [consumedSlots]

theorem consumedSlots_append (D : Deps) (l1 l2 : List (Nat × Tx)) :
    consumedSlots D (l1 ++ l2) = consumedSlots D l1 ++ consumedSlots D l2 := by
  simp [consumedSlots]

theorem blockSlots_append (D : Deps) (l1 l2 : List (Nat × Tx)) :
    blockSlots D (l1 ++ l2) = blockSlots D l1 ++ blockSlots D l2 := by
  simp [blockSlots]

theorem consumedSlots_reverse (D : Deps) (l : List (Nat × Tx)) :
    consumedSlots D l.reverse = (blockSlots D l).reverse := by
  induction l with
  | nil => rfl
  | cons a t ih =>
    rw [List.reverse_cons, consumedSlots_append, ih]
    simp [consumedSlots, blockSlots]

theorem markedOutpoints_cons (D : Deps) (a : Nat × Tx) (l : List (Nat × Tx)) :
    markedOutpoints D (a :: l) =
      (if skipped D a.2 = true then [] else spendableOutpoints D a.2) ++
        markedOutpoints D l := by
  simp [markedOutpoints]

theorem mem_markedOutpoints (D : Deps) (l : List (Nat × Tx)) (q : TxOutPoint) :
    q ∈ markedOutpoints D l ↔
      ∃ p ∈ l, skipped D p.2 = false ∧ q ∈ spendableOutpoints D p.2 := by
  induction l with
  | nil => simp [markedOutpoints]
  | cons a t ih =>
    rw [markedOutpoints_cons, List.mem_append, ih]
    cases hsk : skipped D a.2 <;> simp [hsk]

theorem mem_consumedSlots (D : Deps) (l : List (Nat × Tx)) (x : Option TxOutPoint) :
    x ∈ consumedSlots D l ↔ ∃ p ∈ l, x ∈ txSlots D p.1 p.2 := by
  induction l with
  | nil => simp [consumedSlots]
  | cons a t ih =>
    rw [consumedSlots_cons, List.mem_append, ih]
    simp

theorem mem_blockSlots (D : Deps) (l : List (Nat × Tx)) (x : Option TxOutPoint) :
    x ∈ blockSlots D l ↔ ∃ p ∈ l, x ∈ txSlots D p.1 p.2 := by
  induction l with
  | nil => simp [blockSlots]
  | cons a t ih =>
    have hcons : blockSlots D (a :: t) = txSlots D a.1 a.2 ++ blockSlots D t := by
      simp [blockSlots]
    rw [hcons, List.mem_append, ih]
    simp

theorem disconnectTxs_walk (D : Deps) (blockHash : Nat) (stxos : List SpentTxOut) :
    ∀ (l : List (Nat × Tx)) (idx : Int) (w : UtxoViewpoint) (r : Int × UtxoViewpoint),
      disconnectTxs D blockHash stxos l idx w = some r →
      r.1 = idx - ((consumedSlots D l).length : Int) ∧
        WalkRel stxos (consumedSlots D l) (markedOutpoints D l) idx w r.2 := by
  intro l
  induction l with
  | nil =>
    intro idx w r h
    simp only [disconnectTxs, Option.some.injEq] at h
    subst h
    exact ⟨by simp [consumedSlots], WalkRel.nil stxos idx w⟩
  | cons a rest ih =>
    intro idx w r h
    obtain ⟨i, tx⟩ := a
    obtain ⟨w1, h1, hrel, -⟩ := disconnectTxs_step D blockHash stxos i tx rest idx w r h
    obtain ⟨hidx, hrel2⟩ := ih _ w1 r h1
    rw [consumedSlots_cons, markedOutpoints_cons]
    refine ⟨?_, WalkRel.comp hrel (by simpa using hrel2)⟩
    rw [hidx]
    simp only [List.length_append, List.length_reverse]
    push_cast
    omega

theorem disconnectTxs_total (D : Deps) (blockHash : Nat) (stxos : List SpentTxOut) :
    ∀ (l : List (Nat × Tx)) (idx : Int) (w : UtxoViewpoint),
      ((consumedSlots D l).length : Int) ≤ idx + 1 → idx < (stxos.length : Int) →
      ∃ r, disconnectTxs D blockHash stxos l idx w = some r := by
  intro l
  induction l with
  | nil => intro idx w _ _; exact ⟨_, rfl⟩
  | cons a rest ih =>
    intro idx w hlen hidx
    obtain ⟨i, tx⟩ := a
    rw [consumedSlots_cons] at hlen
    simp only [List.length_append, List.length_reverse] at hlen
    push_cast at hlen
    cases hsk : skipped D tx with
    | true =>
      rw [disconnectTxs_skipped D blockHash stxos i tx rest idx w hsk]
      exact ih idx w (by omega) hidx
    | false =>
      rw [disconnectTxs_kept D blockHash stxos i tx rest idx w hsk]
      by_cases hi : i = 0
      · simp only [hi, if_true]
        exact ih idx _ (by omega) hidx
      · simp only [if_neg hi]
        cases him : D.IsCrossChainImportTx tx.Tx with
        | true =>
          simp only [if_true]
          rw [txSlots_import D i tx hsk hi him] at hlen
          simp only [List.length_singleton] at hlen
          exact ih (idx - 1) _ (by push_cast at hlen; omega) (by omega)
        | false =>
          simp only [Bool.false_eq_true, if_false]
          have hslots := congrArg List.length (txSlots_inputs D i tx hsk hi him)
          simp only [List.length_reverse, List.length_map] at hslots
          rw [hslots] at hlen
          obtain ⟨r1, hr1⟩ := disconnectInputs_total D tx stxos tx.Tx.TxIn.enum.reverse idx
            (disconnectOutputs D blockHash false tx.hash tx.Tx.TxOut 0 w) (by omega) hidx
          obtain ⟨hidx1, -⟩ := disconnectInputs_props D tx stxos _ idx _ r1 hr1
          rw [hr1]
          exact ih r1.1 r1.2 (by omega) (by omega)

/-- C27. When the journal has as many entries as the block's transactions
consume (one per input of each transaction that is neither skipped nor
transaction 0, less input 0 of a token-mint transaction, and one per
cross-chain import transaction), `disconnectTransactions` never reads the
journal out of range: it returns instead of faulting, without an error when the
count check passes. The journal index starts at `len(stxos) - 1`; once the walk
has handled the transactions after any position of the block, the index is the
number of entries that the transactions before that position consume, less
one; so it has gone down by one for each entry consumed, and it ends at
`-1`. -/
theorem disconnectTransactions_journal_index (D : Deps) (block : SerializedBlock)
    (stxos : List SpentTxOut) (view : UtxoViewpoint)
    (hslots : stxos.length = (blockSlots D block.Transactions.enum).length) :
    (∃ res, disconnectTransactions D block stxos view = Ret.returned res) ∧
    (D.countSpentOutputs block = (stxos.length : Int) →
      ∃ w', disconnectTransactions D block stxos view = Ret.returned (none, w')) ∧
    (∀ pre post, block.Transactions.enum = pre ++ post →
      ∃ w1, disconnectTxs D block.hash stxos post.reverse ((stxos.length : Int) - 1) view =
        some (((blockSlots D pre).length : Int) - 1, w1)) ∧
    (∃ w1, disconnectTxs D block.hash stxos block.Transactions.enum.reverse
      ((stxos.length : Int) - 1) view = some (-1, w1)) := by
  have hsplit : ∀ pre post, block.Transactions.enum = pre ++ post →
      ∃ w1, disconnectTxs D block.hash stxos post.reverse ((stxos.length : Int) - 1) view =
        some (((blockSlots D pre).length : Int) - 1, w1) := by
    intro pre post hpp
    have hlen : stxos.length = (blockSlots D pre).length + (blockSlots D post).length := by
      rw [hslots, hpp, blockSlots_append, List.length_append]
    have hc : (consumedSlots D post.reverse).length = (blockSlots D post).length := by
      rw [consumedSlots_reverse, List.length_reverse]
    obtain ⟨r, hr⟩ := disconnectTxs_total D block.hash stxos post.reverse
      ((stxos.length : Int) - 1) view (by rw [hc]; omega) (by omega)
    obtain ⟨hidx, -⟩ := disconnectTxs_walk D block.hash stxos _ _ _ r hr
    refine ⟨r.2, ?_⟩
    rw [hr]
    congr 1
    apply Prod.ext
    · rw [hidx, hc]
      simp only
      omega
    · rfl
  have hall := hsplit [] block.Transactions.enum (by simp)
  simp only [List.nil_append, blockSlots, List.map_nil, List.flatten_nil, List.length_nil,
    Nat.cast_zero, zero_sub] at hall
  obtain ⟨w1, hw1⟩ := hall
  refine ⟨?_, ?_, hsplit, ⟨w1, hw1⟩⟩
  · unfold disconnectTransactions
    split
    · exact ⟨_, rfl⟩
    · rw [hw1]
      exact ⟨_, rfl⟩
  · intro hcount
    unfold disconnectTransactions
    rw [if_neg (by simp [hcount]), hw1]
    exact ⟨_, rfl⟩

/-- Witness of C27: the sample spend disconnected with a journal of one
entry. -/
theorem disconnectTransactions_journal_index_witness :
    ∃ w1, disconnectTxs sampleDeps spendBlock.hash
        [{ Amount := { Value := 100, Id := 0 }, PkScript := [9], BlockHash := 9,
           IsCoinBase := true, TxIndex := 1, TxInIndex := 0, Fees := { Value := 0, Id := 0 } }]
        spendBlock.Transactions.enum.reverse 0 sampleView = some (-1, w1) :=
  (disconnectTransactions_journal_index sampleDeps spendBlock
    [{ Amount := { Value := 100, Id := 0 }, PkScript := [9], BlockHash := 9,
       IsCoinBase := true, TxIndex := 1, TxInIndex := 0, Fees := { Value := 0, Id := 0 } }]
    sampleView (by decide)).2.2.2


theorem disconnectTransactions_ok (D : Deps) (block : SerializedBlock)
    (stxos : List SpentTxOut) (view w' : UtxoViewpoint)
    (hok : disconnectTransactions D block stxos view = Ret.returned (none, w')) :
    ∃ r, disconnectTxs D block.hash stxos block.Transactions.enum.reverse
        ((stxos.length : Int) - 1) view = some r ∧ w'.entries = r.2.entries := by
  unfold disconnectTransactions at hok
  split at hok
  · simp at hok
  · cases hrun : disconnectTxs D block.hash stxos block.Transactions.enum.reverse
        ((stxos.length : Int) - 1) view with
    | none => simp [hrun] at hok
    | some r =>
      simp only [hrun, Ret.returned.injEq, Prod.mk.injEq, true_and] at hok
      exact ⟨r, rfl, by rw [← hok]; rfl⟩

/-- C24, as stated, fails: when two restored inputs have the same previous
outpoint, the entry left there has the fields of the journal entry of the
first of them in block order, not those of the second. -/
theorem disconnectTransactions_restores_counterexample :
    ¬ ∀ (D : Deps) (block : SerializedBlock) (stxos : List SpentTxOut)
        (view w' : UtxoViewpoint),
        disconnectTransactions D block stxos view = Ret.returned (none, w') →
        stxos.length = (blockSlots D block.Transactions.enum).length →
        ∀ (k : Nat) (q : TxOutPoint),
          (blockSlots D block.Transactions.enum)[k]? = some (some q) →
          ∃ stxo e, stxos[k]? = some stxo ∧ w'.entries q = some e ∧ Restores stxo e := by
  intro h
  obtain ⟨stxo, e, h1, h2, h3⟩ := h sampleDeps doubleBlock [sampleStxo 1, sampleStxo 2]
    sampleView
    (returnedView (disconnectTransactions sampleDeps doubleBlock [sampleStxo 1, sampleStxo 2]
      sampleView)) rfl rfl 1 { Hash := 50, OutIndex := 0 } rfl
  have h4 : ((returnedView (disconnectTransactions sampleDeps doubleBlock
      [sampleStxo 1, sampleStxo 2] sampleView)).entries { Hash := 50, OutIndex := 0 }).map
      (fun e => e.amount) = some { Value := 1, Id := 0 } := by decide
  rw [h2] at h4
  simp only [List.getElem?_cons_succ, List.getElem?_cons_zero, Option.some.injEq] at h1
  subst h1
  simp only [Option.map_some', Option.some.injEq] at h4
  have h5 := h3.1
  rw [h4] at h5
  revert h5
  decide

/-- C24, amended. `disconnectTransactions` pops journal entries in reverse.
When the journal has as many entries as the block's transactions consume, the
`k`-th entry consumed in forward block order is paired with the `k`-th journal
entry, and after a successful call the view entry at the previous outpoint of
that input has the journal entry's amount, script and origin block hash, is
marked modified, and is flagged coinbase whenever the journal entry is,
provided no restored input earlier in block order has the same previous
outpoint. For each transaction the walk moves the journal index down by the
number of entries the transaction consumes: none for a skipped transaction and
for transaction 0, one for a cross-chain import transaction, which restores
nothing, and otherwise one for each input but input 0 of a token-mint
transaction. -/
theorem disconnectTransactions_restores (D : Deps) (block : SerializedBlock)
    (stxos : List SpentTxOut) (view w' : UtxoViewpoint)
    (hok : disconnectTransactions D block stxos view = Ret.returned (none, w'))
    (hslots : stxos.length = (blockSlots D block.Transactions.enum).length) :
    (∀ (k : Nat) (q : TxOutPoint),
      (blockSlots D block.Transactions.enum)[k]? = some (some q) →
      some q ∉ (blockSlots D block.Transactions.enum).take k →
      ∃ stxo e, stxos[k]? = some stxo ∧ w'.entries q = some e ∧
        e.amount = stxo.Amount ∧ e.pkScript = stxo.PkScript ∧
        e.blockHash = stxo.BlockHash ∧ e.modified = true ∧
        (stxo.IsCoinBase = true → e.coinBase = true)) ∧
    (∀ (i : Nat) (tx : Tx) (rest : List (Nat × Tx)) (idx : Int) (w : UtxoViewpoint)
      (r : Int × UtxoViewpoint),
      disconnectTxs D block.hash stxos ((i, tx) :: rest) idx w = some r →
      ∃ w1, disconnectTxs D block.hash stxos rest (idx - ((txSlots D i tx).length : Int)) w1 =
        some r) ∧
    (∀ (i : Nat) (tx : Tx), skipped D tx = true ∨ i = 0 → txSlots D i tx = []) ∧
    (∀ (i : Nat) (tx : Tx) (rest : List (Nat × Tx)) (idx : Int) (w : UtxoViewpoint),
      skipped D tx = false → i ≠ 0 → D.IsCrossChainImportTx tx.Tx = true →
      txSlots D i tx = [none] ∧
        disconnectTxs D block.hash stxos ((i, tx) :: rest) idx w =
          disconnectTxs D block.hash stxos rest (idx - 1)
            (disconnectOutputs D block.hash false tx.hash tx.Tx.TxOut 0 w)) ∧
    (∀ (i : Nat) (tx : Tx), skipped D tx = false → i ≠ 0 →
      D.IsCrossChainImportTx tx.Tx = false →
      txSlots D i tx =
        (tx.Tx.TxIn.enum.filter
          (fun p => !(decide (p.1 = 0) && D.IsTokenMintTx tx.Tx))).map
          (fun p => some p.2.PreviousOut)) := by
  refine ⟨?_, ?_, ?_, ?_, ?_⟩
  · intro k q hk hnot
    obtain ⟨r, hrun, hent⟩ := disconnectTransactions_ok D block stxos view w' hok
    obtain ⟨-, -, -, -, hre⟩ := disconnectTxs_walk D block.hash stxos _ _ _ r hrun
    rw [consumedSlots_reverse] at hre
    have hklt : k < (blockSlots D block.Transactions.enum).length := by
      by_contra hc
      rw [List.getElem?_eq_none (by omega)] at hk
      cases hk
    have hj : (blockSlots D block.Transactions.enum).reverse[
        (blockSlots D block.Transactions.enum).length - 1 - k]? = some (some q) := by
      rw [List.getElem?_reverse (by omega)]
      rw [← hk]
      congr 1
      omega
    have hdrop : some q ∉ (blockSlots D block.Transactions.enum).reverse.drop
        ((blockSlots D block.Transactions.enum).length - 1 - k + 1) := by
      rw [List.drop_reverse, List.mem_reverse]
      have hkk : (blockSlots D block.Transactions.enum).length -
          ((blockSlots D block.Transactions.enum).length - 1 - k + 1) = k := by omega
      rw [hkk]
      exact hnot
    obtain ⟨-, stxo, hget, e, he, hr⟩ := hre _ q hj hdrop
    have hidx : ((stxos.length : Int) - 1 -
        (((blockSlots D block.Transactions.enum).length - 1 - k : Nat) : Int)).toNat = k := by
      omega
    rw [hidx] at hget
    rw [hent]
    exact ⟨stxo, e, hget, he, hr.1, hr.2.1, hr.2.2.1, hr.2.2.2.1, hr.2.2.2.2⟩
  · intro i tx rest idx w r h
    obtain ⟨w1, h1, -⟩ := disconnectTxs_step D block.hash stxos i tx rest idx w r h
    exact ⟨w1, h1⟩
  · intro i tx h
    rcases h with h | h
    · exact txSlots_skipped D i tx h
    · subst h
      exact txSlots_zero D tx
  · intro i tx rest idx w hsk hi him
    refine ⟨txSlots_import D i tx hsk hi him, ?_⟩
    rw [disconnectTxs_kept D block.hash stxos i tx rest idx w hsk]
    simp [hi, him]
  · intro i tx hsk hi him
    have h1 : ¬ (skipped D tx = true ∨ i = 0) := by simp [hsk, hi]
    have h2 : ¬ (D.IsCrossChainImportTx tx.Tx = true) := by simp [him]
    unfold txSlots
    rw [if_neg h1, if_neg h2]
    rfl

/-- Witness of C24 amended: the sample spend disconnected with a journal of one
entry. -/
theorem disconnectTransactions_restores_witness :
    ∃ stxo e, [sampleStxo 100][0]? = some stxo ∧
      (returnedView (disconnectTransactions sampleDeps spendBlock [sampleStxo 100]
        sampleView)).entries { Hash := 50, OutIndex := 0 } = some e ∧
      e.amount = stxo.Amount ∧ e.pkScript = stxo.PkScript ∧
      e.blockHash = stxo.BlockHash ∧ e.modified = true ∧
      (stxo.IsCoinBase = true → e.coinBase = true) :=
  (disconnectTransactions_restores sampleDeps spendBlock [sampleStxo 100] sampleView
    (returnedView (disconnectTransactions sampleDeps spendBlock [sampleStxo 100] sampleView))
    rfl rfl).1 0 { Hash := 50, OutIndex := 0 } rfl (by decide)


theorem restoreEntry_spent (e : UtxoEntry) (stxo : SpentTxOut) :
    (restoreEntry (some e) stxo).spent = e.spent := by
  unfold restoreEntry
  cases stxo.IsCoinBase <;> rfl

theorem disconnectInputs_spent (D : Deps) (tx : Tx) (stxos : List SpentTxOut)
    (q : TxOutPoint) :
    ∀ (l : List (Nat × TxInput)) (idx : Int) (w : UtxoViewpoint) (r : Int × UtxoViewpoint),
      disconnectInputs D tx stxos l idx w = some r →
      (∃ e, w.entries q = some e ∧ e.spent = true) →
        ∃ e, r.2.entries q = some e ∧ e.spent = true := by
  intro l
  induction l with
  | nil =>
    intro idx w r h hq
    simp only [disconnectInputs, Option.some.injEq] at h
    subst h
    exact hq
  | cons a rest ih =>
    intro idx w r h hq
    obtain ⟨i, txIn⟩ := a
    by_cases hskip : D.IsTokenMintTx tx.Tx = true ∧ i = 0
    · simp only [disconnectInputs, if_pos hskip] at h
      exact ih idx w r h hq
    · simp only [disconnectInputs, if_neg hskip] at h
      by_cases hneg : idx < 0
      · simp [hneg] at h
      · simp only [if_neg hneg] at h
        cases hget : stxos[idx.toNat]? with
        | none => simp [hget] at h
        | some stxo =>
          simp only [List.get?_eq_getElem?, hget] at h
          refine ih (idx - 1) _ r h ?_
          obtain ⟨e, he, hs⟩ := hq
          by_cases hqp : q = txIn.PreviousOut
          · subst hqp
            refine ⟨_, UtxoViewpoint.entries_AddEntry_self _ _ _, ?_⟩
            simp only [UtxoViewpoint.GetEntry, he]
            rw [restoreEntry_spent]
            exact hs
          · exact ⟨e, by simp [hqp, he], hs⟩

theorem disconnectTxs_spent (D : Deps) (blockHash : Nat) (stxos : List SpentTxOut)
    (q : TxOutPoint) :
    ∀ (l : List (Nat × Tx)) (idx : Int) (w : UtxoViewpoint) (r : Int × UtxoViewpoint),
      disconnectTxs D blockHash stxos l idx w = some r →
      (∃ e, w.entries q = some e ∧ e.spent = true) →
        ∃ e, r.2.entries q = some e ∧ e.spent = true := by
  intro l
  induction l with
  | nil =>
    intro idx w r h hq
    simp only [disconnectTxs, Option.some.injEq] at h
    subst h
    exact hq
  | cons a rest ih =>
    intro idx w r h hq
    obtain ⟨i, tx⟩ := a
    cases hsk : skipped D tx with
    | true =>
      rw [disconnectTxs_skipped D blockHash stxos i tx rest idx w hsk] at h
      exact ih idx w r h hq
    | false =>
      rw [disconnectTxs_kept D blockHash stxos i tx rest idx w hsk] at h
      by_cases hi : i = 0
      · simp only [hi, if_true] at h
        exact ih _ _ r h (disconnectOutputs_spent_preserved D blockHash true tx.hash q _ 0 w hq)
      · simp only [if_neg hi] at h
        have hout := disconnectOutputs_spent_preserved D blockHash false tx.hash q
          tx.Tx.TxOut 0 w hq
        cases him : D.IsCrossChainImportTx tx.Tx with
        | true =>
          simp only [him, if_true] at h
          exact ih _ _ r h hout
        | false =>
          simp only [him, Bool.false_eq_true, if_false] at h
          cases hin : disconnectInputs D tx stxos tx.Tx.TxIn.enum.reverse idx
              (disconnectOutputs D blockHash false tx.hash tx.Tx.TxOut 0 w) with
          | none => simp [hin] at h
          | some r1 =>
            simp only [hin] at h
            exact ih _ _ r h (disconnectInputs_spent D tx stxos q _ idx _ r1 hin hout)

theorem disconnectTxs_marks_head (D : Deps) (blockHash : Nat) (stxos : List SpentTxOut)
    (i : Nat) (tx : Tx) (rest : List (Nat × Tx)) (idx : Int) (w : UtxoViewpoint)
    (r : Int × UtxoViewpoint)
    (h : disconnectTxs D blockHash stxos ((i, tx) :: rest) idx w = some r)
    (hsk : skipped D tx = false) (q : TxOutPoint) (hq : q ∈ spendableOutpoints D tx) :
    ∃ e, r.2.entries q = some e ∧ e.spent = true := by
  rw [disconnectTxs_kept D blockHash stxos i tx rest idx w hsk] at h
  by_cases hi : i = 0
  · simp only [hi, if_true] at h
    exact disconnectTxs_spent D blockHash stxos q rest _ _ r h
      (disconnectOutputs_mem D blockHash true tx.hash q _ 0 w hq)
  · simp only [if_neg hi] at h
    have hout := disconnectOutputs_mem D blockHash false tx.hash q tx.Tx.TxOut 0 w hq
    cases him : D.IsCrossChainImportTx tx.Tx with
    | true =>
      simp only [him, if_true] at h
      exact disconnectTxs_spent D blockHash stxos q rest _ _ r h hout
    | false =>
      simp only [him, Bool.false_eq_true, if_false] at h
      cases hin : disconnectInputs D tx stxos tx.Tx.TxIn.enum.reverse idx
          (disconnectOutputs D blockHash false tx.hash tx.Tx.TxOut 0 w) with
      | none => simp [hin] at h
      | some r1 =>
        simp only [hin] at h
        exact disconnectTxs_spent D blockHash stxos q rest _ _ r h
          (disconnectInputs_spent D tx stxos q _ idx _ r1 hin hout)

theorem disconnectOutputs_below (D : Deps) (blockHash : Nat) (isCoinBase : Bool)
    (txHash : Nat) (m : Nat) :
    ∀ (outs : List TxOutput) (idx : Nat) (w : UtxoViewpoint),
      m < idx → idx + outs.length ≤ 4294967296 →
        (disconnectOutputs D blockHash isCoinBase txHash outs idx w).entries
            { Hash := txHash, OutIndex := m } =
          w.entries { Hash := txHash, OutIndex := m } := by
  intro outs
  induction outs with
  | nil => intro idx w _ _; rfl
  | cons o rest ih =>
    intro idx w hm hlen
    simp only [List.length_cons] at hlen
    have hidx : uint32 idx = idx := Nat.mod_eq_of_lt (by omega)
    by_cases hu : D.IsUnspendable o.PkScript = true
    · simp only [disconnectOutputs, if_pos hu]
      exact ih (idx + 1) w (by omega) (by omega)
    · simp only [disconnectOutputs, if_neg hu, hidx]
      rw [ih (idx + 1) _ (by omega) (by omega)]
      have hne : ({ Hash := txHash, OutIndex := m } : TxOutPoint) ≠
          { Hash := txHash, OutIndex := idx } := by
        intro h
        injection h with _ h2
        omega
      simp [hne]

theorem disconnectOutputs_unspendable (D : Deps) (blockHash : Nat) (isCoinBase : Bool)
    (txHash : Nat) :
    ∀ (outs : List TxOutput) (idx : Nat) (w : UtxoViewpoint) (j : Nat) (hj : j < outs.length),
      idx + outs.length ≤ 4294967296 →
      D.IsUnspendable (outs.get ⟨j, hj⟩).PkScript = true →
        (disconnectOutputs D blockHash isCoinBase txHash outs idx w).entries
            { Hash := txHash, OutIndex := idx + j } =
          w.entries { Hash := txHash, OutIndex := idx + j } := by
  intro outs
  induction outs with
  | nil => intro idx w j hj; simp at hj
  | cons o rest ih =>
    intro idx w j hj hlen hun
    simp only [List.length_cons] at hj hlen
    have hidx : uint32 idx = idx := Nat.mod_eq_of_lt (by omega)
    cases j with
    | zero =>
      simp only [List.get_eq_getElem, List.getElem_cons_zero] at hun
      simp only [disconnectOutputs, hun, if_true, Nat.add_zero]
      exact disconnectOutputs_below D blockHash isCoinBase txHash idx rest (idx + 1) w
        (by omega) (by omega)
    | succ j =>
      simp only [List.get_eq_getElem, List.getElem_cons_succ] at hun
      rw [show idx + (j + 1) = idx + 1 + j by omega]
      by_cases hu : D.IsUnspendable o.PkScript = true
      · simp only [disconnectOutputs, if_pos hu]
        exact ih (idx + 1) w j (by omega) (by omega) hun
      · simp only [disconnectOutputs, if_neg hu, hidx]
        rw [ih (idx + 1) _ j (by omega) (by omega) hun]
        have hne : ({ Hash := txHash, OutIndex := idx + 1 + j } : TxOutPoint) ≠
            { Hash := txHash, OutIndex := idx } := by
          intro h
          injection h with _ h2
          omega
        simp [hne]

end Qng
